import Mathlib

/-!
# The STM transaction engine of `pypy/translator/stm/src_stm/et.c`

A shallow embedding of the engine, seen from one thread.

Conventions of the embedding.

* Platform: `PYPY_LONG_BIT == 64`, so `long`, `unsigned long` and pointers are
  64 bits wide and `sizeof(orec_t) == 8`.  `unsigned int` is 32 bits wide.
* A `long` is an `Int`, an `unsigned long` a `Nat`.  Casts whose wrap-around
  the code relies on are explicit: `toUnsigned` (the cast `(unsigned long)x`),
  the product `c * 9` on `unsigned int`, the complement `~x`.  Time stamps
  are not reduced modulo `2^64`: the first comment of the source states that
  time is assumed never to wrap around in a `long`.  The statistics counters
  `num_commits`, `num_aborts[]` and `num_spinloops[]` are `unsigned` (32 bits):
  their `++` is an addition modulo `2^32`.
* `assert` is active (no `NDEBUG`), `RPY_STM_ASSERT` and
  `RPY_STM_DEBUG_PRINT` are not defined, `USE_PTHREAD_MUTEX` is.
* A function of the source is a function from the state before the call to
  an `Outcome`: a normal return, the `longjmp` of `tx_restart`, the end of
  the process (failed `assert`, or `abort()`), or a thread that is still
  waiting (in a spin loop, or for the mutex) when the fuel of the loop is used
  up.  The state is the thread's descriptor together with the shared words
  (memory, orec table, global time stamp, mutex); the other threads do not
  run while a function of this thread does.
* `src_stm/lists.c` is not part of the sources at hand; the redo log and the
  read set are modelled from the specification.
-/

namespace Stm

/-! ## Words -/

/-- The cast `(unsigned long)x` of a `long`. -/
def toUnsigned (x : Int) : Nat := (x % (2 : Int) ^ 64).toNat

/-- Range of the type `long`. -/
def isLong (x : Int) : Prop := -(2 : Int) ^ 63 ≤ x ∧ x < (2 : Int) ^ 63

instance (x : Int) : Decidable (isLong x) := by
  unfold isLong
  exact inferInstance

/-- Macro `IS_LOCKED(num)`: `((num) < 0)`. -/
def IS_LOCKED (num : Int) : Bool := decide (num < 0)

/-- Macro `IS_LOCKED_OR_NEWER(num, max_age)`:
`((unsigned long)(num)) > ((unsigned long)(max_age))`. -/
def IS_LOCKED_OR_NEWER (num max_age : Int) : Bool :=
  decide (toUnsigned num > toUnsigned max_age)

/-- Type `orec_t` is a `volatile long`: `sizeof(orec_t)`. -/
def sizeof_orec_t : Nat := 8

/-- Constant `NUM_STRIPES`. -/
def NUM_STRIPES : Nat := 1048576

/-- Function `get_orec`: the byte offset, inside the array `orecs`, of the
orec that covers `addr`. -/
def get_orec (addr : Nat) : Nat :=
  addr &&& ((NUM_STRIPES - 1) * sizeof_orec_t)

/-- Constant `ABORT_REASONS`. -/
def ABORT_REASONS : Nat := 8

/-- Constant `SPINLOOP_REASONS`. -/
def SPINLOOP_REASONS : Nat := 10

/-- Constant `OTHERINEV_REASONS`. -/
def OTHERINEV_REASONS : Nat := 5

/-! ## The redo log and the read set (`src_stm/lists.c`) -/

/-- Modelled from the spec: the entry type `wlog_t` of `src_stm/lists.c`, a
record of the redo log: the word address `addr`, the pending value `val`
("new_value") and `p` ("saved_version"), which is `-1` unless the entry holds
the version that its orec had before it was locked. -/
structure wlog_t where
  addr : Nat
  val : Int
  p : Int
deriving DecidableEq, Repr

/-- Modelled from the spec: `struct RedoLog` of `src_stm/lists.c`, the
entries in the order in which `REDOLOG_LOOP_FORWARD` visits them;
`REDOLOG_LOOP_BACKWARD` visits them in the opposite order. -/
abbrev RedoLog := List wlog_t

/-- Modelled from the spec: `struct OrecList` of `src_stm/lists.c`, the
append-only sequence of the orecs that were read (`items[0 .. size-1]`). -/
abbrev OrecList := List Nat

/-- Modelled from the spec: `REDOLOG_FIND` of `src_stm/lists.c`, "lookup(addr):
returns entry or miss". -/
def REDOLOG_FIND (redolog : RedoLog) (addr : Nat) : Option wlog_t :=
  redolog.find? (fun item => item.addr == addr)

/-- Modelled from the spec: `redolog_insert` of `src_stm/lists.c`,
"insert(addr, val): overwrites any prior entry with the same key.  The
saved_version field is initialized to the sentinel".  A new key is added at
the end of the forward order. -/
def redolog_insert : RedoLog → Nat → Int → RedoLog
  | [], addr, val => [{ addr := addr, val := val, p := -1 }]
  | item :: rest, addr, val =>
    if item.addr == addr then { addr := addr, val := val, p := -1 } :: rest
    else item :: redolog_insert rest addr val

/-- Modelled from the spec: `redolog_any_entry` of `src_stm/lists.c`
("any_entries"). -/
def redolog_any_entry (redolog : RedoLog) : Bool := !redolog.isEmpty

/-- Modelled from the spec: `redolog_clear` of `src_stm/lists.c` ("clear"). -/
def redolog_clear (_redolog : RedoLog) : RedoLog := []

/-- Modelled from the spec: `oreclist_insert` of `src_stm/lists.c`, which
appends an orec to the read set. -/
def oreclist_insert (reads : OrecList) (o : Nat) : OrecList := reads ++ [o]

/-! ## The state -/

/-- Type `struct tx_descriptor`.  A `jmp_buf *` is `none` when it is `NULL`.
The fields `num_commits`, `num_aborts[]`, `num_spinloops[]` and
`spinloop_counter` are `unsigned` (32 bits): the functions that change them
reduce the new value modulo `2^32`. -/
structure tx_descriptor where
  rpython_tls_object : Nat
  setjmp_buf : Option Nat
  start_time : Int
  end_time : Int
  last_known_global_timestamp : Nat
  reads : OrecList
  num_commits : Nat
  num_aborts : Nat → Nat
  num_spinloops : Nat → Nat
  spinloop_counter : Nat
  transaction_active : Bool
  my_lock_word : Int
  redolog : RedoLog

/-- The descriptor `null_tx`. -/
def null_tx : tx_descriptor :=
  { rpython_tls_object := 0, setjmp_buf := none, start_time := 0, end_time := 0,
    last_known_global_timestamp := 0, reads := [], num_commits := 0,
    num_aborts := fun _ => 0, num_spinloops := fun _ => 0, spinloop_counter := 0,
    transaction_active := false, my_lock_word := 0, redolog := [] }

/-- The mutex `mutex_inevitable`, seen from this thread. -/
inductive Mutex where
  | free
  | heldByMe
  | heldByOther
deriving DecidableEq, Repr

/-- The words this thread can see: the memory (one `long` per word-aligned
byte address), the table `orecs` (one `long` per byte offset that `get_orec`
returns), `global_timestamp`, `mutex_inevitable`, the pointer
`thread_descriptor` (`none` when it is `NULL_TX`) and the descriptor `d` it
points to.  `pauses` counts the calls of `spinloop()`, the pause hint of the
processor, which has no other effect. -/
structure State where
  mem : Nat → Int
  orecs : Nat → Int
  global_timestamp : Nat
  mutex_inevitable : Mutex
  thread_descriptor : Option Nat
  d : tx_descriptor
  pauses : Nat

/-- How the process ended. -/
inductive Crash where
  | assertion
  | abortCall
  | nullPointer
deriving DecidableEq, Repr

/-- What a call does: it returns `v` (`ok`), it leaves through
`longjmp(*env, 1)` (`restart`), the process ends (`crash`), or the thread is
still waiting when the fuel is used up (`waiting`).  Each carries the state
reached. -/
inductive Outcome (α : Type) where
  | ok (v : α) (s : State)
  | restart (env : Nat) (s : State)
  | crash (why : Crash) (s : State)
  | waiting (s : State)

/-- The state an outcome carries. -/
def Outcome.state {α : Type} : Outcome α → State
  | .ok _ s => s
  | .restart _ s => s
  | .crash _ s => s
  | .waiting s => s

/-- Sequencing: `f` runs on a normal return, every other outcome is final. -/
def Outcome.andThen {α β : Type} (x : Outcome α) (f : α → State → Outcome β) : Outcome β :=
  match x with
  | .ok v s => f v s
  | .restart env s => .restart env s
  | .crash why s => .crash why s
  | .waiting s => .waiting s

/-- A table with the entry `k` replaced by `v`. -/
def store {β : Type} (f : Nat → β) (k : Nat) (v : β) : Nat → β :=
  fun j => if j = k then v else f j

/-- The expression `x & ~1` on an `unsigned long`: `x` with bit 0 cleared. -/
def and_not_1 (x : Nat) : Nat := x - x % 2

/-- The expression `x & 1` on an `unsigned long`, as a truth value. -/
def and_1 (x : Nat) : Bool := x % 2 != 0

/-! ## Clock, spin loop, mutex -/

/-- Function `get_global_timestamp`. -/
def get_global_timestamp (s : State) : Nat × State :=
  (s.global_timestamp,
   { s with d := { s.d with last_known_global_timestamp := s.global_timestamp } })

/-- Modelled from the spec: macro `bool_cas` of `src_stm/atomic_ops.h`, the
atomic compare-and-swap, applied to `global_timestamp`. -/
def bool_cas_global_timestamp (old new : Nat) (s : State) : Bool × State :=
  if s.global_timestamp = old then (true, { s with global_timestamp := new })
  else (false, s)

/-- Modelled from the spec: macro `bool_cas` of `src_stm/atomic_ops.h`, the
atomic compare-and-swap, applied to the orec `o`. -/
def bool_cas_orec (o : Nat) (old new : Int) (s : State) : Bool × State :=
  if s.orecs o = old then (true, { s with orecs := store s.orecs o new })
  else (false, s)

/-- Function `change_global_timestamp`. -/
def change_global_timestamp (old new : Nat) (s : State) : Bool × State :=
  match bool_cas_global_timestamp old new s with
  | (true, s1) => (true, { s1 with d := { s1.d with last_known_global_timestamp := new } })
  | (false, s1) => (false, s1)

/-- Function `set_global_timestamp`. -/
def set_global_timestamp (new : Nat) (s : State) : State :=
  { s with global_timestamp := new, d := { s.d with last_known_global_timestamp := new } }

/-- The loop `while (i >= 0) { spinloop(); i -= 0x10000; }` of `tx_spinloop`:
the number of calls of `spinloop()` is added to `n`. -/
def tx_spinloop_wait : Nat → Int → Nat → Nat
  | 0, _, n => n
  | fuel + 1, i, n => if i ≥ 0 then tx_spinloop_wait fuel (i - 0x10000) (n + 1) else n

/-- Function `tx_spinloop`.  The loop variable starts at `c & 0xff0000`, which
is at most `0xff0000`, and loses `0x10000` per turn: 257 turns end the loop. -/
def tx_spinloop (num : Nat) (s : State) : State :=
  let d1 := { s.d with
    num_spinloops := store s.d.num_spinloops num ((s.d.num_spinloops num + 1) % 2 ^ 32) }
  let c := d1.spinloop_counter
  let d2 := { d1 with spinloop_counter := (c * 9) % 2 ^ 32 }
  let i : Int := ((c &&& 0xff0000 : Nat) : Int)
  { s with d := d2, pauses := tx_spinloop_wait 257 i s.pauses }

/-- Function `is_inevitable_or_inactive`. -/
def is_inevitable_or_inactive (d : tx_descriptor) : Bool := d.setjmp_buf.isNone

/-- Function `is_inevitable`. -/
def is_inevitable (s : State) : Outcome Bool :=
  if s.d.transaction_active then .ok (is_inevitable_or_inactive s.d) s
  else .crash .assertion s

/-- Macro `mutex_lock()`: `pthread_mutex_lock(&mutex_inevitable)`.  The thread
is blocked as long as the mutex is held. -/
def mutex_lock (s : State) : Outcome Unit :=
  match s.mutex_inevitable with
  | .free => .ok () { s with mutex_inevitable := .heldByMe }
  | .heldByMe => .waiting s
  | .heldByOther => .waiting s

/-- Macro `mutex_unlock()`: `pthread_mutex_unlock(&mutex_inevitable)`. -/
def mutex_unlock (s : State) : State :=
  { s with mutex_inevitable := .free }

/-! ## Redo, locks, abort -/

/-- Function `tx_redo`: its body is `abort();`, the loop that writes the redo
log back is inside `#if 0`. -/
def tx_redo (s : State) : Outcome Unit := .crash .abortCall s

/-- One turn of the loop of `releaseAndRevertLocks`. -/
def revert_item (orecs : Nat → Int) (item : wlog_t) : Nat → Int :=
  if item.p != -1 then store orecs (get_orec item.addr) item.p else orecs

/-- Function `releaseAndRevertLocks`. -/
def releaseAndRevertLocks (s : State) : State :=
  { s with orecs := s.d.redolog.foldl revert_item s.orecs }

/-- Function `releaseLocksForRetry`. -/
def releaseLocksForRetry (s : State) : State :=
  { s with
    orecs := s.d.redolog.foldl revert_item s.orecs,
    d := { s.d with
      redolog := s.d.redolog.map (fun item => if item.p != -1 then { item with p := -1 } else item) } }

/-- Function `common_cleanup`. -/
def common_cleanup (s : State) : Outcome Unit :=
  let s1 := { s with d := { s.d with reads := [], redolog := redolog_clear s.d.redolog } }
  if s1.d.transaction_active then
    .ok () { s1 with d := { s1.d with transaction_active := false, setjmp_buf := none } }
  else .crash .assertion s1

/-- Function `tx_cleanup`. -/
def tx_cleanup (s : State) : Outcome Unit :=
  common_cleanup (releaseAndRevertLocks s)

/-- Function `tx_restart`; `longjmp` does not return. -/
def tx_restart {α : Type} (s : State) : Outcome α :=
  let env := s.d.setjmp_buf
  match tx_cleanup s with
  | .ok _ s1 =>
    let s2 := tx_spinloop 0 s1
    match env with
    | some buf => .restart buf s2
    | none => .crash .nullPointer s2
  | .restart buf s1 => .restart buf s1
  | .crash why s1 => .crash why s1
  | .waiting s1 => .waiting s1

/-- Function `tx_abort`; it does not return. -/
def tx_abort {α : Type} (reason : Nat) (s : State) : Outcome α :=
  match is_inevitable s with
  | .ok true s1 => .crash .assertion s1
  | .ok false s1 =>
    tx_restart
      { s1 with d := { s1.d with
        num_aborts := store s1.d.num_aborts reason ((s1.d.num_aborts reason + 1) % 2 ^ 32) } }
  | .restart buf s1 => .restart buf s1
  | .crash why s1 => .crash why s1
  | .waiting s1 => .waiting s1

/-- The body of the loop of `acquireLocks` for the entry of index `i`, from
the label `retry`.  The fuel bounds the number of passes through `retry`. -/
def acquireLocks_item : Nat → Nat → State → Outcome Unit
  | 0, _, s => .waiting s
  | fuel + 1, i, s =>
    match s.d.redolog[i]? with
    | none => .ok () s
    | some item =>
      let o := get_orec item.addr
      let ovt := s.orecs o
      if !IS_LOCKED_OR_NEWER ovt s.d.start_time then
        match bool_cas_orec o ovt s.d.my_lock_word s with
        | (false, s1) => acquireLocks_item fuel i s1
        | (true, s1) =>
          .ok () { s1 with d := { s1.d with redolog := s1.d.redolog.set i { item with p := ovt } } }
      else if !IS_LOCKED ovt then tx_abort 0 s
      else if ovt != s.d.my_lock_word then
        match is_inevitable s with
        | .ok true s1 => acquireLocks_item fuel i (tx_spinloop 8 s1)
        | .ok false s1 => tx_abort 6 s1
        | .restart buf s1 => .restart buf s1
        | .crash why s1 => .crash why s1
        | .waiting s1 => .waiting s1
      else .ok () s

/-- The loop `REDOLOG_LOOP_BACKWARD` of `acquireLocks`: the entries of index
`n - 1`, ..., `0` are visited in this order. -/
def acquireLocks_loop (fuel : Nat) : Nat → State → Outcome Unit
  | 0, s => .ok () s
  | i + 1, s =>
    match acquireLocks_item fuel i s with
    | .ok _ s1 => acquireLocks_loop fuel i s1
    | .restart buf s1 => .restart buf s1
    | .crash why s1 => .crash why s1
    | .waiting s1 => .waiting s1

/-- Function `acquireLocks`. -/
def acquireLocks (fuel : Nat) (s : State) : Outcome Unit :=
  acquireLocks_loop fuel s.d.redolog.length s

/-- The body of the loop of `validate_fast` for the orec `o`, from the label
`retry`. -/
def validate_fast_item : Nat → Nat → Nat → State → Outcome Unit
  | 0, _, _, s => .waiting s
  | fuel + 1, lognum, o, s =>
    let ovt := s.orecs o
    if IS_LOCKED_OR_NEWER ovt s.d.start_time then
      if IS_LOCKED ovt then validate_fast_item fuel lognum o (tx_spinloop lognum s)
      else tx_abort lognum s
    else .ok () s

/-- The loop of `validate_fast` over `reads.items`. -/
def validate_fast_loop (fuel lognum : Nat) : OrecList → State → Outcome Unit
  | [], s => .ok () s
  | o :: rest, s =>
    match validate_fast_item fuel lognum o s with
    | .ok _ s1 => validate_fast_loop fuel lognum rest s1
    | .restart buf s1 => .restart buf s1
    | .crash why s1 => .crash why s1
    | .waiting s1 => .waiting s1

/-- Function `validate_fast`. -/
def validate_fast (fuel lognum : Nat) (s : State) : Outcome Unit :=
  match is_inevitable s with
  | .ok true s1 => .crash .assertion s1
  | .ok false s1 => validate_fast_loop fuel lognum s1.d.reads s1
  | .restart buf s1 => .restart buf s1
  | .crash why s1 => .crash why s1
  | .waiting s1 => .waiting s1

/-- The loop of `validate` over `reads.items`. -/
def validate_loop : OrecList → State → Outcome Unit
  | [], s => .ok () s
  | o :: rest, s =>
    let ovt := s.orecs o
    if IS_LOCKED_OR_NEWER ovt s.d.start_time then
      if !IS_LOCKED ovt then tx_abort 4 s
      else if ovt != s.d.my_lock_word then tx_abort 5 s
      else validate_loop rest s
    else validate_loop rest s

/-- Function `validate`. -/
def validate (s : State) : Outcome Unit :=
  match is_inevitable s with
  | .ok true s1 => .crash .assertion s1
  | .ok false s1 => validate_loop s1.d.reads s1
  | .restart buf s1 => .restart buf s1
  | .crash why s1 => .crash why s1
  | .waiting s1 => .waiting s1

/-- The loop `while ((curts = get_global_timestamp(d)) & 1)` of
`wait_end_inevitability`, followed by the call of `acquireLocks`. -/
def wait_end_inevitability_loop : Nat → State → Outcome Unit
  | 0, s => .waiting s
  | fuel + 1, s =>
    match get_global_timestamp s with
    | (curts, s1) =>
      if and_1 curts then
        let caught_up : Outcome Unit :=
          if toUnsigned s1.d.start_time < curts - 1 then
            match validate_fast (fuel + 1) 3 s1 with
            | .ok _ s2 => .ok () { s2 with d := { s2.d with start_time := ((curts - 1 : Nat) : Int) } }
            | other => other
          else .ok () s1
        match caught_up with
        | .ok _ s2 =>
          match mutex_lock (tx_spinloop 4 s2) with
          | .ok _ s3 => wait_end_inevitability_loop fuel (mutex_unlock s3)
          | other => other
        | other => other
      else acquireLocks (fuel + 1) s1

/-- Function `wait_end_inevitability`. -/
def wait_end_inevitability (fuel : Nat) (s : State) : Outcome Unit :=
  wait_end_inevitability_loop fuel (releaseLocksForRetry s)

/-- Function `commitInevitableTransaction`. -/
def commitInevitableTransaction (s : State) : Outcome Unit :=
  match get_global_timestamp s with
  | (ts, s1) =>
    if and_1 ts then
      let s2 := set_global_timestamp (ts + 1) s1
      let s3 := { s2 with d := { s2.d with end_time := ((ts + 1 : Nat) : Int) } }
      if s3.d.end_time == s3.d.start_time + 2 then
        match tx_redo s3 with
        | .ok _ s4 => .ok () (mutex_unlock s4)
        | other => other
      else .crash .assertion s3
    else .crash .assertion s1

/-! ## Reading and writing words -/

/-- The value of `sizeof(void*)`. -/
def sizeof_void_p : Nat := 8

/-- The path of `stm_read_word` from the label `retry`, for the orec `o` of
`addr`. -/
def stm_read_word_retry : Nat → Nat → Nat → State → Outcome Int
  | 0, _, _, s => .waiting s
  | fuel + 1, addr, o, s =>
    let ovt := s.orecs o
    if IS_LOCKED_OR_NEWER ovt s.d.start_time && IS_LOCKED ovt then
      stm_read_word_retry fuel addr o (tx_spinloop 7 s)
    else
      let scaled : Outcome Unit :=
        if IS_LOCKED_OR_NEWER ovt s.d.start_time then
          match get_global_timestamp s with
          | (ts, s1) =>
            match validate_fast (fuel + 1) 1 s1 with
            | .ok _ s2 => .ok () { s2 with d := { s2.d with start_time := ((and_not_1 ts : Nat) : Int) } }
            | other => other
        else .ok () s
      match scaled with
      | .ok _ s3 =>
        let tmp := s3.mem addr
        if s3.orecs o != ovt then stm_read_word_retry fuel addr o s3
        else .ok tmp { s3 with d := { s3.d with reads := oreclist_insert s3.d.reads o } }
      | .restart buf s3 => .restart buf s3
      | .crash why s3 => .crash why s3
      | .waiting s3 => .waiting s3

/-- Function `stm_read_word`. -/
def stm_read_word (fuel : Nat) (addr : Nat) (s : State) : Outcome Int :=
  if !s.d.transaction_active then .ok (s.mem addr) s
  else
    match REDOLOG_FIND s.d.redolog addr with
    | some found => .ok found.val s
    | none => stm_read_word_retry fuel addr (get_orec addr) s

/-- Function `stm_write_word`. -/
def stm_write_word (addr : Nat) (val : Int) (s : State) : Outcome Unit :=
  if addr &&& (sizeof_void_p - 1) == 0 then
    if !s.d.transaction_active then .ok () { s with mem := store s.mem addr val }
    else .ok () { s with d := { s.d with redolog := redolog_insert s.d.redolog addr val } }
  else .crash .assertion s

/-! ## Begin, commit, inevitable -/

/-- Function `begin_transaction`. -/
def begin_transaction (buf : Nat) (s : State) : Outcome Unit :=
  if !s.d.transaction_active then
    .ok () { s with d := { s.d with
      transaction_active := true,
      setjmp_buf := some buf,
      start_time := ((and_not_1 s.d.last_known_global_timestamp : Nat) : Int) } }
  else .crash .assertion s

/-- The loop `while (1)` of `commit_transaction`, which ends when the clock
has been moved from `expected` to `expected + 2`. -/
def commit_transaction_clock : Nat → State → Outcome Unit
  | 0, s => .waiting s
  | fuel + 1, s =>
    match get_global_timestamp s with
    | (expected, s1) =>
      if and_1 expected then
        match wait_end_inevitability (fuel + 1) s1 with
        | .ok _ s2 => commit_transaction_clock fuel s2
        | other => other
      else
        match change_global_timestamp expected (expected + 2) s1 with
        | (true, s2) => .ok () { s2 with d := { s2.d with end_time := ((expected + 2 : Nat) : Int) } }
        | (false, s2) => commit_transaction_clock fuel s2

/-- The branch of `commit_transaction` for an empty redo log. -/
def commit_transaction_no_writes (s : State) : Outcome Int :=
  (is_inevitable s).andThen fun inev s1 =>
    let dropped : Outcome Unit :=
      if inev then
        match get_global_timestamp s1 with
        | (ts, s2) =>
          if and_1 ts then .ok () (mutex_unlock (set_global_timestamp (ts - 1) s2))
          else .crash .assertion s2
      else .ok () s1
    dropped.andThen fun _ s3 =>
      (common_cleanup
        { s3 with d := { s3.d with num_commits := (s3.d.num_commits + 1) % 2 ^ 32 } }).andThen
        fun _ s4 => .ok s4.d.start_time s4

/-- The branch of `commit_transaction` for a redo log with entries. -/
def commit_transaction_writes (fuel : Nat) (s : State) : Outcome Int :=
  (acquireLocks fuel s).andThen fun _ s1 =>
    (is_inevitable s1).andThen fun inev s2 =>
      let redone : Outcome Unit :=
        if inev then commitInevitableTransaction s2
        else
          (commit_transaction_clock fuel s2).andThen fun _ s3 =>
            let validated : Outcome Unit :=
              if s3.d.end_time != s3.d.start_time + 2 then validate s3 else .ok () s3
            validated.andThen fun _ s4 => tx_redo s4
      redone.andThen fun _ s5 =>
        (common_cleanup
        { s5 with d := { s5.d with num_commits := (s5.d.num_commits + 1) % 2 ^ 32 } }).andThen
          fun _ s6 => .ok s6.d.end_time s6

/-- Function `commit_transaction`. -/
def commit_transaction (fuel : Nat) (s : State) : Outcome Int :=
  if !redolog_any_entry s.d.redolog then commit_transaction_no_writes s
  else commit_transaction_writes fuel s

/-- The loop `while (1)` of `stm_try_inevitable`. -/
def stm_try_inevitable_loop : Nat → State → Outcome Unit
  | 0, s => .waiting s
  | fuel + 1, s =>
    match get_global_timestamp s with
    | (curtime, s1) =>
      let scaled : Outcome Unit :=
        if toUnsigned s1.d.start_time != and_not_1 curtime then
          match validate_fast (fuel + 1) 2 s1 with
          | .ok _ s2 => .ok () { s2 with d := { s2.d with start_time := ((and_not_1 curtime : Nat) : Int) } }
          | other => other
        else .ok () s1
      match scaled with
      | .ok _ s2 =>
        match mutex_lock s2 with
        | .ok _ s3 =>
          if and_1 curtime then stm_try_inevitable_loop fuel (tx_spinloop 6 (mutex_unlock s3))
          else
            match change_global_timestamp curtime (curtime + 1) s3 with
            | (true, s4) => .ok () s4
            | (false, s4) => stm_try_inevitable_loop fuel (mutex_unlock s4)
        | other => other
      | other => other

/-- Function `stm_try_inevitable`. -/
def stm_try_inevitable (fuel : Nat) (s : State) : Outcome Unit :=
  if !s.d.transaction_active then .ok () s
  else if is_inevitable_or_inactive s.d then .ok () s
  else
    match stm_try_inevitable_loop fuel s with
    | .ok _ s1 => .ok () { s1 with d := { s1.d with setjmp_buf := none } }
    | other => other

/-- Function `stm_abort_and_retry`. -/
def stm_abort_and_retry (s : State) : Outcome Unit := tx_abort 7 s

/-! ## A thread that increments a word (scenario 1 of the specification) -/

/-- The address of the word `X` of the scenario. -/
def scenario_X : Nat := 4096

/-- A registered thread outside a transaction: its descriptor lies at the
address `1000`, so its lock word is `~1000 = -1001` and its spin loop counter
`(unsigned int)(-1001 | 1)`; `X` holds `10`, every orec holds the version `0`,
the clock shows `2`. -/
def scenario_init : State :=
  { mem := fun a => if a = scenario_X then 10 else 0,
    orecs := fun _ => 0,
    global_timestamp := 2,
    mutex_inevitable := .free,
    thread_descriptor := some 1000,
    d := { null_tx with my_lock_word := -1001, spinloop_counter := 4294966295 },
    pauses := 0 }

/-- The body `write_word(&X, read_word(&X) + 1)` of the scenario. -/
def scenario_body (fuel : Nat) (s : State) : Outcome Unit :=
  (stm_read_word fuel scenario_X s).andThen fun v s1 => stm_write_word scenario_X (v + 1) s1

/-- The state in which the first transaction of the scenario calls
`commit_transaction`: after `begin_transaction` and the body. -/
def scenario_before_commit : State :=
  ((begin_transaction 1 scenario_init).andThen fun _ s => scenario_body 1 s).state

/-- A transaction of the thread of the scenario that has become inevitable
and has written nothing: `begin_transaction`, then `stm_try_inevitable`. -/
def scenario_inevitable : State :=
  ((begin_transaction 1 scenario_init).andThen fun _ s => stm_try_inevitable 1 s).state

/-- The transaction of the scenario after `acquireLocks`: the orec of `X` holds
the lock word and the entry of `X` the version `0` that the orec had. -/
def scenario_locked : State := (acquireLocks 1 scenario_before_commit).state

/-- The transaction of the scenario before its commit, after another thread
has committed a write to `X` at the time `4`. -/
def scenario_newer : State :=
  { scenario_before_commit with orecs := fun _ => 4, global_timestamp := 4 }

/-- The transaction of the scenario before its commit, made inevitable, while
another thread, whose lock word is `-2001`, holds the orec of `X`. -/
def scenario_inevitable_blocked : State :=
  { scenario_before_commit with
    orecs := fun _ => -2001,
    global_timestamp := 3,
    mutex_inevitable := .heldByMe,
    d := { scenario_before_commit.d with setjmp_buf := none, start_time := 2 } }

/-! ## A property of outcomes, for the proofs about the clock -/

/-- The outcome `r` of a call made in the state `s` has moved the clock by
`k` if the call returned, and not at all otherwise; it is not the end of the
process in `abort()`; and if the call returned, `setjmp_buf` and
`transaction_active` are as in `s`. -/
def Outcome.clockStep {α : Type} (k : Nat) (r : Outcome α) (s : State) : Prop :=
  match r with
  | .ok _ s1 =>
    s1.global_timestamp = s.global_timestamp + k ∧ s1.d.setjmp_buf = s.d.setjmp_buf
      ∧ s1.d.transaction_active = s.d.transaction_active
  | .restart _ s1 => s1.global_timestamp = s.global_timestamp
  | .crash why s1 => s1.global_timestamp = s.global_timestamp ∧ why ≠ .abortCall
  | .waiting s1 => s1.global_timestamp = s.global_timestamp

/-- The state `t` differs from `s` at most in the orec table, where an orec of
`t` holds what it held in `s` or the lock word of the thread, and in the
fields `p` of the entries of the redo log. -/
def locksTaken (s t : State) : Prop :=
  t.mem = s.mem ∧ t.global_timestamp = s.global_timestamp
  ∧ t.mutex_inevitable = s.mutex_inevitable ∧ t.pauses = s.pauses
  ∧ t.d.setjmp_buf = s.d.setjmp_buf ∧ t.d.start_time = s.d.start_time
  ∧ t.d.end_time = s.d.end_time ∧ t.d.reads = s.d.reads
  ∧ t.d.num_commits = s.d.num_commits ∧ t.d.num_aborts = s.d.num_aborts
  ∧ t.d.num_spinloops = s.d.num_spinloops
  ∧ t.d.transaction_active = s.d.transaction_active
  ∧ t.d.my_lock_word = s.d.my_lock_word
  ∧ t.d.redolog.map (fun item => item.addr) = s.d.redolog.map (fun item => item.addr)
  ∧ t.d.redolog.map (fun item => item.val) = s.d.redolog.map (fun item => item.val)
  ∧ ∀ o, t.orecs o = s.orecs o ∨ t.orecs o = s.d.my_lock_word

/-! ## Descriptors, `stm_perform_transaction`, state of the thread -/

/-- The cast `(long)x` of an `unsigned long` or of a pointer. -/
def toSigned (x : Nat) : Int :=
  if x % 2 ^ 64 < 2 ^ 63 then ((x % 2 ^ 64 : Nat) : Int)
  else ((x % 2 ^ 64 : Nat) : Int) - (2 : Int) ^ 64

/-- The expression `x | 1` on a `long`: `x` with bit 0 set. -/
def or_1 (x : Int) : Int := if x % 2 = 0 then x + 1 else x

/-- Function `descriptor_init`.  `p` is the pointer that `malloc` returns (`0`
is `NULL`, with which `memset` ends the process); after `memset` every field of
the descriptor is zero, as in `null_tx`. -/
def descriptor_init (p : Nat) (s : State) : Outcome Nat :=
  if s.thread_descriptor.isSome then .crash .assertion s
  else if p = 0 then .crash .nullPointer s
  else
    let d1 := { null_tx with my_lock_word := toSigned p }
    let d2 := if !IS_LOCKED d1.my_lock_word then { d1 with my_lock_word := ~~~d1.my_lock_word } else d1
    if IS_LOCKED d2.my_lock_word then
      let d3 := { d2 with spinloop_counter := ((or_1 d2.my_lock_word) % (2 : Int) ^ 32).toNat }
      .ok p { s with thread_descriptor := some p, d := d3 }
    else .crash .assertion { s with d := d2 }

/-- Function `descriptor_done`; the descriptor is freed, the thread is back to
`NULL_TX`. -/
def descriptor_done (s : State) : Outcome Unit :=
  if s.thread_descriptor.isSome then .ok () { s with thread_descriptor := none, d := null_tx }
  else .crash .assertion s

/-- Function `stm_thread_id`. -/
def stm_thread_id (s : State) : Int := s.d.my_lock_word

/-- Function `stm_debug_get_state`. -/
def stm_debug_get_state (s : State) : Outcome Int :=
  if s.thread_descriptor.isNone then .ok (-1) s
  else if !s.d.transaction_active then .ok 0 s
  else
    match is_inevitable s with
    | .ok false s1 => .ok 1 s1
    | .ok true s1 => .ok 2 s1
    | .restart buf s1 => .restart buf s1
    | .crash why s1 => .crash why s1
    | .waiting s1 => .waiting s1

/-- Function `stm_perform_transaction`, from the call of `setjmp` on: the
`longjmp` of an abort comes back to `setjmp`, which is one more turn of this
loop.  `jmpbuf` is the address of `_jmpbuf`, `v_counter` the value of the
variable of this name, `restarts` the fuel for the turns; `fuel` is the fuel
of `commit_transaction`. -/
def stm_perform_transaction_setjmp (callback : Nat → Int → State → Outcome Nat)
    (arg jmpbuf fuel : Nat) : Nat → Int → State → Outcome Nat
  | 0, _, s => .waiting s
  | restarts + 1, v_counter, s =>
    let attempt : Outcome Nat :=
      (begin_transaction jmpbuf s).andThen fun _ s1 =>
        let counter := v_counter
        (callback arg counter s1).andThen fun result s2 =>
          (commit_transaction fuel s2).andThen fun _ s3 => .ok result s3
    match attempt with
    | .restart env s4 =>
      if env = jmpbuf then
        stm_perform_transaction_setjmp callback arg jmpbuf fuel restarts (v_counter + 1) s4
      else .restart env s4
    | other => other

/-- Function `stm_perform_transaction`. -/
def stm_perform_transaction (callback : Nat → Int → State → Outcome Nat)
    (arg jmpbuf fuel restarts : Nat) (s : State) : Outcome Nat :=
  if s.thread_descriptor.isSome then
    stm_perform_transaction_setjmp callback arg jmpbuf fuel restarts 0 s
  else .crash .assertion s

/-- The thread of the scenario before it is registered: `thread_descriptor`
is `NULL_TX`. -/
def scenario_unregistered : State :=
  { scenario_init with thread_descriptor := none, d := null_tx }

/-- A body for `stm_perform_transaction` that calls `stm_abort_and_retry` as
long as its retry count is below `k`, and returns its retry count after
that. -/
def body_abort_below (k : Nat) (_arg : Nat) (counter : Int) (s : State) : Outcome Nat :=
  if counter < (k : Int) then (stm_abort_and_retry s).andThen fun _ s1 => .ok 0 s1
  else .ok counter.toNat s

/-- The body of scenario 6 of the specification: with the retry count 0 it
calls `stm_abort_and_retry`, otherwise it writes `X = 7`. -/
def scenario_6_body (_arg : Nat) (counter : Int) (s : State) : Outcome Nat :=
  if counter == 0 then (stm_abort_and_retry s).andThen fun _ s1 => .ok 0 s1
  else (stm_write_word scenario_X 7 s).andThen fun _ s1 => .ok 0 s1

/-- The address of the word `B` of the body of property P1; the word `A` is
`X`. -/
def scenario_B : Nat := 4104

/-- The body of property P1 of the specification: it reads the words `A` and
`B` and writes `A + 1` and `B - 1`. -/
def scenario_P1_body (fuel : Nat) (_arg : Nat) (_counter : Int) (s : State) : Outcome Nat :=
  (stm_read_word fuel scenario_X s).andThen fun a s1 =>
    (stm_read_word fuel scenario_B s1).andThen fun b s2 =>
      (stm_write_word scenario_X (a + 1) s2).andThen fun _ s3 =>
        (stm_write_word scenario_B (b - 1) s3).andThen fun _ s4 => .ok 0 s4

/-- The address of a second word that shares the orec of `X`: the two
addresses differ by the size of the span of the orec table. -/
def scenario_X_alias : Nat := 8392704

/-- A transaction of the thread of the scenario that has written `11` to
`X` and `12` to the word at `scenario_X_alias`, before its commit. -/
def scenario_aliased : State :=
  ((begin_transaction 1 scenario_init).andThen fun _ s =>
    (stm_write_word scenario_X 11 s).andThen fun _ s1 =>
      stm_write_word scenario_X_alias 12 s1).state

/-- The state `t` differs from `s` at most in what `tx_spinloop` changes: the
counters `num_spinloops`, `spinloop_counter` and the count of pauses. -/
def onlySpins (s t : State) : Prop :=
  t.mem = s.mem ∧ t.orecs = s.orecs ∧ t.global_timestamp = s.global_timestamp
  ∧ t.mutex_inevitable = s.mutex_inevitable ∧ t.thread_descriptor = s.thread_descriptor
  ∧ t.d.setjmp_buf = s.d.setjmp_buf ∧ t.d.start_time = s.d.start_time
  ∧ t.d.end_time = s.d.end_time
  ∧ t.d.last_known_global_timestamp = s.d.last_known_global_timestamp
  ∧ t.d.reads = s.d.reads ∧ t.d.num_commits = s.d.num_commits
  ∧ t.d.num_aborts = s.d.num_aborts ∧ t.d.transaction_active = s.d.transaction_active
  ∧ t.d.my_lock_word = s.d.my_lock_word ∧ t.d.redolog = s.d.redolog

/-! ## The body of a transaction, as a sequence of reads and writes -/

/-- A call that the body of a transaction makes: `stm_read_word(addr)`, whose
loops get the fuel `fuel`, or `stm_write_word(addr, val)`. -/
inductive Access where
  | read (fuel addr : Nat)
  | write (addr : Nat) (val : Int)

/-- The calls of a body, made one after the other; the words read are
dropped. -/
def perform_accesses : List Access → State → Outcome Unit
  | [], s => .ok () s
  | .read fuel addr :: rest, s =>
    (stm_read_word fuel addr s).andThen fun _ s1 => perform_accesses rest s1
  | .write addr val :: rest, s =>
    (stm_write_word addr val s).andThen fun _ s1 => perform_accesses rest s1

/-- The transaction of the state `s` is active and inevitable, the clock is
odd and one above `start_time`. -/
def inevitableClock (s : State) : Prop :=
  s.d.transaction_active = true ∧ s.d.setjmp_buf = none
  ∧ s.global_timestamp % 2 = 1 ∧ (s.global_timestamp : Int) = s.d.start_time + 1

/-- A body for the inevitable transaction of the scenario: it reads `X` and
writes `11` to `X`. -/
def scenario_inevitable_body : List Access := [.read 1 scenario_X, .write scenario_X 11]

/-- The inevitable transaction of the scenario after this body, before its
commit. -/
def scenario_inevitable_written : State :=
  (perform_accesses scenario_inevitable_body scenario_inevitable).state

/-! ## Partial words -/

/-- The operator `&` on two `long`: bit by bit on the 64 bits of the
operands (two's complement). -/
def long_and (x y : Int) : Int := toSigned (toUnsigned x &&& toUnsigned y)

/-- The operator `|` on two `long`: bit by bit on the 64 bits of the
operands (two's complement). -/
def long_or (x y : Int) : Int := toSigned (toUnsigned x ||| toUnsigned y)

/-- The operator `<<` on a `long`, for a shift count below 64: the 64 bits
move up, those that leave the word are lost. -/
def long_shl (x : Int) (n : Nat) : Int := toSigned (toUnsigned x <<< n)

/-- Macro `READ_PARTIAL_WORD(T, fieldsize, addr)`, the body of the functions
`stm_read_partial_N`; `sizeof_T` is `sizeof(T)`, and the cast `(T)` to the
unsigned type `T` keeps the low `sizeof(T) * 8` bits. -/
def READ_PARTIAL_WORD (sizeof_T fieldsize fuel addr : Nat) (s : State) : Outcome Nat :=
  let misalignment := addr &&& (sizeof_void_p - 1)
  let p := addr - misalignment
  (stm_read_word fuel p s).andThen fun w s1 =>
    let word := toUnsigned w
    if sizeof_T == fieldsize then
      .ok ((word >>> (misalignment * 8)) % 2 ^ (sizeof_T * 8)) s1
    else .crash .assertion s1

/-- Function `stm_read_partial_1`; `T` is `unsigned char`. -/
def stm_read_partial_1 (fuel addr : Nat) (s : State) : Outcome Nat :=
  READ_PARTIAL_WORD 1 1 fuel addr s

/-- Function `stm_read_partial_2`; `T` is `unsigned short`. -/
def stm_read_partial_2 (fuel addr : Nat) (s : State) : Outcome Nat :=
  READ_PARTIAL_WORD 2 2 fuel addr s

/-- Function `stm_read_partial_4`; `T` is `unsigned int`. -/
def stm_read_partial_4 (fuel addr : Nat) (s : State) : Outcome Nat :=
  READ_PARTIAL_WORD 4 4 fuel addr s

/-- Macro `WRITE_PARTIAL_WORD(fieldsize, addr, nval)`, the body of the
functions `stm_write_partial_N`; `nval` is the value of the parameter, of an
unsigned type. -/
def WRITE_PARTIAL_WORD (fieldsize fuel addr nval : Nat) (s : State) : Outcome Unit :=
  let misalignment := addr &&& (sizeof_void_p - 1)
  let p := addr - misalignment
  let val := long_shl (nval : Int) (misalignment * 8)
  (stm_read_word fuel p s).andThen fun word s1 =>
    let mask := long_shl (long_shl 1 (fieldsize * 8) - 1) (misalignment * 8)
    let val1 := long_or (long_and val mask) (long_and word (~~~mask))
    stm_write_word p val1 s1

/-- Function `stm_write_partial_1`; the parameter `nval` is an
`unsigned char`. -/
def stm_write_partial_1 (fuel addr nval : Nat) (s : State) : Outcome Unit :=
  WRITE_PARTIAL_WORD 1 fuel addr (nval % 2 ^ 8) s

/-- Function `stm_write_partial_2`; the parameter `nval` is an
`unsigned short`. -/
def stm_write_partial_2 (fuel addr nval : Nat) (s : State) : Outcome Unit :=
  WRITE_PARTIAL_WORD 2 fuel addr (nval % 2 ^ 16) s

/-- Function `stm_write_partial_4`; the parameter `nval` is an
`unsigned int`. -/
def stm_write_partial_4 (fuel addr nval : Nat) (s : State) : Outcome Unit :=
  WRITE_PARTIAL_WORD 4 fuel addr (nval % 2 ^ 32) s

/-- The address of the third byte of the word `X`. -/
def scenario_X_2 : Nat := 4098

/-! ## The calls of a thread, one after the other -/

/-- A call of a function of the engine by the thread that owns the
descriptor, with the fuel of its loops. -/
inductive Operation where
  | begin_transaction (buf : Nat)
  | stm_read_word (fuel addr : Nat)
  | stm_write_word (addr : Nat) (val : Int)
  | stm_read_partial_1 (fuel addr : Nat)
  | stm_read_partial_2 (fuel addr : Nat)
  | stm_read_partial_4 (fuel addr : Nat)
  | stm_write_partial_1 (fuel addr nval : Nat)
  | stm_write_partial_2 (fuel addr nval : Nat)
  | stm_write_partial_4 (fuel addr nval : Nat)
  | commit_transaction (fuel : Nat)
  | stm_try_inevitable (fuel : Nat)
  | stm_abort_and_retry
  | stm_debug_get_state

/-- The call `op` made in the state `s`; what the function returns is
dropped. -/
def Operation.perform (op : Operation) (s : State) : Outcome Unit :=
  match op with
  | .begin_transaction buf => Stm.begin_transaction buf s
  | .stm_read_word fuel addr => (Stm.stm_read_word fuel addr s).andThen fun _ s1 => .ok () s1
  | .stm_write_word addr val => Stm.stm_write_word addr val s
  | .stm_read_partial_1 fuel addr =>
    (Stm.stm_read_partial_1 fuel addr s).andThen fun _ s1 => .ok () s1
  | .stm_read_partial_2 fuel addr =>
    (Stm.stm_read_partial_2 fuel addr s).andThen fun _ s1 => .ok () s1
  | .stm_read_partial_4 fuel addr =>
    (Stm.stm_read_partial_4 fuel addr s).andThen fun _ s1 => .ok () s1
  | .stm_write_partial_1 fuel addr nval => Stm.stm_write_partial_1 fuel addr nval s
  | .stm_write_partial_2 fuel addr nval => Stm.stm_write_partial_2 fuel addr nval s
  | .stm_write_partial_4 fuel addr nval => Stm.stm_write_partial_4 fuel addr nval s
  | .commit_transaction fuel => (Stm.commit_transaction fuel s).andThen fun _ s1 => .ok () s1
  | .stm_try_inevitable fuel => Stm.stm_try_inevitable fuel s
  | .stm_abort_and_retry => Stm.stm_abort_and_retry s
  | .stm_debug_get_state => (Stm.stm_debug_get_state s).andThen fun _ s1 => .ok () s1

/-- The state after the calls `ops`, made one after the other from the state
`s`.  After a `longjmp` the thread goes on from the state it left; the calls
stop when the process has ended or when the thread is still waiting. -/
def run_operations : List Operation → State → State
  | [], s => s
  | op :: rest, s =>
    match op.perform s with
    | .ok _ s1 => run_operations rest s1
    | .restart _ s1 => run_operations rest s1
    | .crash _ s1 => s1
    | .waiting s1 => s1

/-- The calls of the thread of the scenario when its first attempt is given
up with `stm_abort_and_retry` and the second one increments `X`. -/
def scenario_retry_operations : List Operation :=
  [.begin_transaction 1, .stm_abort_and_retry, .begin_transaction 1,
   .stm_read_word 1 scenario_X, .stm_write_word scenario_X 11, .commit_transaction 1]

/-! ## The statistics counters -/

/-- The cast `(unsigned)x` of an `int`. -/
def unsigned_of_int (x : Int) : Nat := (x % (2 : Int) ^ 32).toNat

/-- The cast `(int)x` of an `unsigned`, in two's complement. -/
def int_of_unsigned (x : Nat) : Int :=
  if x % 2 ^ 32 < 2 ^ 31 then ((x % 2 ^ 32 : Nat) : Int)
  else ((x % 2 ^ 32 : Nat) : Int) - (2 : Int) ^ 32

/-- The loop `for (i=0; i<ABORT_REASONS; i++) num_aborts += d->num_aborts[i];`
of `descriptor_done`: the value of its variable `int num_aborts` after the
loop.  The sum of an `int` and an `unsigned` is made on `unsigned`, modulo
`2^32`, and converted back to `int`. -/
def sum_num_aborts (d : tx_descriptor) : Int :=
  (List.range ABORT_REASONS).foldl
    (fun num_aborts i => int_of_unsigned ((unsigned_of_int num_aborts + d.num_aborts i) % 2 ^ 32)) 0

/-- The counters of the state `s` agree: `num_spinloops[0]` is the sum of the
`num_aborts[r]` modulo `2^32`. -/
def countersAgree (s : State) : Prop :=
  s.d.num_spinloops 0 = ((List.range ABORT_REASONS).map s.d.num_aborts).sum % 2 ^ 32

/-- The thread of the scenario before it is registered, while another thread,
whose lock word is `-2001`, holds every orec. -/
def scenario_contended : State :=
  { scenario_unregistered with orecs := fun _ => -2001 }

/-- Two attempts of the thread of the scenario: the first is given up with
`stm_abort_and_retry` (reason 7), the second writes `11` to `X` and calls
`commit_transaction`, which finds the orec of `X` locked by another thread
(reason 6). -/
def scenario_two_aborts : List Operation :=
  [.begin_transaction 1, .stm_abort_and_retry, .begin_transaction 1,
   .stm_write_word scenario_X 11, .commit_transaction 1]

/-- An attempt of the thread of the scenario that reads and writes nothing
and commits. -/
def scenario_commit_round : List Operation := [.begin_transaction 1, .commit_transaction 0]

/-- An attempt of the thread of the scenario that is given up with
`stm_abort_and_retry`. -/
def scenario_abort_round : List Operation := [.begin_transaction 1, .stm_abort_and_retry]

/-! ## Invariant I1 of the specification -/

/-- The value `x` of an orec, or saved from an orec, is a lock word, or an
even version that is at most the clock `clock` with its lowest bit
cleared. -/
def versionBound (clock : Nat) (x : Int) : Prop :=
  x < 0 ∨ (x % 2 = 0 ∧ x ≤ ((and_not_1 clock : Nat) : Int))

/-- Every orec of the state `s`, and every `p` of an entry of the redo log,
is a lock word or an even version that is at most the clock; the lock word of
the thread is negative. -/
def orecsBounded (s : State) : Prop :=
  (∀ o, versionBound s.global_timestamp (s.orecs o))
  ∧ (∀ item ∈ s.d.redolog, versionBound s.global_timestamp item.p)
  ∧ s.d.my_lock_word < 0

theorem toUnsigned_of_nonneg (x : Int) (h0 : 0 ≤ x) (h : isLong x) :
    (toUnsigned x : Int) = x := by
  unfold toUnsigned isLong at *
  norm_num at *
  omega

theorem toUnsigned_of_neg (x : Int) (h0 : x < 0) (h : isLong x) :
    (toUnsigned x : Int) = x + 18446744073709551616 := by
  unfold toUnsigned isLong at *
  norm_num at *
  omega

/-- C4: the byte offset `addr & ((NUM_STRIPES-1) * sizeof(orec_t))` that
`get_orec` computes is `sizeof(orec_t)` times the index
`(addr >> W) & (NUM_STRIPES-1)`, with `W = log2(sizeof(orec_t))`; the index is
below `NUM_STRIPES`, and the orec lies inside the table of
`NUM_STRIPES * sizeof(orec_t)` bytes. -/
theorem get_orec_index (addr : Nat) :
    get_orec addr = sizeof_orec_t * ((addr >>> Nat.log2 sizeof_orec_t) &&& (NUM_STRIPES - 1))
    ∧ (addr >>> Nat.log2 sizeof_orec_t) &&& (NUM_STRIPES - 1) < NUM_STRIPES
    ∧ get_orec addr + sizeof_orec_t ≤ NUM_STRIPES * sizeof_orec_t := by
  have hlog : Nat.log2 sizeof_orec_t = 3 := by
    have : sizeof_orec_t = 2 ^ 3 := rfl
    rw [this, Nat.log2_two_pow]
  have h1 : (NUM_STRIPES - 1) * sizeof_orec_t = (2 ^ 20 - 1) <<< 3 := by decide
  have h2 : sizeof_orec_t * ((addr >>> 3) &&& (NUM_STRIPES - 1))
      = ((addr >>> 3) &&& (2 ^ 20 - 1)) <<< 3 := by
    rw [Nat.shiftLeft_eq]
    norm_num [sizeof_orec_t, NUM_STRIPES]
    ring
  have h3 : (addr >>> 3) &&& (NUM_STRIPES - 1) < NUM_STRIPES := by
    have : (addr >>> 3) &&& (NUM_STRIPES - 1) ≤ NUM_STRIPES - 1 := Nat.and_le_right
    have : 0 < NUM_STRIPES := by decide
    omega
  have h4 : get_orec addr = sizeof_orec_t * ((addr >>> 3) &&& (NUM_STRIPES - 1)) := by
    unfold get_orec
    rw [h1, h2]
    apply Nat.eq_of_testBit_eq
    intro i
    simp only [Nat.testBit_and, Nat.testBit_shiftLeft, Nat.testBit_shiftRight,
      Nat.testBit_two_pow_sub_one]
    by_cases h : 3 ≤ i
    · simp [h]
    · simp [h]
  rw [hlog]
  refine ⟨h4, h3, ?_⟩
  rw [h4]
  simp only [sizeof_orec_t, NUM_STRIPES] at *
  omega

theorem IS_LOCKED_OR_NEWER_true_iff (v t : Int) (hv : isLong v) (ht0 : 0 ≤ t) (ht : isLong t) :
    IS_LOCKED_OR_NEWER v t = true ↔ (v < 0 ∨ (0 ≤ v ∧ t < v)) := by
  have ht1 := toUnsigned_of_nonneg t ht0 ht
  have hv2 := hv
  unfold isLong at hv2 ht
  norm_num at hv2 ht
  unfold IS_LOCKED_OR_NEWER
  rcases lt_or_le v 0 with h | h
  · have hv1 := toUnsigned_of_neg v h hv
    simp only [decide_eq_true_eq, gt_iff_lt]
    omega
  · have hv1 := toUnsigned_of_nonneg v h hv
    simp only [decide_eq_true_eq, gt_iff_lt]
    omega

/-- C5: for a `long` `v` and a time stamp `t` that is not negative,
`IS_LOCKED_OR_NEWER(v, t)`, the comparison of the two words as unsigned, holds
exactly when `v` is locked (`v < 0`) or `v` is an unlocked version greater
than `t`; so every lock word counts as newer than every start time. -/
theorem IS_LOCKED_OR_NEWER_iff (v t : Int) (hv : isLong v) (ht0 : 0 ≤ t) (ht : isLong t) :
    (IS_LOCKED_OR_NEWER v t = true ↔ (IS_LOCKED v = true ∨ (IS_LOCKED v = false ∧ t < v)))
    ∧ (IS_LOCKED v = true → IS_LOCKED_OR_NEWER v t = true) := by
  have h := IS_LOCKED_OR_NEWER_true_iff v t hv ht0 ht
  simp only [IS_LOCKED, decide_eq_true_eq, decide_eq_false_iff_not, not_lt]
  exact ⟨h, fun hneg => h.2 (Or.inl hneg)⟩

/-- Witness of C5: the lock word `-1001` against the start time `2`. -/
theorem IS_LOCKED_OR_NEWER_iff_witness :
    isLong (-1001) ∧ (0 : Int) ≤ 2 ∧ isLong 2
    ∧ ((IS_LOCKED_OR_NEWER (-1001) 2 = true
          ↔ (IS_LOCKED (-1001) = true ∨ (IS_LOCKED (-1001) = false ∧ (2 : Int) < -1001)))
        ∧ (IS_LOCKED (-1001) = true → IS_LOCKED_OR_NEWER (-1001) 2 = true)) :=
  ⟨by decide, by decide, by decide,
   IS_LOCKED_OR_NEWER_iff (-1001) 2 (by decide) (by decide) (by decide)⟩

/-! ## Commit with a redo log that has entries -/

theorem andThen_eq_ok {α β : Type} (x : Outcome α) (f : α → State → Outcome β) (v : β)
    (s1 : State) (h : x.andThen f = .ok v s1) : ∃ a s, x = .ok a s ∧ f a s = .ok v s1 := by
  cases x <;> simp [Outcome.andThen] at h
  exact ⟨_, _, rfl, h⟩

theorem tx_redo_ne_ok (s s1 : State) (v : Unit) : tx_redo s ≠ .ok v s1 := by
  simp [tx_redo]

theorem commitInevitableTransaction_ne_ok (s s1 : State) (v : Unit) :
    commitInevitableTransaction s ≠ .ok v s1 := by
  unfold commitInevitableTransaction
  simp only [get_global_timestamp, tx_redo]
  split <;> try split
  all_goals simp

theorem commit_transaction_writes_ne_ok (fuel : Nat) (s s1 : State) (v : Int) :
    commit_transaction_writes fuel s ≠ .ok v s1 := by
  intro h
  unfold commit_transaction_writes at h
  obtain ⟨_, s2, _, h⟩ := andThen_eq_ok _ _ _ _ h
  obtain ⟨inev, s3, _, h⟩ := andThen_eq_ok _ _ _ _ h
  obtain ⟨_, s4, h4, _⟩ := andThen_eq_ok _ _ _ _ h
  cases inev
  · simp only [Bool.false_eq_true, if_false] at h4
    obtain ⟨_, s5, _, h5⟩ := andThen_eq_ok _ _ _ _ h4
    obtain ⟨_, s6, _, h6⟩ := andThen_eq_ok _ _ _ _ h5
    exact tx_redo_ne_ok _ _ _ h6
  · simp only [if_true] at h4
    exact commitInevitableTransaction_ne_ok _ _ _ h4

theorem redolog_any_entry_of_ne_nil (l : RedoLog) (h : l ≠ []) : redolog_any_entry l = true := by
  cases l with
  | nil => exact absurd rfl h
  | cons a l => rfl

theorem commit_transaction_ne_ok (fuel : Nat) (s s1 : State) (v : Int)
    (hlog : s.d.redolog ≠ []) : commit_transaction fuel s ≠ .ok v s1 := by
  unfold commit_transaction
  simp only [redolog_any_entry_of_ne_nil _ hlog, Bool.not_true, Bool.false_eq_true, if_false]
  exact commit_transaction_writes_ne_ok fuel s s1 v

/-! ## Writing a word, and reading it back -/

theorem aligned_test (a : Nat) : (a &&& (sizeof_void_p - 1) == 0) = decide (a % sizeof_void_p = 0) := by
  have h : a &&& (sizeof_void_p - 1) = a % sizeof_void_p := Nat.and_pow_two_sub_one_eq_mod a 3
  rw [h]
  by_cases h0 : a % sizeof_void_p = 0 <;> simp [h0]

theorem REDOLOG_FIND_redolog_insert (l : RedoLog) (a : Nat) (v : Int) :
    REDOLOG_FIND (redolog_insert l a v) a = some { addr := a, val := v, p := -1 } := by
  induction l with
  | nil => simp [redolog_insert, REDOLOG_FIND]
  | cons item rest ih =>
    unfold redolog_insert
    by_cases h : item.addr = a
    · simp [h, REDOLOG_FIND]
    · have hb : (item.addr == a) = false := by simp [h]
      simp only [hb, Bool.false_eq_true, if_false]
      unfold REDOLOG_FIND at *
      simp only [List.find?, hb]
      exact ih

theorem stm_write_word_active (a : Nat) (v : Int) (s : State)
    (hal : a % sizeof_void_p = 0) (hact : s.d.transaction_active = true) :
    stm_write_word a v s
      = .ok () { s with d := { s.d with redolog := redolog_insert s.d.redolog a v } } := by
  simp [stm_write_word, aligned_test, hal, hact]

theorem stm_write_word_inactive (a : Nat) (v : Int) (s : State)
    (hal : a % sizeof_void_p = 0) (hact : s.d.transaction_active = false) :
    stm_write_word a v s = .ok () { s with mem := store s.mem a v } := by
  simp [stm_write_word, aligned_test, hal, hact]

theorem stm_read_word_hit (fuel a : Nat) (s : State) (item : wlog_t)
    (hact : s.d.transaction_active = true) (hfind : REDOLOG_FIND s.d.redolog a = some item) :
    stm_read_word fuel a s = .ok item.val s := by
  simp [stm_read_word, hact, hfind]

/-- C2: in an active transaction, after `stm_write_word(a, v1)` at a
word-aligned address, possibly followed by `stm_write_word(a, v2)`,
`stm_read_word(a)` returns the value written last and leaves the state as it
is (nothing is added to the read set), whatever the memory and the orec table
hold. -/
theorem read_your_writes (fuel a : Nat) (v1 v2 : Int) (s : State)
    (hact : s.d.transaction_active = true) (hal : a % sizeof_void_p = 0) :
    (∃ s1, stm_write_word a v1 s = .ok () s1
      ∧ stm_read_word fuel a s1 = .ok v1 s1
      ∧ ∀ mem orecs, stm_read_word fuel a { s1 with mem := mem, orecs := orecs }
          = .ok v1 { s1 with mem := mem, orecs := orecs })
    ∧ (∃ s1 s2, stm_write_word a v1 s = .ok () s1 ∧ stm_write_word a v2 s1 = .ok () s2
      ∧ stm_read_word fuel a s2 = .ok v2 s2
      ∧ ∀ mem orecs, stm_read_word fuel a { s2 with mem := mem, orecs := orecs }
          = .ok v2 { s2 with mem := mem, orecs := orecs }) := by
  refine ⟨⟨_, stm_write_word_active a v1 s hal hact, ?_, ?_⟩,
    ⟨_, _, stm_write_word_active a v1 s hal hact, stm_write_word_active a v2 _ hal hact, ?_, ?_⟩⟩
  · apply stm_read_word_hit fuel a _ { addr := a, val := v1, p := -1 }
    · exact hact
    · exact REDOLOG_FIND_redolog_insert _ a v1
  · intro mem orecs
    apply stm_read_word_hit fuel a _ { addr := a, val := v1, p := -1 }
    · exact hact
    · exact REDOLOG_FIND_redolog_insert _ a v1
  · apply stm_read_word_hit fuel a _ { addr := a, val := v2, p := -1 }
    · exact hact
    · exact REDOLOG_FIND_redolog_insert _ a v2
  · intro mem orecs
    apply stm_read_word_hit fuel a _ { addr := a, val := v2, p := -1 }
    · exact hact
    · exact REDOLOG_FIND_redolog_insert _ a v2

/-- C3, counterexample at an address that is not word-aligned: outside a
transaction `stm_write_word(4100, 7)` fails the assertion of the alignment and
stores nothing. -/
theorem stm_write_word_misaligned :
    scenario_init.d.transaction_active = false
    ∧ 4100 % sizeof_void_p ≠ 0
    ∧ stm_write_word 4100 7 scenario_init = .crash .assertion scenario_init
    ∧ (stm_write_word 4100 7 scenario_init).state.mem 4100 ≠ 7 :=
  ⟨rfl, by decide, rfl, by decide⟩

/-- C3 as amended: for a word-aligned address `a`, `stm_write_word(a, v)`
inside an active transaction changes the redo log only (memory, orec table,
clock and read set are as before); outside a transaction it stores `v` at `a`
and leaves the rest of the memory, the redo log, the orec table and the clock
as they are. -/
theorem stm_write_word_frame (a : Nat) (v : Int) (s : State) (hal : a % sizeof_void_p = 0) :
    (s.d.transaction_active = true →
      ∃ s1, stm_write_word a v s = .ok () s1
        ∧ s1 = { s with d := { s.d with redolog := redolog_insert s.d.redolog a v } }
        ∧ s1.mem = s.mem ∧ s1.orecs = s.orecs ∧ s1.global_timestamp = s.global_timestamp
        ∧ s1.d.reads = s.d.reads)
    ∧ (s.d.transaction_active = false →
      ∃ s1, stm_write_word a v s = .ok () s1
        ∧ s1.mem a = v ∧ (∀ b, b ≠ a → s1.mem b = s.mem b)
        ∧ s1.d.redolog = s.d.redolog ∧ s1.orecs = s.orecs
        ∧ s1.global_timestamp = s.global_timestamp) := by
  constructor
  · intro hact
    exact ⟨_, stm_write_word_active a v s hal hact, rfl, rfl, rfl, rfl, rfl⟩
  · intro hact
    refine ⟨_, stm_write_word_inactive a v s hal hact, ?_, ?_, rfl, rfl, rfl⟩
    · simp [store]
    · intro b hb
      simp [store, hb]

/-- Witness of C3 as amended: the thread of the scenario writes `11` to `X`
outside a transaction. -/
theorem stm_write_word_frame_witness :
    scenario_X % sizeof_void_p = 0
    ∧ scenario_init.d.transaction_active = false
    ∧ ∃ s1, stm_write_word scenario_X 11 scenario_init = .ok () s1
        ∧ s1.mem scenario_X = 11 ∧ (∀ b, b ≠ scenario_X → s1.mem b = scenario_init.mem b)
        ∧ s1.d.redolog = scenario_init.d.redolog ∧ s1.orecs = scenario_init.orecs
        ∧ s1.global_timestamp = scenario_init.global_timestamp :=
  ⟨by decide, rfl, (stm_write_word_frame scenario_X 11 scenario_init (by decide)).2 rfl⟩

/-- Witness of C2: the thread of the scenario, inside a transaction, writes
`11` and then `12` to `X`. -/
theorem read_your_writes_witness :
    (begin_transaction 1 scenario_init).state.d.transaction_active = true
    ∧ scenario_X % sizeof_void_p = 0
    ∧ ∃ s1 s2, stm_write_word scenario_X 11 (begin_transaction 1 scenario_init).state = .ok () s1
        ∧ stm_write_word scenario_X 12 s1 = .ok () s2
        ∧ stm_read_word 0 scenario_X s2 = .ok 12 s2
        ∧ ∀ mem orecs, stm_read_word 0 scenario_X { s2 with mem := mem, orecs := orecs }
            = .ok 12 { s2 with mem := mem, orecs := orecs } :=
  ⟨rfl, by decide,
   (read_your_writes 0 scenario_X 11 12 (begin_transaction 1 scenario_init).state rfl
      (by decide)).2⟩

/-! ## Commit with an empty redo log -/

/-- C6, as amended: `commit_transaction` of an active transaction with an
empty redo log returns `start_time`, adds one to `num_commits` modulo `2^32`
(the counter is an `unsigned`: exactly one unless it holds `2^32 - 1`, from
where it goes to `0`), empties the read set and the redo log and leaves the
transaction inactive; memory and orec table are as before; the clock is as
before when the transaction is not inevitable, and one less, with bit 0
cleared, when it is inevitable (the clock then has bit 0 set). -/
theorem commit_transaction_empty (fuel : Nat) (s : State)
    (hact : s.d.transaction_active = true) (hlog : s.d.redolog = [])
    (hodd : s.d.setjmp_buf = none → s.global_timestamp % 2 = 1) :
    ∃ s1, commit_transaction fuel s = .ok s.d.start_time s1
      ∧ s1.d.num_commits = (s.d.num_commits + 1) % 2 ^ 32
      ∧ (s.d.num_commits + 1 < 2 ^ 32 → s1.d.num_commits = s.d.num_commits + 1)
      ∧ s1.d.reads = [] ∧ s1.d.redolog = []
      ∧ s1.d.transaction_active = false
      ∧ s1.mem = s.mem ∧ s1.orecs = s.orecs
      ∧ (s.d.setjmp_buf ≠ none → s1.global_timestamp = s.global_timestamp)
      ∧ (s.d.setjmp_buf = none →
          s1.global_timestamp + 1 = s.global_timestamp ∧ s1.global_timestamp % 2 = 0) := by
  unfold commit_transaction
  simp only [hlog, redolog_any_entry, List.isEmpty_nil, Bool.not_true, Bool.not_false, if_true]
  unfold commit_transaction_no_writes
  have hmod : s.d.num_commits + 1 < 2 ^ 32 →
      (s.d.num_commits + 1) % 2 ^ 32 = s.d.num_commits + 1 := Nat.mod_eq_of_lt
  cases hbuf : s.d.setjmp_buf with
  | none =>
    have hodd1 := hodd hbuf
    simp only [is_inevitable, hact, is_inevitable_or_inactive, hbuf, Outcome.andThen, and_1,
      get_global_timestamp, hodd1, common_cleanup, mutex_unlock, set_global_timestamp,
      redolog_clear, if_true, Option.isNone_none, bne_iff_ne, ne_eq, one_ne_zero,
      not_false_eq_true]
    refine ⟨_, rfl, rfl, hmod, rfl, rfl, rfl, rfl, rfl, fun h => (h trivial).elim, fun _ => ?_⟩
    show s.global_timestamp - 1 + 1 = s.global_timestamp ∧ (s.global_timestamp - 1) % 2 = 0
    omega
  | some buf =>
    simp only [is_inevitable, hact, is_inevitable_or_inactive, hbuf, Outcome.andThen,
      common_cleanup, redolog_clear, if_true, Option.isNone_some, Bool.false_eq_true, if_false]
    exact ⟨_, rfl, rfl, hmod, rfl, rfl, rfl, rfl, rfl, fun _ => rfl, fun h => by simp at h⟩

/-- Witness of C6 as amended: the inevitable transaction of the scenario, which has
written nothing, commits while the clock shows `3`. -/
theorem commit_transaction_empty_witness :
    scenario_inevitable.d.transaction_active = true
    ∧ scenario_inevitable.d.redolog = []
    ∧ scenario_inevitable.d.setjmp_buf = none
    ∧ scenario_inevitable.global_timestamp = 3
    ∧ ∃ s1, commit_transaction 1 scenario_inevitable = .ok scenario_inevitable.d.start_time s1
      ∧ s1.d.num_commits = (scenario_inevitable.d.num_commits + 1) % 2 ^ 32
      ∧ (scenario_inevitable.d.num_commits + 1 < 2 ^ 32 →
          s1.d.num_commits = scenario_inevitable.d.num_commits + 1)
      ∧ s1.d.reads = [] ∧ s1.d.redolog = []
      ∧ s1.d.transaction_active = false
      ∧ s1.mem = scenario_inevitable.mem ∧ s1.orecs = scenario_inevitable.orecs
      ∧ (scenario_inevitable.d.setjmp_buf ≠ none →
          s1.global_timestamp = scenario_inevitable.global_timestamp)
      ∧ (scenario_inevitable.d.setjmp_buf = none →
          s1.global_timestamp + 1 = scenario_inevitable.global_timestamp
          ∧ s1.global_timestamp % 2 = 0) :=
  ⟨rfl, rfl, rfl, rfl, commit_transaction_empty 1 scenario_inevitable rfl rfl (fun _ => rfl)⟩

/-! ## Abort -/

theorem foldl_revert_item_of_not_covered (l : RedoLog) (f : Nat → Int) (o : Nat)
    (h : ∀ item ∈ l, item.p ≠ -1 → get_orec item.addr ≠ o) :
    (l.foldl revert_item f) o = f o := by
  induction l generalizing f with
  | nil => rfl
  | cons item rest ih =>
    rw [List.foldl_cons, ih]
    · unfold revert_item
      by_cases hp : item.p = -1
      · simp [hp]
      · have ho := h item (List.mem_cons_self _ _) hp
        simp [hp, store, Ne.symm ho]
    · intro it hit hp
      exact h it (List.mem_cons_of_mem _ hit) hp

theorem foldl_revert_item_of_last (pre post : RedoLog) (item : wlog_t) (f : Nat → Int)
    (hp : item.p ≠ -1)
    (h : ∀ it ∈ post, it.p ≠ -1 → get_orec it.addr ≠ get_orec item.addr) :
    ((pre ++ item :: post).foldl revert_item f) (get_orec item.addr) = item.p := by
  rw [List.foldl_append, List.foldl_cons, foldl_revert_item_of_not_covered post _ _ h]
  simp [revert_item, hp, store]

theorem tx_abort_eq {α : Type} (r buf : Nat) (s : State)
    (hact : s.d.transaction_active = true) (hbuf : s.d.setjmp_buf = some buf) :
    (tx_abort r s : Outcome α) = .restart buf (tx_spinloop 0
      { s with
        orecs := s.d.redolog.foldl revert_item s.orecs,
        d := { s.d with
          num_aborts := store s.d.num_aborts r ((s.d.num_aborts r + 1) % 2 ^ 32),
          reads := [], redolog := [], transaction_active := false, setjmp_buf := none } }) := by
  simp [tx_abort, is_inevitable, hact, is_inevitable_or_inactive, hbuf, tx_restart, tx_cleanup,
    common_cleanup, releaseAndRevertLocks, redolog_clear]

/-- C8, as amended: `tx_abort(r)` of an active transaction that is not
inevitable, for a reason `r` below `ABORT_REASONS`, adds one to
`num_aborts[r]` modulo `2^32` (the counter is an `unsigned`: exactly one
unless it holds `2^32 - 1`, from where it goes to `0`) and to no other abort
counter, stores the `p` of every entry of the redo log whose `p` is not
`-1` back into the orec of the entry (an orec that no such entry covers keeps
its value, an orec that some cover gets the `p` of the last of them in forward
order), empties the read set and the redo log, sets `transaction_active` to
false and `setjmp_buf` to `NULL`, leaves the memory as it is, and leaves
through `longjmp` to the `jmp_buf` saved at the begin. -/
theorem tx_abort_effect (r buf : Nat) (s : State)
    (hact : s.d.transaction_active = true) (hbuf : s.d.setjmp_buf = some buf)
    (_hr : r < ABORT_REASONS) :
    ∃ s1, (tx_abort r s : Outcome Unit) = .restart buf s1
      ∧ s1.d.num_aborts r = (s.d.num_aborts r + 1) % 2 ^ 32
      ∧ (s.d.num_aborts r + 1 < 2 ^ 32 → s1.d.num_aborts r = s.d.num_aborts r + 1)
      ∧ (∀ k, k ≠ r → s1.d.num_aborts k = s.d.num_aborts k)
      ∧ s1.orecs = s.d.redolog.foldl revert_item s.orecs
      ∧ (∀ o, (∀ item ∈ s.d.redolog, item.p ≠ -1 → get_orec item.addr ≠ o) →
          s1.orecs o = s.orecs o)
      ∧ (∀ pre item post, s.d.redolog = pre ++ item :: post → item.p ≠ -1 →
          (∀ it ∈ post, it.p ≠ -1 → get_orec it.addr ≠ get_orec item.addr) →
          s1.orecs (get_orec item.addr) = item.p)
      ∧ s1.d.reads = [] ∧ s1.d.redolog = []
      ∧ s1.d.transaction_active = false ∧ s1.d.setjmp_buf = none
      ∧ s1.mem = s.mem := by
  refine ⟨_, tx_abort_eq r buf s hact hbuf, ?_, ?_, ?_, rfl, ?_, ?_, rfl, rfl, rfl, rfl, rfl⟩
  · simp [tx_spinloop, store]
  · intro hlt
    simp only [tx_spinloop, store, if_true]
    exact Nat.mod_eq_of_lt hlt
  · intro k hk
    simp [tx_spinloop, store, hk]
  · intro o h
    exact foldl_revert_item_of_not_covered _ _ _ h
  · intro pre item post hl hp h
    show (s.d.redolog.foldl revert_item s.orecs) (get_orec item.addr) = item.p
    rw [hl]
    exact foldl_revert_item_of_last pre post item _ hp h

/-- Witness of C8 as amended: the transaction of the scenario aborts while it holds the
lock of `X`. -/
theorem tx_abort_effect_witness :
    scenario_locked.d.transaction_active = true
    ∧ scenario_locked.d.setjmp_buf = some 1
    ∧ scenario_locked.d.redolog = [{ addr := scenario_X, val := 11, p := 0 }]
    ∧ scenario_locked.orecs (get_orec scenario_X) = -1001
    ∧ ∃ s1, (tx_abort 4 scenario_locked : Outcome Unit) = .restart 1 s1
      ∧ s1.d.num_aborts 4 = 1
      ∧ s1.orecs (get_orec scenario_X) = 0
      ∧ s1.d.reads = [] ∧ s1.d.redolog = []
      ∧ s1.d.transaction_active = false ∧ s1.d.setjmp_buf = none
      ∧ s1.mem = scenario_locked.mem := by
  refine ⟨rfl, rfl, rfl, rfl, ?_⟩
  obtain ⟨s1, h1, h2, _, _, _, _, h6, h7, h8, h9, h10, h11⟩ :=
    tx_abort_effect 4 1 scenario_locked rfl rfl (by decide)
  exact ⟨s1, h1, h2.trans (by decide),
    h6 [] { addr := scenario_X, val := 11, p := 0 } [] rfl (by decide) (by simp),
    h7, h8, h9, h10, h11⟩

/-! ## Validation of the read set -/

theorem validate_loop_cons (s : State) (o : Nat) (rest : OrecList)
    (hst0 : 0 ≤ s.d.start_time) (hst : isLong s.d.start_time)
    (hlw : s.d.my_lock_word < 0) (ho : isLong (s.orecs o)) :
    validate_loop (o :: rest) s =
      if (0 ≤ s.orecs o ∧ s.orecs o ≤ s.d.start_time) ∨ s.orecs o = s.d.my_lock_word then
        validate_loop rest s
      else if 0 ≤ s.orecs o then tx_abort 4 s else tx_abort 5 s := by
  have hiff := (IS_LOCKED_OR_NEWER_true_iff (s.orecs o) s.d.start_time ho hst0 hst)
  rw [validate_loop]
  by_cases hnew : IS_LOCKED_OR_NEWER (s.orecs o) s.d.start_time = true
  · have h1 := hiff.1 hnew
    simp only [hnew, if_true]
    by_cases hneg : s.orecs o < 0
    · have hl : IS_LOCKED (s.orecs o) = true := by simp [IS_LOCKED, hneg]
      simp only [hl, Bool.not_true, Bool.false_eq_true, if_false]
      by_cases hme : s.orecs o = s.d.my_lock_word
      · rw [if_pos (Or.inr hme)]
        simp [hme]
      · have hnot : ¬ ((0 ≤ s.orecs o ∧ s.orecs o ≤ s.d.start_time)
            ∨ s.orecs o = s.d.my_lock_word) := by
          rintro (h | h)
          · omega
          · exact hme h
        have hno : ¬ (0 ≤ s.orecs o) := by omega
        rw [if_neg hnot, if_neg hno]
        simp [hme]
    · have hl : IS_LOCKED (s.orecs o) = false := by simp [IS_LOCKED, hneg]
      have hnot : ¬ ((0 ≤ s.orecs o ∧ s.orecs o ≤ s.d.start_time)
          ∨ s.orecs o = s.d.my_lock_word) := by
        rintro (h | h)
        · omega
        · omega
      have hno : 0 ≤ s.orecs o := by omega
      rw [if_neg hnot, if_pos hno]
      simp [hl]
  · have h1 : ¬ (s.orecs o < 0 ∨ (0 ≤ s.orecs o ∧ s.d.start_time < s.orecs o)) :=
      fun h => hnew (hiff.2 h)
    have hgood : (0 ≤ s.orecs o ∧ s.orecs o ≤ s.d.start_time) ∨ s.orecs o = s.d.my_lock_word := by
      left
      omega
    rw [if_pos hgood]
    simp [hnew]


theorem validate_eq_loop (s : State) (buf : Nat)
    (hact : s.d.transaction_active = true) (hbuf : s.d.setjmp_buf = some buf) :
    validate s = validate_loop s.d.reads s := by
  simp [validate, is_inevitable, hact, is_inevitable_or_inactive, hbuf]

theorem validate_loop_of_good (s : State) (l : OrecList)
    (hst0 : 0 ≤ s.d.start_time) (hst : isLong s.d.start_time)
    (hlw : s.d.my_lock_word < 0) (horecs : ∀ o ∈ l, isLong (s.orecs o))
    (hgood : ∀ o ∈ l, (0 ≤ s.orecs o ∧ s.orecs o ≤ s.d.start_time)
      ∨ s.orecs o = s.d.my_lock_word) :
    validate_loop l s = .ok () s := by
  induction l with
  | nil => rfl
  | cons o rest ih =>
    rw [validate_loop_cons s o rest hst0 hst hlw (horecs o (List.mem_cons_self _ _)),
      if_pos (hgood o (List.mem_cons_self _ _))]
    exact ih (fun x hx => horecs x (List.mem_cons_of_mem _ hx))
      (fun x hx => hgood x (List.mem_cons_of_mem _ hx))

theorem validate_loop_of_first_bad (s : State) (pre post : OrecList) (o : Nat)
    (hst0 : 0 ≤ s.d.start_time) (hst : isLong s.d.start_time)
    (hlw : s.d.my_lock_word < 0) (horecs : ∀ x ∈ pre ++ o :: post, isLong (s.orecs x))
    (hgood : ∀ x ∈ pre, (0 ≤ s.orecs x ∧ s.orecs x ≤ s.d.start_time)
      ∨ s.orecs x = s.d.my_lock_word)
    (hbad : ¬ ((0 ≤ s.orecs o ∧ s.orecs o ≤ s.d.start_time) ∨ s.orecs o = s.d.my_lock_word)) :
    validate_loop (pre ++ o :: post) s = if 0 ≤ s.orecs o then tx_abort 4 s else tx_abort 5 s := by
  induction pre with
  | nil =>
    rw [List.nil_append, validate_loop_cons s o post hst0 hst hlw
      (horecs o (by simp)), if_neg hbad]
  | cons x rest ih =>
    rw [List.cons_append, validate_loop_cons s x _ hst0 hst hlw (horecs x (by simp)),
      if_pos (hgood x (List.mem_cons_self _ _))]
    exact ih (fun y hy => horecs y (by simp at hy ⊢; tauto))
      (fun y hy => hgood y (List.mem_cons_of_mem _ hy))

theorem validate_loop_ok_imp_good (s : State) (buf : Nat) (l : OrecList)
    (hact : s.d.transaction_active = true) (hbuf : s.d.setjmp_buf = some buf)
    (hst0 : 0 ≤ s.d.start_time) (hst : isLong s.d.start_time)
    (hlw : s.d.my_lock_word < 0) (horecs : ∀ o ∈ l, isLong (s.orecs o))
    (s1 : State) (hok : validate_loop l s = .ok () s1) :
    ∀ o ∈ l, (0 ≤ s.orecs o ∧ s.orecs o ≤ s.d.start_time) ∨ s.orecs o = s.d.my_lock_word := by
  induction l with
  | nil => simp
  | cons o rest ih =>
    rw [validate_loop_cons s o rest hst0 hst hlw (horecs o (List.mem_cons_self _ _))] at hok
    by_cases hg : (0 ≤ s.orecs o ∧ s.orecs o ≤ s.d.start_time) ∨ s.orecs o = s.d.my_lock_word
    · rw [if_pos hg] at hok
      intro x hx
      rcases List.mem_cons.1 hx with rfl | hx
      · exact hg
      · exact ih (fun y hy => horecs y (List.mem_cons_of_mem _ hy)) hok x hx
    · rw [if_neg hg] at hok
      split at hok <;> simp [tx_abort_eq _ buf s hact hbuf] at hok

/-- C9: for an active transaction that is not inevitable, `validate`
returns, without a change of the state, exactly when every orec of the read
set holds an unlocked version that is at most `start_time`, or `my_lock_word`;
otherwise it stops at the first entry of the read set that does not, and
leaves through `tx_abort(4)` when that orec is unlocked (hence newer than
`start_time`) and through `tx_abort(5)` when it is locked (by another lock
word). -/
theorem validate_read_set (s : State) (buf : Nat)
    (hact : s.d.transaction_active = true) (hbuf : s.d.setjmp_buf = some buf)
    (hst0 : 0 ≤ s.d.start_time) (hst : isLong s.d.start_time)
    (hlw : s.d.my_lock_word < 0) (horecs : ∀ o ∈ s.d.reads, isLong (s.orecs o)) :
    ((∃ s1, validate s = .ok () s1) ↔
      ∀ o ∈ s.d.reads, (0 ≤ s.orecs o ∧ s.orecs o ≤ s.d.start_time)
        ∨ s.orecs o = s.d.my_lock_word)
    ∧ ((∀ o ∈ s.d.reads, (0 ≤ s.orecs o ∧ s.orecs o ≤ s.d.start_time)
        ∨ s.orecs o = s.d.my_lock_word) → validate s = .ok () s)
    ∧ (∀ pre o post, s.d.reads = pre ++ o :: post →
        (∀ x ∈ pre, (0 ≤ s.orecs x ∧ s.orecs x ≤ s.d.start_time)
          ∨ s.orecs x = s.d.my_lock_word) →
        ¬ ((0 ≤ s.orecs o ∧ s.orecs o ≤ s.d.start_time) ∨ s.orecs o = s.d.my_lock_word) →
        (0 ≤ s.orecs o → validate s = tx_abort 4 s
          ∧ ∃ s1, validate s = .restart buf s1
            ∧ s1.d.num_aborts 4 = (s.d.num_aborts 4 + 1) % 2 ^ 32
            ∧ ∀ k, k ≠ 4 → s1.d.num_aborts k = s.d.num_aborts k)
        ∧ (s.orecs o < 0 → validate s = tx_abort 5 s
          ∧ ∃ s1, validate s = .restart buf s1
            ∧ s1.d.num_aborts 5 = (s.d.num_aborts 5 + 1) % 2 ^ 32
            ∧ ∀ k, k ≠ 5 → s1.d.num_aborts k = s.d.num_aborts k)) := by
  rw [validate_eq_loop s buf hact hbuf]
  refine ⟨⟨?_, ?_⟩, ?_, ?_⟩
  · rintro ⟨s1, hok⟩
    exact validate_loop_ok_imp_good s buf _ hact hbuf hst0 hst hlw horecs s1 hok
  · intro hgood
    exact ⟨s, validate_loop_of_good s _ hst0 hst hlw horecs hgood⟩
  · intro hgood
    exact validate_loop_of_good s _ hst0 hst hlw horecs hgood
  · intro pre o post hl hgood hbad
    have hloop := validate_loop_of_first_bad s pre post o hst0 hst hlw (hl ▸ horecs) hgood hbad
    rw [hl, hloop]
    constructor
    · intro h0
      rw [if_pos h0]
      refine ⟨rfl, _, tx_abort_eq 4 buf s hact hbuf, ?_, ?_⟩
      · simp [tx_spinloop, store]
      · intro k hk
        simp [tx_spinloop, store, hk]
    · intro hneg
      rw [if_neg (not_le.2 hneg)]
      refine ⟨rfl, _, tx_abort_eq 5 buf s hact hbuf, ?_, ?_⟩
      · simp [tx_spinloop, store]
      · intro k hk
        simp [tx_spinloop, store, hk]

/-- Witness of C9: the orec of `X`, which the transaction of the scenario has
read, holds the version `4`, newer than the start time `0`: reason 4. -/
theorem validate_read_set_witness :
    scenario_newer.d.transaction_active = true
    ∧ scenario_newer.d.setjmp_buf = some 1
    ∧ 0 ≤ scenario_newer.d.start_time ∧ isLong scenario_newer.d.start_time
    ∧ scenario_newer.d.my_lock_word < 0
    ∧ (∀ o ∈ scenario_newer.d.reads, isLong (scenario_newer.orecs o))
    ∧ scenario_newer.d.reads = [get_orec scenario_X]
    ∧ scenario_newer.orecs (get_orec scenario_X) = 4
    ∧ validate scenario_newer = tx_abort 4 scenario_newer
    ∧ ∃ s1, validate scenario_newer = .restart 1 s1
        ∧ s1.d.num_aborts 4 = (scenario_newer.d.num_aborts 4 + 1) % 2 ^ 32
        ∧ ∀ k, k ≠ 4 → s1.d.num_aborts k = scenario_newer.d.num_aborts k :=
  ⟨rfl, rfl, by decide, by decide, by decide, fun _ _ => (by decide : isLong 4), rfl, rfl,
   ((validate_read_set scenario_newer 1 rfl rfl (by decide) (by decide) (by decide)
      (fun _ _ => (by decide : isLong 4))).2.2 [] (get_orec scenario_X) [] rfl (by simp) (by decide)).1
      (by decide)⟩

/-! ## Visiting an entry in `acquireLocks` -/

theorem acquireLocks_item_newer {fuel i : Nat} {s : State} {item : wlog_t}
    (hitem : s.d.redolog[i]? = some item)
    (hnew : IS_LOCKED_OR_NEWER (s.orecs (get_orec item.addr)) s.d.start_time = true)
    (hunl : IS_LOCKED (s.orecs (get_orec item.addr)) = false) :
    acquireLocks_item (fuel + 1) i s = tx_abort 0 s := by
  rw [acquireLocks_item]
  simp [hitem, hnew, hunl]

theorem acquireLocks_item_locked {fuel i : Nat} {s : State} {item : wlog_t}
    (hitem : s.d.redolog[i]? = some item)
    (hnew : IS_LOCKED_OR_NEWER (s.orecs (get_orec item.addr)) s.d.start_time = true)
    (hl : IS_LOCKED (s.orecs (get_orec item.addr)) = true)
    (hother : s.orecs (get_orec item.addr) ≠ s.d.my_lock_word) :
    acquireLocks_item (fuel + 1) i s =
      match is_inevitable s with
      | .ok true s1 => acquireLocks_item fuel i (tx_spinloop 8 s1)
      | .ok false s1 => tx_abort 6 s1
      | .restart buf s1 => .restart buf s1
      | .crash why s1 => .crash why s1
      | .waiting s1 => .waiting s1 := by
  rw [acquireLocks_item]
  simp [hitem, hnew, hl, hother]

theorem acquireLocks_item_spins (fuel i : Nat) (s : State) (item : wlog_t)
    (hact : s.d.transaction_active = true) (hbuf : s.d.setjmp_buf = none)
    (hitem : s.d.redolog[i]? = some item)
    (hnew : IS_LOCKED_OR_NEWER (s.orecs (get_orec item.addr)) s.d.start_time = true)
    (hl : IS_LOCKED (s.orecs (get_orec item.addr)) = true)
    (hother : s.orecs (get_orec item.addr) ≠ s.d.my_lock_word) :
    ∃ s1, acquireLocks_item fuel i s = .waiting s1
      ∧ s1.d.num_aborts = s.d.num_aborts
      ∧ s1.d.num_spinloops 8 % 2 ^ 32 = (s.d.num_spinloops 8 + fuel) % 2 ^ 32
      ∧ s1.orecs = s.orecs ∧ s1.mem = s.mem ∧ s1.d.redolog = s.d.redolog := by
  induction fuel generalizing s with
  | zero => exact ⟨s, rfl, rfl, rfl, rfl, rfl, rfl⟩
  | succ n ih =>
    rw [acquireLocks_item_locked hitem hnew hl hother]
    simp only [is_inevitable, hact, is_inevitable_or_inactive, hbuf, Option.isNone_none, if_true]
    obtain ⟨s1, h1, h2, h3, h4, h5, h6⟩ := ih (tx_spinloop 8 s) hact hbuf hitem hnew hl hother
    refine ⟨s1, h1, h2, ?_, h4, h5, h6⟩
    rw [h3]
    simp only [tx_spinloop, store, if_true]
    omega


theorem acquireLocks_loop_succ_of_restart {fuel i : Nat} {s s1 : State} {buf : Nat}
    (h : acquireLocks_item fuel i s = .restart buf s1) :
    acquireLocks_loop fuel (i + 1) s = .restart buf s1 := by
  rw [acquireLocks_loop, h]

theorem acquireLocks_loop_succ_of_waiting {fuel i : Nat} {s s1 : State}
    (h : acquireLocks_item fuel i s = .waiting s1) :
    acquireLocks_loop fuel (i + 1) s = .waiting s1 := by
  rw [acquireLocks_loop, h]

/-- C10: when `acquireLocks` visits the entry `i` of the redo log of an
active transaction, then, if the transaction is not inevitable, an orec that is
unlocked with a version above `start_time` makes it leave through
`tx_abort(0)` and an orec that is locked by a lock word other than
`my_lock_word` makes it leave through `tx_abort(6)`; if the transaction is
inevitable, an orec locked by another lock word makes it call
`tx_spinloop(8)` and go back to `retry`, so that, whatever the fuel, it is
still waiting, with no abort counted and one spin of reason 8 per pass (the
counters are `unsigned`: they count modulo `2^32`). -/
theorem acquireLocks_conflict (fuel i : Nat) (s : State) (item : wlog_t)
    (hact : s.d.transaction_active = true) (hitem : s.d.redolog[i]? = some item)
    (hst0 : 0 ≤ s.d.start_time) (hst : isLong s.d.start_time)
    (ho : isLong (s.orecs (get_orec item.addr))) :
    (∀ buf, s.d.setjmp_buf = some buf →
      0 ≤ s.orecs (get_orec item.addr) → s.d.start_time < s.orecs (get_orec item.addr) →
      acquireLocks_item (fuel + 1) i s = tx_abort 0 s
      ∧ ∃ s1, acquireLocks_loop (fuel + 1) (i + 1) s = .restart buf s1
        ∧ s1.d.num_aborts 0 = (s.d.num_aborts 0 + 1) % 2 ^ 32
        ∧ ∀ k, k ≠ 0 → s1.d.num_aborts k = s.d.num_aborts k)
    ∧ (∀ buf, s.d.setjmp_buf = some buf →
      s.orecs (get_orec item.addr) < 0 → s.orecs (get_orec item.addr) ≠ s.d.my_lock_word →
      acquireLocks_item (fuel + 1) i s = tx_abort 6 s
      ∧ ∃ s1, acquireLocks_loop (fuel + 1) (i + 1) s = .restart buf s1
        ∧ s1.d.num_aborts 6 = (s.d.num_aborts 6 + 1) % 2 ^ 32
        ∧ ∀ k, k ≠ 6 → s1.d.num_aborts k = s.d.num_aborts k)
    ∧ (s.d.setjmp_buf = none →
      s.orecs (get_orec item.addr) < 0 → s.orecs (get_orec item.addr) ≠ s.d.my_lock_word →
      acquireLocks_item (fuel + 1) i s = acquireLocks_item fuel i (tx_spinloop 8 s)
      ∧ ∀ n, ∃ s1, acquireLocks_loop n (i + 1) s = .waiting s1
        ∧ s1.d.num_aborts = s.d.num_aborts
        ∧ s1.d.num_spinloops 8 % 2 ^ 32 = (s.d.num_spinloops 8 + n) % 2 ^ 32) := by
  have hiff := IS_LOCKED_OR_NEWER_true_iff _ _ ho hst0 hst
  refine ⟨?_, ?_, ?_⟩
  · intro buf hbuf h0 hgt
    have hnew := hiff.2 (Or.inr ⟨h0, hgt⟩)
    have hunl : IS_LOCKED (s.orecs (get_orec item.addr)) = false := by
      simp [IS_LOCKED, h0]
    have hit : acquireLocks_item (fuel + 1) i s = tx_abort 0 s :=
      acquireLocks_item_newer hitem hnew hunl
    refine ⟨hit, _, acquireLocks_loop_succ_of_restart
      (hit.trans (tx_abort_eq 0 buf s hact hbuf)), ?_, ?_⟩
    · simp [tx_spinloop, store]
    · intro k hk
      simp [tx_spinloop, store, hk]
  · intro buf hbuf hneg hother
    have hnew := hiff.2 (Or.inl hneg)
    have hl : IS_LOCKED (s.orecs (get_orec item.addr)) = true := by
      simp [IS_LOCKED, hneg]
    have hit : acquireLocks_item (fuel + 1) i s = tx_abort 6 s := by
      rw [acquireLocks_item_locked hitem hnew hl hother]
      simp [is_inevitable, hact, is_inevitable_or_inactive, hbuf]
    refine ⟨hit, _, acquireLocks_loop_succ_of_restart
      (hit.trans (tx_abort_eq 6 buf s hact hbuf)), ?_, ?_⟩
    · simp [tx_spinloop, store]
    · intro k hk
      simp [tx_spinloop, store, hk]
  · intro hbuf hneg hother
    have hnew := hiff.2 (Or.inl hneg)
    have hl : IS_LOCKED (s.orecs (get_orec item.addr)) = true := by
      simp [IS_LOCKED, hneg]
    constructor
    · rw [acquireLocks_item_locked hitem hnew hl hother]
      simp [is_inevitable, hact, is_inevitable_or_inactive, hbuf]
    · intro n
      obtain ⟨s1, h1, h2, h3, _⟩ :=
        acquireLocks_item_spins n i s item hact hbuf hitem hnew hl hother
      exact ⟨s1, acquireLocks_loop_succ_of_waiting h1, h2, h3⟩

/-- Witness of C10: the inevitable transaction of the scenario finds the orec
of `X` locked by the lock word `-2001` of another thread. -/
theorem acquireLocks_conflict_witness :
    scenario_inevitable_blocked.d.transaction_active = true
    ∧ scenario_inevitable_blocked.d.redolog[0]? = some { addr := scenario_X, val := 11, p := -1 }
    ∧ 0 ≤ scenario_inevitable_blocked.d.start_time
    ∧ isLong scenario_inevitable_blocked.d.start_time
    ∧ isLong (scenario_inevitable_blocked.orecs (get_orec scenario_X))
    ∧ scenario_inevitable_blocked.d.setjmp_buf = none
    ∧ scenario_inevitable_blocked.orecs (get_orec scenario_X) = -2001
    ∧ scenario_inevitable_blocked.d.my_lock_word = -1001
    ∧ ∀ n, ∃ s1, acquireLocks n scenario_inevitable_blocked = .waiting s1
        ∧ s1.d.num_aborts = scenario_inevitable_blocked.d.num_aborts
        ∧ s1.d.num_spinloops 8 % 2 ^ 32 = (scenario_inevitable_blocked.d.num_spinloops 8 + n) % 2 ^ 32 :=
  ⟨rfl, rfl, by decide, by decide, by decide, rfl, rfl, rfl,
   ((acquireLocks_conflict 0 0 scenario_inevitable_blocked
      { addr := scenario_X, val := 11, p := -1 } rfl rfl (by decide) (by decide)
      (by decide)).2.2 rfl (by decide) (by decide)).2⟩

/-! ## The clock -/

theorem clockStep_of_ok {α β : Type} {k : Nat} {v : α} {s t : State} {r : Outcome β}
    (h1 : (Outcome.ok v t).clockStep 0 s) (h2 : r.clockStep k t) : r.clockStep k s := by
  simp only [Outcome.clockStep, Nat.add_zero] at h1
  obtain ⟨a, b, c⟩ := h1
  cases r <;> simp only [Outcome.clockStep] at h2 ⊢
  · exact ⟨by omega, h2.2.1.trans b, h2.2.2.trans c⟩
  · omega
  · exact ⟨by omega, h2.2⟩
  · omega

theorem clockStep_state {α : Type} {r : Outcome α} {s : State} (h : r.clockStep 0 s) :
    r.state.global_timestamp = s.global_timestamp := by
  cases r <;> simp only [Outcome.clockStep, Outcome.state, Nat.add_zero] at h ⊢
  · exact h.1
  · exact h
  · exact h.1
  · exact h

theorem tx_abort_clockStep {α : Type} (r : Nat) (s : State) :
    (tx_abort r s : Outcome α).clockStep 0 s := by
  unfold tx_abort is_inevitable
  by_cases hact : s.d.transaction_active = true
  · cases hbuf : s.d.setjmp_buf with
    | none => simp [hact, is_inevitable_or_inactive, hbuf, Outcome.clockStep]
    | some buf =>
      simp [hact, is_inevitable_or_inactive, hbuf, Outcome.clockStep, tx_restart, tx_cleanup,
        common_cleanup, releaseAndRevertLocks, tx_spinloop]
  · simp [hact, Outcome.clockStep]

theorem acquireLocks_item_clockStep (fuel i : Nat) (s : State) :
    (acquireLocks_item fuel i s).clockStep 0 s := by
  induction fuel generalizing s with
  | zero => simp [acquireLocks_item, Outcome.clockStep]
  | succ n ih =>
    rw [acquireLocks_item]
    split
    · simp [Outcome.clockStep]
    · simp only []
      split
      · simp only [bool_cas_orec, if_true]
        simp [Outcome.clockStep]
      · split
        · exact tx_abort_clockStep 0 s
        · split
          · unfold is_inevitable
            by_cases hact : s.d.transaction_active = true
            · simp only [hact, if_true]
              cases hin : is_inevitable_or_inactive s.d
              · exact tx_abort_clockStep 6 s
              · exact clockStep_of_ok (v := ()) (t := tx_spinloop 8 s)
                  (by simp [Outcome.clockStep, tx_spinloop]) (ih _)
            · simp [hact, Outcome.clockStep]
          · simp [Outcome.clockStep]


theorem clockStep_refl (s : State) : (Outcome.ok () s).clockStep 0 s := by
  simp [Outcome.clockStep]

theorem acquireLocks_loop_clockStep (fuel i : Nat) (s : State) :
    (acquireLocks_loop fuel i s).clockStep 0 s := by
  induction i generalizing s with
  | zero => simp [acquireLocks_loop, Outcome.clockStep]
  | succ n ih =>
    rw [acquireLocks_loop]
    have h := acquireLocks_item_clockStep fuel n s
    cases hr : acquireLocks_item fuel n s with
    | ok v s1 =>
      rw [hr] at h
      exact clockStep_of_ok h (ih s1)
    | restart buf s1 => rw [hr] at h; exact h
    | crash why s1 => rw [hr] at h; exact h
    | waiting s1 => rw [hr] at h; exact h

theorem acquireLocks_clockStep (fuel : Nat) (s : State) :
    (acquireLocks fuel s).clockStep 0 s :=
  acquireLocks_loop_clockStep fuel _ s

theorem validate_fast_item_clockStep (fuel lognum o : Nat) (s : State) :
    (validate_fast_item fuel lognum o s).clockStep 0 s := by
  induction fuel generalizing s with
  | zero => simp [validate_fast_item, Outcome.clockStep]
  | succ n ih =>
    rw [validate_fast_item]
    split
    · split
      · exact clockStep_of_ok (v := ()) (t := tx_spinloop lognum s)
          (by simp [Outcome.clockStep, tx_spinloop]) (ih _)
      · exact tx_abort_clockStep lognum s
    · exact clockStep_refl s

theorem validate_fast_loop_clockStep (fuel lognum : Nat) (l : OrecList) (s : State) :
    (validate_fast_loop fuel lognum l s).clockStep 0 s := by
  induction l generalizing s with
  | nil => exact clockStep_refl s
  | cons o rest ih =>
    rw [validate_fast_loop]
    have h := validate_fast_item_clockStep fuel lognum o s
    cases hr : validate_fast_item fuel lognum o s with
    | ok v s1 =>
      rw [hr] at h
      exact clockStep_of_ok h (ih s1)
    | restart buf s1 => rw [hr] at h; exact h
    | crash why s1 => rw [hr] at h; exact h
    | waiting s1 => rw [hr] at h; exact h

theorem validate_fast_clockStep (fuel lognum : Nat) (s : State) :
    (validate_fast fuel lognum s).clockStep 0 s := by
  unfold validate_fast is_inevitable
  by_cases hact : s.d.transaction_active = true
  · simp only [hact, if_true]
    cases hin : is_inevitable_or_inactive s.d
    · exact validate_fast_loop_clockStep fuel lognum _ s
    · simp [Outcome.clockStep]
  · simp [hact, Outcome.clockStep]

theorem validate_loop_clockStep (l : OrecList) (s : State) :
    (validate_loop l s).clockStep 0 s := by
  induction l with
  | nil => exact clockStep_refl s
  | cons o rest ih =>
    rw [validate_loop]
    split
    · split
      · exact tx_abort_clockStep 4 s
      · split
        · exact tx_abort_clockStep 5 s
        · exact ih
    · exact ih

theorem validate_clockStep (s : State) : (validate s).clockStep 0 s := by
  unfold validate is_inevitable
  by_cases hact : s.d.transaction_active = true
  · simp only [hact, if_true]
    cases hin : is_inevitable_or_inactive s.d
    · exact validate_loop_clockStep _ s
    · simp [Outcome.clockStep]
  · simp [hact, Outcome.clockStep]

theorem mutex_lock_clockStep (s : State) : (mutex_lock s).clockStep 0 s := by
  unfold mutex_lock
  split <;> simp [Outcome.clockStep]

theorem wait_end_inevitability_loop_clockStep (fuel : Nat) (s : State) :
    (wait_end_inevitability_loop fuel s).clockStep 0 s := by
  induction fuel generalizing s with
  | zero => simp [wait_end_inevitability_loop, Outcome.clockStep]
  | succ n ih =>
    rw [wait_end_inevitability_loop]
    simp only [get_global_timestamp]
    have hs1 : (Outcome.ok ()
        { s with d := { s.d with last_known_global_timestamp := s.global_timestamp } }).clockStep 0
        s := by simp [Outcome.clockStep]
    split
    · -- the clock is odd
      have hcaught : ∀ r : Outcome Unit,
          r = (if toUnsigned s.d.start_time < s.global_timestamp - 1 then
            match validate_fast (n + 1) 3
              { s with d := { s.d with last_known_global_timestamp := s.global_timestamp } } with
            | .ok _ s2 => .ok ()
                { s2 with d := { s2.d with start_time := ((s.global_timestamp - 1 : Nat) : Int) } }
            | other => other
          else .ok ()
            { s with d := { s.d with last_known_global_timestamp := s.global_timestamp } }) →
          r.clockStep 0 s := by
        intro r hr
        rw [hr]
        split
        · have h := validate_fast_clockStep (n + 1) 3
            { s with d := { s.d with last_known_global_timestamp := s.global_timestamp } }
          split
          · rename_i s2 heq
            rw [heq] at h
            exact clockStep_of_ok hs1 (by simpa [Outcome.clockStep] using h)
          · exact clockStep_of_ok hs1 h
        · exact hs1
      generalize hc : (if toUnsigned s.d.start_time < s.global_timestamp - 1 then
            match validate_fast (n + 1) 3
              { s with d := { s.d with last_known_global_timestamp := s.global_timestamp } } with
            | .ok _ s2 => Outcome.ok ()
                { s2 with d := { s2.d with start_time := ((s.global_timestamp - 1 : Nat) : Int) } }
            | other => other
          else Outcome.ok ()
            { s with d := { s.d with last_known_global_timestamp := s.global_timestamp } }) = caught
      have hcs := hcaught caught hc.symm
      cases caught with
      | ok v s2 =>
        simp only []
        have hm := mutex_lock_clockStep (tx_spinloop 4 s2)
        cases hml : mutex_lock (tx_spinloop 4 s2) with
        | ok v3 s3 =>
          rw [hml] at hm
          simp only []
          refine clockStep_of_ok hcs (clockStep_of_ok (v := ()) (t := tx_spinloop 4 s2)
            (by simp [Outcome.clockStep, tx_spinloop]) (clockStep_of_ok hm ?_))
          exact clockStep_of_ok (v := ()) (t := mutex_unlock s3)
            (by simp [Outcome.clockStep, mutex_unlock]) (ih _)
        | restart b s3 =>
          rw [hml] at hm
          exact clockStep_of_ok hcs (clockStep_of_ok (v := ()) (t := tx_spinloop 4 s2)
            (by simp [Outcome.clockStep, tx_spinloop]) hm)
        | crash w s3 =>
          rw [hml] at hm
          exact clockStep_of_ok hcs (clockStep_of_ok (v := ()) (t := tx_spinloop 4 s2)
            (by simp [Outcome.clockStep, tx_spinloop]) hm)
        | waiting s3 =>
          rw [hml] at hm
          exact clockStep_of_ok hcs (clockStep_of_ok (v := ()) (t := tx_spinloop 4 s2)
            (by simp [Outcome.clockStep, tx_spinloop]) hm)
      | restart b s2 => exact hcs
      | crash w s2 => exact hcs
      | waiting s2 => exact hcs
    · exact clockStep_of_ok hs1 (acquireLocks_clockStep _ _)


theorem wait_end_inevitability_clockStep (fuel : Nat) (s : State) :
    (wait_end_inevitability fuel s).clockStep 0 s :=
  clockStep_of_ok (v := ()) (t := releaseLocksForRetry s)
    (by simp [Outcome.clockStep, releaseLocksForRetry])
    (wait_end_inevitability_loop_clockStep fuel _)

theorem commit_transaction_clock_clockStep (fuel : Nat) (s : State) :
    (commit_transaction_clock fuel s).clockStep 2 s := by
  induction fuel generalizing s with
  | zero => simp [commit_transaction_clock, Outcome.clockStep]
  | succ n ih =>
    rw [commit_transaction_clock]
    simp only [get_global_timestamp]
    have hs1 : (Outcome.ok ()
        { s with d := { s.d with last_known_global_timestamp := s.global_timestamp } }).clockStep 0
        s := by simp [Outcome.clockStep]
    split
    · have h := wait_end_inevitability_clockStep (n + 1)
        { s with d := { s.d with last_known_global_timestamp := s.global_timestamp } }
      split
      · rename_i s2 heq
        rw [heq] at h
        exact clockStep_of_ok hs1 (clockStep_of_ok h (ih s2))
      · rename_i other hne
        have h2 := clockStep_of_ok hs1 h
        revert h2 hne
        cases wait_end_inevitability (n + 1)
          { s with d := { s.d with last_known_global_timestamp := s.global_timestamp } } with
        | ok v s2 => intro hne; exact absurd rfl (hne v s2)
        | restart b s2 => intro _ h2; exact h2
        | crash w s2 => intro _ h2; exact h2
        | waiting s2 => intro _ h2; exact h2
    · simp [change_global_timestamp, bool_cas_global_timestamp, Outcome.clockStep]


theorem stm_read_word_retry_clockStep (fuel addr o : Nat) (s : State) :
    (stm_read_word_retry fuel addr o s).clockStep 0 s := by
  induction fuel generalizing s with
  | zero => simp [stm_read_word_retry, Outcome.clockStep]
  | succ n ih =>
    rw [stm_read_word_retry]
    simp only [get_global_timestamp]
    split
    · exact clockStep_of_ok (v := ()) (t := tx_spinloop 7 s)
        (by simp [Outcome.clockStep, tx_spinloop]) (ih _)
    · have hs1 : (Outcome.ok ()
          { s with d := { s.d with last_known_global_timestamp := s.global_timestamp } }).clockStep
          0 s := by simp [Outcome.clockStep]
      have hscaled : ∀ r : Outcome Unit,
          r = (if IS_LOCKED_OR_NEWER (s.orecs o) s.d.start_time = true then
            match validate_fast (n + 1) 1
              { s with d := { s.d with last_known_global_timestamp := s.global_timestamp } } with
            | .ok _ s2 => .ok ()
                { s2 with d := { s2.d with start_time := ((and_not_1 s.global_timestamp : Nat) : Int) } }
            | other => other
          else .ok () s) → r.clockStep 0 s := by
        intro r hr
        rw [hr]
        split
        · have h := validate_fast_clockStep (n + 1) 1
            { s with d := { s.d with last_known_global_timestamp := s.global_timestamp } }
          split
          · rename_i s2 heq
            rw [heq] at h
            exact clockStep_of_ok hs1 (by simpa [Outcome.clockStep] using h)
          · exact clockStep_of_ok hs1 h
        · exact clockStep_refl s
      generalize hc : (if IS_LOCKED_OR_NEWER (s.orecs o) s.d.start_time = true then
            match validate_fast (n + 1) 1
              { s with d := { s.d with last_known_global_timestamp := s.global_timestamp } } with
            | .ok _ s2 => Outcome.ok ()
                { s2 with d := { s2.d with start_time := ((and_not_1 s.global_timestamp : Nat) : Int) } }
            | other => other
          else Outcome.ok () s) = scaled
      have hcs := hscaled scaled hc.symm
      cases scaled with
      | ok v s3 =>
        simp only []
        split
        · exact clockStep_of_ok hcs (ih s3)
        · exact clockStep_of_ok hcs (by simp [Outcome.clockStep])
      | restart b s2 => exact hcs
      | crash w s2 => exact hcs
      | waiting s2 => exact hcs

theorem stm_read_word_clockStep (fuel addr : Nat) (s : State) :
    (stm_read_word fuel addr s).clockStep 0 s := by
  unfold stm_read_word
  split
  · simp [Outcome.clockStep]
  · split
    · simp [Outcome.clockStep]
    · exact stm_read_word_retry_clockStep _ _ _ _

theorem stm_try_inevitable_loop_clockStep (fuel : Nat) (s : State) :
    (stm_try_inevitable_loop fuel s).clockStep 1 s := by
  induction fuel generalizing s with
  | zero => simp [stm_try_inevitable_loop, Outcome.clockStep]
  | succ n ih =>
    rw [stm_try_inevitable_loop]
    simp only [get_global_timestamp]
    have hs1 : (Outcome.ok ()
        { s with d := { s.d with last_known_global_timestamp := s.global_timestamp } }).clockStep
        0 s := by simp [Outcome.clockStep]
    have hscaled : ∀ r : Outcome Unit,
        r = (if (toUnsigned s.d.start_time != and_not_1 s.global_timestamp) = true then
          match validate_fast (n + 1) 2
            { s with d := { s.d with last_known_global_timestamp := s.global_timestamp } } with
          | .ok _ s2 => .ok ()
              { s2 with d := { s2.d with start_time := ((and_not_1 s.global_timestamp : Nat) : Int) } }
          | other => other
        else .ok ()
          { s with d := { s.d with last_known_global_timestamp := s.global_timestamp } }) →
        r.clockStep 0 s := by
      intro r hr
      rw [hr]
      split
      · have h := validate_fast_clockStep (n + 1) 2
          { s with d := { s.d with last_known_global_timestamp := s.global_timestamp } }
        split
        · rename_i s2 heq
          rw [heq] at h
          exact clockStep_of_ok hs1 (by simpa [Outcome.clockStep] using h)
        · exact clockStep_of_ok hs1 h
      · exact hs1
    generalize hc : (if (toUnsigned s.d.start_time != and_not_1 s.global_timestamp) = true then
          match validate_fast (n + 1) 2
            { s with d := { s.d with last_known_global_timestamp := s.global_timestamp } } with
          | .ok _ s2 => Outcome.ok ()
              { s2 with d := { s2.d with start_time := ((and_not_1 s.global_timestamp : Nat) : Int) } }
          | other => other
        else Outcome.ok ()
          { s with d := { s.d with last_known_global_timestamp := s.global_timestamp } }) = scaled
    have hcs := hscaled scaled hc.symm
    cases scaled with
    | ok v s2 =>
      simp only []
      have hm := mutex_lock_clockStep s2
      cases hml : mutex_lock s2 with
      | ok v3 s3 =>
        rw [hml] at hm
        simp only []
        have h03 := clockStep_of_ok hcs hm
        split
        · exact clockStep_of_ok h03 (clockStep_of_ok (v := ())
            (t := tx_spinloop 6 (mutex_unlock s3))
            (by simp [Outcome.clockStep, tx_spinloop, mutex_unlock]) (ih _))
        · simp only [change_global_timestamp, bool_cas_global_timestamp]
          simp only [Outcome.clockStep, Nat.add_zero] at h03
          split
          · rename_i heq
            split at heq
            · rename_i hcas
              split at hcas
              · simp only [Prod.mk.injEq] at hcas heq
                obtain ⟨_, rfl⟩ := hcas
                obtain ⟨_, rfl⟩ := heq
                simp only [Outcome.clockStep]
                exact ⟨trivial, h03.2.1, h03.2.2⟩
              · simp at hcas
            · simp at heq
          · rename_i heq
            split at heq
            · simp at heq
            · rename_i hcas
              split at hcas
              · simp at hcas
              · simp only [Prod.mk.injEq] at hcas heq
                obtain ⟨_, rfl⟩ := hcas
                obtain ⟨_, rfl⟩ := heq
                exact clockStep_of_ok (t := s3) (v := ()) (by simpa [Outcome.clockStep] using h03)
                  (clockStep_of_ok (v := ()) (t := mutex_unlock s3)
                    (by simp [Outcome.clockStep, mutex_unlock]) (ih _))
      | restart b s3 => rw [hml] at hm; exact clockStep_of_ok hcs hm
      | crash w s3 => rw [hml] at hm; exact clockStep_of_ok hcs hm
      | waiting s3 => rw [hml] at hm; exact clockStep_of_ok hcs hm
    | restart b s2 => exact hcs
    | crash w s2 => exact hcs
    | waiting s2 => exact hcs


theorem commitInevitableTransaction_clock (s : State) :
    (∃ s1, commitInevitableTransaction s = .crash .assertion s1
      ∧ s1.global_timestamp = s.global_timestamp)
    ∨ (∃ w s1, commitInevitableTransaction s = .crash w s1
      ∧ s1.global_timestamp = s.global_timestamp + 1) := by
  unfold commitInevitableTransaction
  simp only [get_global_timestamp, tx_redo, set_global_timestamp]
  split
  · right
    split
    · exact ⟨_, _, rfl, rfl⟩
    · exact ⟨_, _, rfl, rfl⟩
  · left
    exact ⟨_, rfl, rfl⟩

theorem commit_transaction_writes_clock (fuel : Nat) (s : State) :
    ((commit_transaction_writes fuel s).state.global_timestamp = s.global_timestamp
      ∧ ∀ s1, commit_transaction_writes fuel s ≠ .crash .abortCall s1)
    ∨ (s.d.setjmp_buf ≠ none
      ∧ (commit_transaction_writes fuel s).state.global_timestamp = s.global_timestamp + 2)
    ∨ (s.d.setjmp_buf = none
      ∧ (commit_transaction_writes fuel s).state.global_timestamp = s.global_timestamp + 1) := by
  unfold commit_transaction_writes
  have h1 := acquireLocks_clockStep fuel s
  cases hr1 : acquireLocks fuel s with
  | restart b s1 =>
    rw [hr1] at h1
    left
    simpa [Outcome.andThen, Outcome.state, Outcome.clockStep] using h1
  | crash w s1 =>
    rw [hr1] at h1
    left
    simp only [Outcome.clockStep] at h1
    simp only [Outcome.andThen, Outcome.state]
    refine ⟨h1.1, ?_⟩
    intro s2 h
    injection h with hw _
    exact h1.2 hw
  | waiting s1 =>
    rw [hr1] at h1
    left
    simpa [Outcome.andThen, Outcome.state, Outcome.clockStep] using h1
  | ok v s1 =>
    rw [hr1] at h1
    simp only [Outcome.clockStep, Nat.add_zero] at h1
    obtain ⟨hgt, hbuf, hact⟩ := h1
    simp only [Outcome.andThen, is_inevitable]
    by_cases ha : s1.d.transaction_active = true
    · simp only [ha, if_true, is_inevitable_or_inactive]
      cases hb : s1.d.setjmp_buf with
      | none =>
        have hb0 : s.d.setjmp_buf = none := by rw [← hbuf, hb]
        simp only [Option.isNone_none, if_true]
        rcases commitInevitableTransaction_clock s1 with ⟨s2, h2, hg2⟩ | ⟨w, s2, h2, hg2⟩
        · left
          rw [h2]
          simp only [Outcome.state]
          refine ⟨by omega, ?_⟩
          intro s3 h
          injection h with hw _
          exact absurd hw (by decide)
        · right; right
          rw [h2]
          simp only [Outcome.state]
          exact ⟨hb0, by omega⟩
      | some buf =>
        have hb0 : s.d.setjmp_buf ≠ none := by rw [← hbuf, hb]; simp
        simp only [Option.isNone_some, Bool.false_eq_true, if_false]
        have h2 := commit_transaction_clock_clockStep fuel s1
        cases hr2 : commit_transaction_clock fuel s1 with
        | restart b s2 =>
          rw [hr2] at h2
          left
          simp only [Outcome.clockStep] at h2
          simp only [Outcome.state]
          exact ⟨by omega, by simp⟩
        | crash w s2 =>
          rw [hr2] at h2
          left
          simp only [Outcome.clockStep] at h2
          simp only [Outcome.state]
          refine ⟨by omega, ?_⟩
          intro s3 h
          injection h with hw _
          exact h2.2 hw
        | waiting s2 =>
          rw [hr2] at h2
          left
          simp only [Outcome.clockStep] at h2
          simp only [Outcome.state]
          exact ⟨by omega, by simp⟩
        | ok v2 s2 =>
          rw [hr2] at h2
          simp only [Outcome.clockStep] at h2
          right; left
          refine ⟨hb0, ?_⟩
          simp only []
          have hval : ∀ r : Outcome Unit,
              r = (if (s2.d.end_time != s2.d.start_time + 2) = true then validate s2
                else .ok () s2) → r.clockStep 0 s2 := by
            intro r hr
            rw [hr]
            split
            · exact validate_clockStep s2
            · exact clockStep_refl s2
          generalize hc : (if (s2.d.end_time != s2.d.start_time + 2) = true then validate s2
                else Outcome.ok () s2) = validated
          have hv := hval validated hc.symm
          cases validated with
          | ok v3 s3 =>
            simp only [Outcome.clockStep, Nat.add_zero] at hv
            simp only [tx_redo, Outcome.state]
            omega
          | restart b s3 =>
            simp only [Outcome.clockStep] at hv
            simp only [Outcome.state]
            omega
          | crash w s3 =>
            simp only [Outcome.clockStep] at hv
            simp only [Outcome.state]
            omega
          | waiting s3 =>
            simp only [Outcome.clockStep] at hv
            simp only [Outcome.state]
            omega
    · left
      simp [ha, Outcome.state, hgt]


theorem stm_try_inevitable_clock (fuel : Nat) (s : State) :
    s.global_timestamp ≤ (stm_try_inevitable fuel s).state.global_timestamp
    ∧ (s.d.transaction_active = true → s.d.setjmp_buf ≠ none →
        ∀ s1, stm_try_inevitable fuel s = .ok () s1 →
          s1.global_timestamp = s.global_timestamp + 1) := by
  unfold stm_try_inevitable
  by_cases hact : s.d.transaction_active = true
  · cases hbuf : s.d.setjmp_buf with
    | none => simp [hact, is_inevitable_or_inactive, hbuf, Outcome.state]
    | some buf =>
      simp only [hact, Bool.not_true, Bool.false_eq_true, if_false, is_inevitable_or_inactive,
        hbuf, Option.isNone_some]
      have h := stm_try_inevitable_loop_clockStep fuel s
      cases hr : stm_try_inevitable_loop fuel s with
      | ok v s1 =>
        rw [hr] at h
        simp only [Outcome.clockStep] at h
        simp only [Outcome.state]
        refine ⟨by omega, fun _ _ s2 h2 => ?_⟩
        injection h2 with _ h3
        rw [← h3]
        exact h.1
      | restart b s1 =>
        rw [hr] at h
        simp only [Outcome.clockStep] at h
        simp only [Outcome.state]
        exact ⟨by omega, fun _ _ s2 h2 => by simp at h2⟩
      | crash w s1 =>
        rw [hr] at h
        simp only [Outcome.clockStep] at h
        simp only [Outcome.state]
        exact ⟨by omega, fun _ _ s2 h2 => by simp at h2⟩
      | waiting s1 =>
        rw [hr] at h
        simp only [Outcome.clockStep] at h
        simp only [Outcome.state]
        exact ⟨by omega, fun _ _ s2 h2 => by simp at h2⟩
  · simp [hact, Outcome.state]

theorem commit_transaction_no_writes_clock (s : State) :
    (s.d.setjmp_buf ≠ none →
      (commit_transaction_no_writes s).state.global_timestamp = s.global_timestamp)
    ∧ (s.d.transaction_active = true → s.d.setjmp_buf = none → s.global_timestamp % 2 = 1 →
      (commit_transaction_no_writes s).state.global_timestamp + 1 = s.global_timestamp) := by
  unfold commit_transaction_no_writes is_inevitable
  constructor
  · intro hbuf
    by_cases hact : s.d.transaction_active = true
    · cases hb : s.d.setjmp_buf with
      | none => exact absurd hb hbuf
      | some buf =>
        simp [hact, is_inevitable_or_inactive, hb, Outcome.andThen, common_cleanup,
          Outcome.state]
    · simp [hact, Outcome.andThen, Outcome.state]
  · intro hact hbuf hodd
    simp [hact, is_inevitable_or_inactive, hbuf, Outcome.andThen, and_1, get_global_timestamp,
      hodd, common_cleanup, mutex_unlock, set_global_timestamp, Outcome.state]
    omega

/-- C7, counterexample, the commit of an inevitable transaction with an
empty redo log: the clock shows `3` before `commit_transaction` and `2` after
it. -/
theorem commit_transaction_lowers_clock :
    scenario_inevitable.d.transaction_active = true
    ∧ scenario_inevitable.d.setjmp_buf = none
    ∧ scenario_inevitable.global_timestamp = 3
    ∧ ∃ v s1, commit_transaction 1 scenario_inevitable = .ok v s1 ∧ s1.global_timestamp = 2 :=
  ⟨rfl, rfl, rfl, _, _, rfl, rfl⟩

/-! ## The spin loop ends within its 257 turns -/

theorem tx_spinloop_wait_eq (fuel : Nat) (i : Int) (n : Nat)
    (h0 : 0 ≤ i) (hlt : i < 65536 * (fuel : Int)) :
    tx_spinloop_wait fuel i n = n + (i / 65536).toNat + 1 := by
  induction fuel generalizing i n with
  | zero => omega
  | succ k ih =>
    rw [tx_spinloop_wait]
    simp only [ge_iff_le, h0, if_true]
    by_cases hi : i < 65536
    · have hq : i / 65536 = 0 := Int.ediv_eq_zero_of_lt h0 hi
      cases k with
      | zero => simp [tx_spinloop_wait, hq]
      | succ m =>
        rw [tx_spinloop_wait]
        have : ¬ (i - 65536 ≥ 0) := by omega
        simp [this, hq]
    · have h1 : 0 ≤ i - 65536 := by omega
      have h2 : i - 65536 < 65536 * (k : Int) := by push_cast at hlt; omega
      rw [ih (i - 65536) (n + 1) h1 h2]
      have : (i / 65536).toNat = ((i - 65536) / 65536).toNat + 1 := by omega
      omega

theorem tx_spinloop_pauses (num : Nat) (s : State) :
    (tx_spinloop num s).pauses
      = s.pauses + (s.d.spinloop_counter &&& 0xff0000) / 65536 + 1 := by
  have hle : s.d.spinloop_counter &&& 0xff0000 ≤ 0xff0000 := Nat.and_le_right
  unfold tx_spinloop
  simp only []
  rw [tx_spinloop_wait_eq 257 _ _ (by omega) (by omega)]
  omega

/-! ## `acquireLocks` without conflict -/

theorem locksTaken_refl (s : State) : locksTaken s s :=
  ⟨rfl, rfl, rfl, rfl, rfl, rfl, rfl, rfl, rfl, rfl, rfl, rfl, rfl, rfl, rfl,
   fun _ => Or.inl rfl⟩

theorem locksTaken_trans {s t u : State} (h1 : locksTaken s t) (h2 : locksTaken t u) :
    locksTaken s u := by
  obtain ⟨a1, a2, a3, a4, a5, a6, a7, a8, a9, a10, a11, a12, a13, a14, a16, a15⟩ := h1
  obtain ⟨b1, b2, b3, b4, b5, b6, b7, b8, b9, b10, b11, b12, b13, b14, b16, b15⟩ := h2
  refine ⟨b1.trans a1, b2.trans a2, b3.trans a3, b4.trans a4, b5.trans a5, b6.trans a6,
    b7.trans a7, b8.trans a8, b9.trans a9, b10.trans a10, b11.trans a11, b12.trans a12,
    b13.trans a13, b14.trans a14, b16.trans a16, ?_⟩
  intro o
  rcases b15 o with h | h
  · rcases a15 o with h3 | h3
    · exact Or.inl (h.trans h3)
    · exact Or.inr (h.trans h3)
  · exact Or.inr (h.trans a13)

theorem map_set_same_key {β : Type} (f : wlog_t → β) (l : RedoLog) (i : Nat)
    (item : wlog_t) (v : Int) (h : l[i]? = some item)
    (hf : f { item with p := v } = f item) :
    (l.set i { item with p := v }).map f = l.map f := by
  induction l generalizing i with
  | nil => rfl
  | cons x rest ih =>
    cases i with
    | zero =>
      simp only [List.getElem?_cons_zero, Option.some.injEq] at h
      subst h
      simp only [List.set_cons_zero, List.map_cons, hf]
    | succ n =>
      simp only [List.getElem?_cons_succ] at h
      simp only [List.set_cons_succ, List.map_cons, ih n h]

theorem acquireLocks_item_free (fuel i : Nat) (s : State) (item : wlog_t)
    (hst0 : 0 ≤ s.d.start_time) (hst : isLong s.d.start_time)
    (hlw0 : s.d.my_lock_word < 0) (hlw : isLong s.d.my_lock_word)
    (hitem : s.d.redolog[i]? = some item)
    (hcov : (0 ≤ s.orecs (get_orec item.addr) ∧ s.orecs (get_orec item.addr) ≤ s.d.start_time)
      ∨ s.orecs (get_orec item.addr) = s.d.my_lock_word) :
    ∃ t, acquireLocks_item (fuel + 1) i s = .ok () t ∧ locksTaken s t
      ∧ t.orecs (get_orec item.addr) = s.d.my_lock_word := by
  rw [acquireLocks_item]
  simp only [hitem]
  rcases hcov with ⟨h0, hle⟩ | hme
  · have ho : isLong (s.orecs (get_orec item.addr)) := by
      unfold isLong at hst ⊢
      constructor <;> omega
    have hnew : IS_LOCKED_OR_NEWER (s.orecs (get_orec item.addr)) s.d.start_time = false := by
      have h := IS_LOCKED_OR_NEWER_true_iff _ _ ho hst0 hst
      cases hb : IS_LOCKED_OR_NEWER (s.orecs (get_orec item.addr)) s.d.start_time
      · rfl
      · have := h.1 hb
        omega
    simp only [hnew, Bool.not_false, if_true, bool_cas_orec]
    refine ⟨_, rfl, ?_, ?_⟩
    · refine ⟨rfl, rfl, rfl, rfl, rfl, rfl, rfl, rfl, rfl, rfl, rfl, rfl, rfl, ?_, ?_, ?_⟩
      · exact map_set_same_key _ _ _ _ _ hitem rfl
      · exact map_set_same_key _ _ _ _ _ hitem rfl
      · intro o
        by_cases h : o = get_orec item.addr
        · right
          simp [store, h]
        · left
          simp [store, h]
    · simp [store]
  · have ho : isLong (s.orecs (get_orec item.addr)) := by rw [hme]; exact hlw
    have hnew : IS_LOCKED_OR_NEWER (s.orecs (get_orec item.addr)) s.d.start_time = true :=
      (IS_LOCKED_OR_NEWER_true_iff _ _ ho hst0 hst).2 (Or.inl (by rw [hme]; exact hlw0))
    have hl : IS_LOCKED (s.orecs (get_orec item.addr)) = true := by
      simp [IS_LOCKED, hme, hlw0]
    rw [hme] at hnew hl
    simp only [hme, hnew, hl, Bool.not_true, Bool.false_eq_true, if_false, bne_self_eq_false]
    exact ⟨s, rfl, locksTaken_refl s, hme⟩

theorem acquireLocks_loop_free (fuel i : Nat) (s : State)
    (hst0 : 0 ≤ s.d.start_time) (hst : isLong s.d.start_time)
    (hlw0 : s.d.my_lock_word < 0) (hlw : isLong s.d.my_lock_word)
    (hi : i ≤ s.d.redolog.length)
    (hcov : ∀ a ∈ s.d.redolog.map (fun item => item.addr),
      (0 ≤ s.orecs (get_orec a) ∧ s.orecs (get_orec a) ≤ s.d.start_time)
        ∨ s.orecs (get_orec a) = s.d.my_lock_word) :
    ∃ t, acquireLocks_loop (fuel + 1) i s = .ok () t ∧ locksTaken s t
      ∧ ∀ j a, j < i → (s.d.redolog.map (fun item => item.addr))[j]? = some a →
          t.orecs (get_orec a) = s.d.my_lock_word := by
  induction i generalizing s with
  | zero =>
    exact ⟨s, rfl, locksTaken_refl s, fun j a hj => absurd hj (Nat.not_lt_zero j)⟩
  | succ n ih =>
    have hn : n < s.d.redolog.length := hi
    have hitem : s.d.redolog[n]? = some (s.d.redolog[n]) := List.getElem?_eq_getElem hn
    have hmem : (s.d.redolog[n]).addr ∈ s.d.redolog.map (fun item => item.addr) :=
      List.mem_map.2 ⟨_, List.getElem_mem hn, rfl⟩
    obtain ⟨t1, h1, hf1, hl1⟩ := acquireLocks_item_free fuel n s _ hst0 hst hlw0 hlw hitem
      (hcov _ hmem)
    have hf1c := hf1
    obtain ⟨_, _, _, _, _, e6, _, _, _, _, _, _, e13, e14, _, e15⟩ := hf1c
    have hlen : t1.d.redolog.length = s.d.redolog.length := by
      have := congrArg List.length e14
      simpa using this
    obtain ⟨t, h2, hf2, hl2⟩ := ih t1 (by rw [e6]; exact hst0) (by rw [e6]; exact hst)
      (by rw [e13]; exact hlw0) (by rw [e13]; exact hlw) (by omega)
      (by
        intro a ha
        rw [e14] at ha
        rw [e6, e13]
        rcases e15 (get_orec a) with h | h
        · rw [h]
          exact hcov a ha
        · exact Or.inr h)
    refine ⟨t, ?_, locksTaken_trans hf1 hf2, ?_⟩
    · rw [acquireLocks_loop, h1]
      exact h2
    · intro j a hj ha
      rcases Nat.lt_succ_iff_lt_or_eq.1 hj with hlt | heq
      · rw [← e13]
        exact hl2 j a hlt (by rw [e14]; exact ha)
      · subst heq
        have ha2 : a = (s.d.redolog[j]).addr := by
          rw [List.getElem?_map, hitem] at ha
          simpa using ha.symm
        rw [ha2]
        rcases hf2.2.2.2.2.2.2.2.2.2.2.2.2.2.2.2 (get_orec (s.d.redolog[j]).addr) with h | h
        · rw [h, hl1]
        · rw [h, e13]

theorem commit_transaction_clock_even (fuel : Nat) (s : State)
    (heven : s.global_timestamp % 2 = 0) :
    commit_transaction_clock (fuel + 1) s = .ok ()
      { s with
        global_timestamp := s.global_timestamp + 2,
        d := { s.d with
          last_known_global_timestamp := s.global_timestamp + 2,
          end_time := ((s.global_timestamp + 2 : Nat) : Int) } } := by
  rw [commit_transaction_clock]
  simp [get_global_timestamp, and_1, heven, change_global_timestamp, bool_cas_global_timestamp]

theorem commit_transaction_reaches_tx_redo (fuel : Nat) (s : State) (buf : Nat)
    (hact : s.d.transaction_active = true) (hbuf : s.d.setjmp_buf = some buf)
    (hlog : s.d.redolog ≠ [])
    (hst0 : 0 ≤ s.d.start_time) (hst : isLong s.d.start_time)
    (hlw0 : s.d.my_lock_word < 0) (hlw : isLong s.d.my_lock_word)
    (heven : s.global_timestamp % 2 = 0)
    (hcov : ∀ item ∈ s.d.redolog,
      0 ≤ s.orecs (get_orec item.addr) ∧ s.orecs (get_orec item.addr) ≤ s.d.start_time)
    (hreads : ∀ o ∈ s.d.reads, 0 ≤ s.orecs o ∧ s.orecs o ≤ s.d.start_time) :
    ∃ t, commit_transaction (fuel + 1) s = .crash .abortCall t
      ∧ t.mem = s.mem ∧ t.global_timestamp = s.global_timestamp + 2
      ∧ t.d.num_commits = s.d.num_commits ∧ t.d.num_aborts = s.d.num_aborts
      ∧ t.d.transaction_active = true
      ∧ ∀ item ∈ s.d.redolog, t.orecs (get_orec item.addr) = s.d.my_lock_word := by
  have hc : commit_transaction (fuel + 1) s = commit_transaction_writes (fuel + 1) s := by
    unfold commit_transaction
    simp [redolog_any_entry_of_ne_nil _ hlog]
  obtain ⟨t1, h1, hf1, hl1⟩ := acquireLocks_loop_free fuel s.d.redolog.length s hst0 hst hlw0 hlw
    (le_refl _) (by
      intro a ha
      obtain ⟨item, hitem, rfl⟩ := List.mem_map.1 ha
      exact Or.inl (hcov item hitem))
  obtain ⟨e1, e2, e3, e4, e5, e6, e7, e8, e9, e10, e11, e12, e13, e14, e16, e15⟩ := hf1
  have hact1 : t1.d.transaction_active = true := e12.trans hact
  have hbuf1 : t1.d.setjmp_buf = some buf := e5.trans hbuf
  have heven1 : t1.global_timestamp % 2 = 0 := by rw [e2]; exact heven
  -- the state after the clock has been moved
  have hclock := commit_transaction_clock_even fuel t1 heven1
  generalize ht2 : ({ t1 with
        global_timestamp := t1.global_timestamp + 2,
        d := { t1.d with
          last_known_global_timestamp := t1.global_timestamp + 2,
          end_time := ((t1.global_timestamp + 2 : Nat) : Int) } } : State) = t2 at hclock
  have hact2 : t2.d.transaction_active = true := by subst ht2; exact hact1
  have hbuf2 : t2.d.setjmp_buf = some buf := by subst ht2; exact hbuf1
  have hst2 : t2.d.start_time = s.d.start_time := by subst ht2; exact e6
  have hlw2 : t2.d.my_lock_word = s.d.my_lock_word := by subst ht2; exact e13
  have hreads2 : t2.d.reads = s.d.reads := by subst ht2; exact e8
  have horecs2 : t2.orecs = t1.orecs := by subst ht2; rfl
  have hval : validate t2 = .ok () t2 := by
    rw [validate_eq_loop t2 buf hact2 hbuf2]
    apply validate_loop_of_good
    · rw [hst2]; exact hst0
    · rw [hst2]; exact hst
    · rw [hlw2]; exact hlw0
    · intro o ho
      rw [hreads2] at ho
      rw [horecs2]
      rcases e15 o with h | h
      · rw [h]
        have := hreads o ho
        unfold isLong at hst ⊢
        constructor <;> omega
      · rw [h]; exact hlw
    · intro o ho
      rw [hreads2] at ho
      rw [horecs2, hst2, hlw2]
      rcases e15 o with h | h
      · rw [h]; exact Or.inl (hreads o ho)
      · exact Or.inr h
  have hvd : (if (t2.d.end_time != t2.d.start_time + 2) = true then validate t2
      else Outcome.ok () t2) = .ok () t2 := by
    split
    · exact hval
    · rfl
  refine ⟨t2, ?_, ?_, ?_, ?_, ?_, ?_, ?_⟩
  · rw [hc]
    unfold commit_transaction_writes acquireLocks
    rw [h1]
    simp only [Outcome.andThen, is_inevitable, hact1, if_true, is_inevitable_or_inactive, hbuf1,
      Option.isNone_some, Bool.false_eq_true, if_false, hclock, hvd, tx_redo]
  · subst ht2; exact e1
  · subst ht2; show t1.global_timestamp + 2 = _; rw [e2]
  · subst ht2; exact e9
  · subst ht2; exact e10
  · subst ht2; exact hact1
  · intro item hitem
    subst ht2
    show t1.orecs (get_orec item.addr) = s.d.my_lock_word
    obtain ⟨j, hj, hget⟩ := List.getElem_of_mem hitem
    exact hl1 j item.addr hj (by rw [List.getElem?_map, List.getElem?_eq_getElem hj, hget]; rfl)

theorem commit_transaction_inevitable_reaches_tx_redo (fuel : Nat) (s : State)
    (hact : s.d.transaction_active = true) (hbuf : s.d.setjmp_buf = none)
    (hlog : s.d.redolog ≠ [])
    (hst0 : 0 ≤ s.d.start_time) (hst : isLong s.d.start_time)
    (hlw0 : s.d.my_lock_word < 0) (hlw : isLong s.d.my_lock_word)
    (hodd : s.global_timestamp % 2 = 1)
    (hstart : s.d.start_time + 1 = (s.global_timestamp : Int))
    (hcov : ∀ item ∈ s.d.redolog,
      0 ≤ s.orecs (get_orec item.addr) ∧ s.orecs (get_orec item.addr) ≤ s.d.start_time) :
    ∃ t, commit_transaction (fuel + 1) s = .crash .abortCall t
      ∧ t.mem = s.mem ∧ t.global_timestamp = s.global_timestamp + 1
      ∧ t.d.num_commits = s.d.num_commits
      ∧ ∀ item ∈ s.d.redolog, t.orecs (get_orec item.addr) = s.d.my_lock_word := by
  have hc : commit_transaction (fuel + 1) s = commit_transaction_writes (fuel + 1) s := by
    unfold commit_transaction
    simp [redolog_any_entry_of_ne_nil _ hlog]
  obtain ⟨t1, h1, hf1, hl1⟩ := acquireLocks_loop_free fuel s.d.redolog.length s hst0 hst hlw0 hlw
    (le_refl _) (by
      intro a ha
      obtain ⟨item, hitem, rfl⟩ := List.mem_map.1 ha
      exact Or.inl (hcov item hitem))
  obtain ⟨e1, e2, e3, e4, e5, e6, e7, e8, e9, e10, e11, e12, e13, e14, e16, e15⟩ := hf1
  have hact1 : t1.d.transaction_active = true := e12.trans hact
  have hbuf1 : t1.d.setjmp_buf = none := e5.trans hbuf
  have hodd1 : t1.global_timestamp % 2 = 1 := by rw [e2]; exact hodd
  have hend : ((t1.global_timestamp + 1 : Nat) : Int) = t1.d.start_time + 2 := by
    rw [e2, e6]
    push_cast
    omega
  have hci : ∃ t, commitInevitableTransaction t1 = .crash .abortCall t
      ∧ t.mem = t1.mem ∧ t.global_timestamp = t1.global_timestamp + 1
      ∧ t.d.num_commits = t1.d.num_commits ∧ t.orecs = t1.orecs := by
    unfold commitInevitableTransaction
    simp only [get_global_timestamp, and_1, hodd1, set_global_timestamp, tx_redo]
    simp only [hend]
    simp
  obtain ⟨t, ht, c1, c2, c3, c4⟩ := hci
  refine ⟨t, ?_, c1.trans e1, by rw [c2, e2], c3.trans e9, ?_⟩
  · rw [hc]
    unfold commit_transaction_writes acquireLocks
    rw [h1]
    simp only [Outcome.andThen, is_inevitable, hact1, if_true, is_inevitable_or_inactive, hbuf1,
      Option.isNone_none, ht]
  · intro item hitem
    rw [c4]
    obtain ⟨j, hj, hget⟩ := List.getElem_of_mem hitem
    exact hl1 j item.addr hj (by rw [List.getElem?_map, List.getElem?_eq_getElem hj, hget]; rfl)

/-! ## What a commit with entries in the redo log does -/

/-- C1, the code at the failing input and at every input of the kind: the
first transaction of scenario 1 (`X = 10`, body
`write_word(&X, read_word(&X) + 1)`) reaches `commit_transaction` active, not
inevitable, with the redo log `[(X, 11)]` and the orec of `X` unlocked with a
version equal to `start_time`; the commit ends the process in the `abort()` of
`tx_redo`, with `X` still `10` and `num_commits` still `0`.  No commit with
entries in the redo log returns; and for every active transaction that is not
inevitable, whose redo log has entries, whose covered orecs and read orecs
are unlocked with a version of at most `start_time`, while the clock is even,
the commit ends in that `abort()` with the memory and `num_commits` as before
and with every covered orec holding the lock word. -/
theorem commit_transaction_aborts_process :
    (scenario_before_commit.d.transaction_active = true
      ∧ scenario_before_commit.d.setjmp_buf = some 1
      ∧ scenario_before_commit.d.redolog = [{ addr := scenario_X, val := 11, p := -1 }]
      ∧ scenario_before_commit.orecs (get_orec scenario_X) = 0
      ∧ scenario_before_commit.d.start_time = 0
      ∧ ∃ s1, commit_transaction 1 scenario_before_commit = .crash .abortCall s1
          ∧ s1.mem scenario_X = 10 ∧ s1.d.num_commits = 0)
    ∧ (∀ (fuel : Nat) (s : State) (v : Int) (s1 : State),
        s.d.redolog ≠ [] → commit_transaction fuel s ≠ .ok v s1)
    ∧ (∀ (fuel : Nat) (s : State) (buf : Nat),
        s.d.transaction_active = true → s.d.setjmp_buf = some buf → s.d.redolog ≠ [] →
        0 ≤ s.d.start_time → isLong s.d.start_time →
        s.d.my_lock_word < 0 → isLong s.d.my_lock_word →
        s.global_timestamp % 2 = 0 →
        (∀ item ∈ s.d.redolog,
          0 ≤ s.orecs (get_orec item.addr) ∧ s.orecs (get_orec item.addr) ≤ s.d.start_time) →
        (∀ o ∈ s.d.reads, 0 ≤ s.orecs o ∧ s.orecs o ≤ s.d.start_time) →
        ∃ t, commit_transaction (fuel + 1) s = .crash .abortCall t
          ∧ t.mem = s.mem ∧ t.d.num_commits = s.d.num_commits
          ∧ t.d.num_aborts = s.d.num_aborts
          ∧ ∀ item ∈ s.d.redolog, t.orecs (get_orec item.addr) = s.d.my_lock_word) := by
  refine ⟨⟨rfl, rfl, rfl, rfl, rfl, _, rfl, rfl, rfl⟩, ?_, ?_⟩
  · intro fuel s v s1 hlog
    exact commit_transaction_ne_ok fuel s s1 v hlog
  · intro fuel s buf hact hbuf hlog hst0 hst hlw0 hlw heven hcov hreads
    obtain ⟨t, h1, h2, _, h4, h5, _, h7⟩ :=
      commit_transaction_reaches_tx_redo fuel s buf hact hbuf hlog hst0 hst hlw0 hlw heven hcov
        hreads
    exact ⟨t, h1, h2, h4, h5, h7⟩

/-- C7 as amended: whatever the state and the fuel, `begin_transaction`,
`stm_read_word`, `stm_write_word` and `tx_abort` leave `global_timestamp` as
it is; `stm_try_inevitable` does not lower it, and raises it by exactly 1 when
it makes an active transaction inevitable; `commit_transaction` with entries
in the redo log does not lower it, and the clock stands exactly 2 higher
(transaction not inevitable) or exactly 1 higher (inevitable transaction) when
the commit gets to the write-back of `tx_redo`; `commit_transaction` with an
empty redo log leaves it as it is when the transaction is not inevitable and
lowers it by exactly 1 when the transaction is inevitable.  The write-back is
reached, with the clock 2 higher, by every active transaction that is not
inevitable, whose redo log has entries, whose covered orecs and read orecs are
unlocked with a version of at most `start_time`, while the clock is even; and,
with the clock 1 higher, by every inevitable transaction whose redo log has
entries, whose covered orecs are unlocked with a version of at most
`start_time`, while the clock is `start_time + 1`. -/
theorem global_timestamp_steps (fuel : Nat) (s : State) :
    (∀ buf, (begin_transaction buf s).state.global_timestamp = s.global_timestamp)
    ∧ (∀ addr, (stm_read_word fuel addr s).state.global_timestamp = s.global_timestamp)
    ∧ (∀ addr val, (stm_write_word addr val s).state.global_timestamp = s.global_timestamp)
    ∧ (∀ r, (tx_abort r s : Outcome Unit).state.global_timestamp = s.global_timestamp)
    ∧ (s.global_timestamp ≤ (stm_try_inevitable fuel s).state.global_timestamp
      ∧ (s.d.transaction_active = true → s.d.setjmp_buf ≠ none →
          ∀ s1, stm_try_inevitable fuel s = .ok () s1 →
            s1.global_timestamp = s.global_timestamp + 1))
    ∧ (s.d.redolog ≠ [] →
        s.global_timestamp ≤ (commit_transaction fuel s).state.global_timestamp
        ∧ (s.d.setjmp_buf ≠ none → ∀ s1, commit_transaction fuel s = .crash .abortCall s1 →
            s1.global_timestamp = s.global_timestamp + 2)
        ∧ (s.d.setjmp_buf = none → ∀ s1, commit_transaction fuel s = .crash .abortCall s1 →
            s1.global_timestamp = s.global_timestamp + 1))
    ∧ (s.d.redolog = [] →
        (s.d.setjmp_buf ≠ none →
          (commit_transaction fuel s).state.global_timestamp = s.global_timestamp)
        ∧ (s.d.transaction_active = true → s.d.setjmp_buf = none →
            s.global_timestamp % 2 = 1 →
            (commit_transaction fuel s).state.global_timestamp + 1 = s.global_timestamp))
    ∧ (s.d.transaction_active = true → s.d.setjmp_buf ≠ none → s.d.redolog ≠ [] →
        0 ≤ s.d.start_time → isLong s.d.start_time →
        s.d.my_lock_word < 0 → isLong s.d.my_lock_word →
        s.global_timestamp % 2 = 0 →
        (∀ item ∈ s.d.redolog,
          0 ≤ s.orecs (get_orec item.addr) ∧ s.orecs (get_orec item.addr) ≤ s.d.start_time) →
        (∀ o ∈ s.d.reads, 0 ≤ s.orecs o ∧ s.orecs o ≤ s.d.start_time) →
        ∃ t, commit_transaction (fuel + 1) s = .crash .abortCall t
          ∧ t.global_timestamp = s.global_timestamp + 2)
    ∧ (s.d.transaction_active = true → s.d.setjmp_buf = none → s.d.redolog ≠ [] →
        0 ≤ s.d.start_time → isLong s.d.start_time →
        s.d.my_lock_word < 0 → isLong s.d.my_lock_word →
        s.global_timestamp % 2 = 1 → s.d.start_time + 1 = (s.global_timestamp : Int) →
        (∀ item ∈ s.d.redolog,
          0 ≤ s.orecs (get_orec item.addr) ∧ s.orecs (get_orec item.addr) ≤ s.d.start_time) →
        ∃ t, commit_transaction (fuel + 1) s = .crash .abortCall t
          ∧ t.global_timestamp = s.global_timestamp + 1) := by
  refine ⟨?_, ?_, ?_, ?_, stm_try_inevitable_clock fuel s, ?_, ?_, ?_, ?_⟩
  · intro buf
    unfold begin_transaction
    split <;> rfl
  · intro addr
    exact clockStep_state (stm_read_word_clockStep fuel addr s)
  · intro addr val
    unfold stm_write_word
    split
    · split <;> rfl
    · rfl
  · intro r
    exact clockStep_state (tx_abort_clockStep r s)
  · intro hlog
    have hc : commit_transaction fuel s = commit_transaction_writes fuel s := by
      unfold commit_transaction
      simp [redolog_any_entry_of_ne_nil _ hlog]
    rw [hc]
    rcases commit_transaction_writes_clock fuel s with ⟨h1, h2⟩ | ⟨h1, h2⟩ | ⟨h1, h2⟩
    · exact ⟨by omega, fun _ s1 h => absurd h (h2 s1), fun _ s1 h => absurd h (h2 s1)⟩
    · refine ⟨by omega, fun _ s1 h => ?_, fun hb => absurd hb h1⟩
      rw [h] at h2
      exact h2
    · refine ⟨by omega, fun hb => absurd h1 hb, fun _ s1 h => ?_⟩
      rw [h] at h2
      exact h2
  · intro hlog
    have hc : commit_transaction fuel s = commit_transaction_no_writes s := by
      unfold commit_transaction
      simp [hlog, redolog_any_entry]
    rw [hc]
    exact commit_transaction_no_writes_clock s
  · intro hact hbuf hlog hst0 hst hlw0 hlw heven hcov hreads
    obtain ⟨buf, hb⟩ := Option.ne_none_iff_exists'.1 hbuf
    obtain ⟨t, h1, _, h3, _⟩ :=
      commit_transaction_reaches_tx_redo fuel s buf hact hb hlog hst0 hst hlw0 hlw heven hcov
        hreads
    exact ⟨t, h1, h3⟩
  · intro hact hbuf hlog hst0 hst hlw0 hlw hodd hstart hcov
    obtain ⟨t, h1, _, h3, _⟩ :=
      commit_transaction_inevitable_reaches_tx_redo fuel s hact hbuf hlog hst0 hst hlw0 hlw hodd
        hstart hcov
    exact ⟨t, h1, h3⟩

/-- Witness of C7 as amended: the commit of the transaction of the scenario
gets to `tx_redo` with the clock moved from `2` to `4`. -/
theorem global_timestamp_steps_witness :
    scenario_before_commit.d.transaction_active = true
    ∧ scenario_before_commit.d.setjmp_buf ≠ none
    ∧ scenario_before_commit.d.redolog ≠ []
    ∧ 0 ≤ scenario_before_commit.d.start_time ∧ isLong scenario_before_commit.d.start_time
    ∧ scenario_before_commit.d.my_lock_word < 0 ∧ isLong scenario_before_commit.d.my_lock_word
    ∧ scenario_before_commit.global_timestamp = 2
    ∧ ∃ t, commit_transaction 1 scenario_before_commit = .crash .abortCall t
        ∧ t.global_timestamp = scenario_before_commit.global_timestamp + 2 :=
  ⟨rfl, by decide, by decide, by decide, by decide, by decide, by decide, rfl,
   (global_timestamp_steps 0 scenario_before_commit).2.2.2.2.2.2.2.1 rfl (by decide) (by decide)
     (by decide) (by decide) (by decide) (by decide) (by decide)
     (fun _ _ => (by decide : (0 : Int) ≤ 0 ∧ (0 : Int) ≤ 0))
     (fun _ _ => (by decide : (0 : Int) ≤ 0 ∧ (0 : Int) ≤ 0))⟩

/-! ## Becoming inevitable -/

theorem IS_LOCKED_OR_NEWER_of_le (v t : Int) (h0 : 0 ≤ v) (hle : v ≤ t) (ht : isLong t) :
    IS_LOCKED_OR_NEWER v t = false := by
  have hv : isLong v := by
    unfold isLong at ht ⊢
    constructor <;> omega
  have h := IS_LOCKED_OR_NEWER_true_iff v t hv (le_trans h0 hle) ht
  cases hb : IS_LOCKED_OR_NEWER v t
  · rfl
  · have := h.1 hb
    omega

theorem validate_fast_loop_of_valid (fuel lognum : Nat) (l : OrecList) (s : State)
    (hst : isLong s.d.start_time)
    (hreads : ∀ o ∈ l, 0 ≤ s.orecs o ∧ s.orecs o ≤ s.d.start_time) :
    validate_fast_loop (fuel + 1) lognum l s = .ok () s := by
  induction l with
  | nil => rfl
  | cons o rest ih =>
    have ho := hreads o (List.mem_cons_self _ _)
    rw [validate_fast_loop, validate_fast_item]
    simp only [IS_LOCKED_OR_NEWER_of_le _ _ ho.1 ho.2 hst, Bool.false_eq_true, if_false]
    exact ih (fun x hx => hreads x (List.mem_cons_of_mem _ hx))

theorem validate_fast_of_valid (fuel lognum buf : Nat) (s : State)
    (hact : s.d.transaction_active = true) (hbuf : s.d.setjmp_buf = some buf)
    (hst : isLong s.d.start_time)
    (hreads : ∀ o ∈ s.d.reads, 0 ≤ s.orecs o ∧ s.orecs o ≤ s.d.start_time) :
    validate_fast (fuel + 1) lognum s = .ok () s := by
  unfold validate_fast
  simp only [is_inevitable, hact, if_true, is_inevitable_or_inactive, hbuf, Option.isNone_some]
  exact validate_fast_loop_of_valid fuel lognum _ s hst hreads

theorem and_not_1_of_even (c : Nat) (h : c % 2 = 0) : and_not_1 c = c := by
  unfold and_not_1
  omega

/-- C11: an active transaction that is not inevitable, of a registered thread
that runs alone (the mutex is free), with the clock at an even value `c` and
every orec of the read set unlocked with a version of at most `start_time`:
`stm_try_inevitable` returns with `global_timestamp = c + 1`,
`start_time = c` and `setjmp_buf = NULL`, so that `stm_debug_get_state`
returns 2, and with the read set, the redo log, the memory and the orec table
as before.  On a transaction that is inactive or inevitable already it returns
at once and changes nothing. -/
theorem stm_try_inevitable_alone (fuel : Nat) (s : State) (buf c : Nat)
    (hact : s.d.transaction_active = true) (hbuf : s.d.setjmp_buf = some buf)
    (hdesc : s.thread_descriptor.isSome = true)
    (hclock : s.global_timestamp = c) (heven : c % 2 = 0)
    (hmutex : s.mutex_inevitable = .free)
    (hst0 : 0 ≤ s.d.start_time) (hst : isLong s.d.start_time)
    (hreads : ∀ o ∈ s.d.reads, 0 ≤ s.orecs o ∧ s.orecs o ≤ s.d.start_time) :
    (∃ t, stm_try_inevitable (fuel + 1) s = .ok () t
      ∧ t.global_timestamp = c + 1 ∧ t.d.start_time = (c : Int) ∧ t.d.setjmp_buf = none
      ∧ t.d.transaction_active = true
      ∧ stm_debug_get_state t = .ok 2 t
      ∧ t.d.reads = s.d.reads ∧ t.d.redolog = s.d.redolog
      ∧ t.mem = s.mem ∧ t.orecs = s.orecs)
    ∧ (∀ (n : Nat) (u : State),
        u.d.transaction_active = false ∨ u.d.setjmp_buf = none →
        stm_try_inevitable n u = .ok () u) := by
  constructor
  · subst hclock
    have hdn : s.thread_descriptor.isNone = false := by
      cases h : s.thread_descriptor with
      | none => rw [h] at hdesc; simp at hdesc
      | some x => rfl
    unfold stm_try_inevitable
    simp only [hact, Bool.not_true, Bool.false_eq_true, if_false, is_inevitable_or_inactive, hbuf,
      Option.isNone_some]
    rw [stm_try_inevitable_loop]
    simp only [get_global_timestamp, and_not_1_of_even _ heven]
    by_cases hne : (toUnsigned s.d.start_time != s.global_timestamp) = true
    · have hv := validate_fast_of_valid fuel 2 buf
        { s with d := { s.d with last_known_global_timestamp := s.global_timestamp } }
        hact hbuf hst hreads
      simp only [hne, if_true, hv]
      simp only [mutex_lock, hmutex, and_1, heven, bne_self_eq_false,
        Bool.false_eq_true, if_false, change_global_timestamp, bool_cas_global_timestamp,
        if_true]
      refine ⟨_, rfl, rfl, rfl, rfl, hact, ?_, rfl, rfl, rfl, rfl⟩
      simp [stm_debug_get_state, hdn, hact, is_inevitable, is_inevitable_or_inactive]
    · have heq : toUnsigned s.d.start_time = s.global_timestamp := by
        simpa using hne
      have hst1 : s.d.start_time = (s.global_timestamp : Int) := by
        rw [← heq]
        exact (toUnsigned_of_nonneg _ hst0 hst).symm
      simp only [hne, Bool.false_eq_true, if_false, mutex_lock, hmutex, and_1, heven,
        bne_self_eq_false, change_global_timestamp, bool_cas_global_timestamp, if_true]
      refine ⟨_, rfl, rfl, hst1, rfl, hact, ?_, rfl, rfl, rfl, rfl⟩
      simp [stm_debug_get_state, hdn, hact, is_inevitable, is_inevitable_or_inactive]
  · intro n u hu
    unfold stm_try_inevitable
    rcases hu with h | h
    · simp [h]
    · simp [h, is_inevitable_or_inactive]

/-- Witness of C11: the thread of the scenario begins a transaction and makes
it inevitable while the clock shows `2`. -/
theorem stm_try_inevitable_alone_witness :
    (begin_transaction 1 scenario_init).state.d.transaction_active = true
    ∧ (begin_transaction 1 scenario_init).state.d.setjmp_buf = some 1
    ∧ (begin_transaction 1 scenario_init).state.global_timestamp = 2
    ∧ (begin_transaction 1 scenario_init).state.mutex_inevitable = .free
    ∧ ∃ t, stm_try_inevitable 1 (begin_transaction 1 scenario_init).state = .ok () t
      ∧ t.global_timestamp = 2 + 1 ∧ t.d.start_time = ((2 : Nat) : Int) ∧ t.d.setjmp_buf = none
      ∧ t.d.transaction_active = true
      ∧ stm_debug_get_state t = .ok 2 t
      ∧ t.d.reads = (begin_transaction 1 scenario_init).state.d.reads
      ∧ t.d.redolog = (begin_transaction 1 scenario_init).state.d.redolog
      ∧ t.mem = (begin_transaction 1 scenario_init).state.mem
      ∧ t.orecs = (begin_transaction 1 scenario_init).state.orecs :=
  ⟨rfl, rfl, rfl, rfl,
   (stm_try_inevitable_alone 0 (begin_transaction 1 scenario_init).state 1 2 rfl rfl rfl rfl
      (by decide) rfl (by decide) (by decide) (fun _ h => absurd h (List.not_mem_nil _))).1⟩

/-! ## The spin loop -/

/-- C12, counterexample: the spin loop counter of the thread of the scenario
is `4294966295`, for which `(c & 0x00ff0000) >> 16` is `255`; `tx_spinloop`
calls `spinloop()` 256 times. -/
theorem tx_spinloop_count_scenario :
    scenario_init.d.spinloop_counter = 4294966295
    ∧ (scenario_init.d.spinloop_counter &&& 0x00ff0000) >>> 16 = 255
    ∧ (tx_spinloop 0 scenario_init).pauses = scenario_init.pauses + 256 :=
  ⟨rfl, by decide, by rw [tx_spinloop_pauses]; decide⟩

/-- C12 as amended: `tx_spinloop(num)`, for a descriptor with
`spinloop_counter = c` and a reason below `SPINLOOP_REASONS`, calls
`spinloop()` exactly `((c & 0x00ff0000) >> 16) + 1` times, sets
`spinloop_counter` to `c * 9` modulo `2^32`, and adds one to
`num_spinloops[num]` modulo `2^32` (the counter is an `unsigned`: exactly one
unless it holds `2^32 - 1`, from where it goes to `0`) and to no other
counter. -/
theorem tx_spinloop_effect (num : Nat) (s : State) (_hnum : num < SPINLOOP_REASONS) :
    (tx_spinloop num s).pauses
        = s.pauses + ((s.d.spinloop_counter &&& 0x00ff0000) >>> 16) + 1
    ∧ (tx_spinloop num s).d.spinloop_counter = (s.d.spinloop_counter * 9) % 2 ^ 32
    ∧ (tx_spinloop num s).d.num_spinloops num = (s.d.num_spinloops num + 1) % 2 ^ 32
    ∧ (s.d.num_spinloops num + 1 < 2 ^ 32 →
        (tx_spinloop num s).d.num_spinloops num = s.d.num_spinloops num + 1)
    ∧ (∀ k, k ≠ num → (tx_spinloop num s).d.num_spinloops k = s.d.num_spinloops k)
    ∧ (tx_spinloop num s).d.num_aborts = s.d.num_aborts
    ∧ (tx_spinloop num s).d.num_commits = s.d.num_commits := by
  refine ⟨?_, rfl, ?_, ?_, ?_, rfl, rfl⟩
  · rw [tx_spinloop_pauses, Nat.shiftRight_eq_div_pow]
  · simp [tx_spinloop, store]
  · intro hlt
    simp only [tx_spinloop, store, if_true]
    exact Nat.mod_eq_of_lt hlt
  · intro k hk
    simp [tx_spinloop, store, hk]

/-- Witness of C12 as amended: the thread of the scenario spins for the
reason 0. -/
theorem tx_spinloop_effect_witness :
    0 < SPINLOOP_REASONS
    ∧ (tx_spinloop 0 scenario_init).pauses
        = scenario_init.pauses + ((scenario_init.d.spinloop_counter &&& 0x00ff0000) >>> 16) + 1
    ∧ (tx_spinloop 0 scenario_init).d.spinloop_counter
        = (scenario_init.d.spinloop_counter * 9) % 2 ^ 32 :=
  ⟨by decide, (tx_spinloop_effect 0 scenario_init (by decide)).1,
   (tx_spinloop_effect 0 scenario_init (by decide)).2.1⟩

/-! ## Lock words -/

theorem int_not_eq (x : Int) : ~~~x = -x - 1 := by
  cases x with
  | ofNat n =>
    show Int.not (Int.ofNat n) = _
    simp only [Int.not, Int.negSucc_eq, Int.ofNat_eq_coe]
    omega
  | negSucc n =>
    show Int.not (Int.negSucc n) = _
    simp only [Int.not, Int.negSucc_eq, Int.ofNat_eq_coe]
    omega

theorem toSigned_eq (p : Nat) (hp : p < 2 ^ 64) :
    toSigned p = if p < 2 ^ 63 then (p : Int) else (p : Int) - 18446744073709551616 := by
  unfold toSigned
  rw [Nat.mod_eq_of_lt hp]
  norm_num

theorem descriptor_init_lock_word (p : Nat) (s : State)
    (hs : s.thread_descriptor = none) (hp0 : p ≠ 0) (hp : p < 2 ^ 64) :
    ∃ t, descriptor_init p s = .ok p t
      ∧ t.thread_descriptor = some p
      ∧ t.d.my_lock_word = (if toSigned p < 0 then toSigned p else ~~~(toSigned p))
      ∧ t.d.my_lock_word
          = (if p < 2 ^ 63 then -(p : Int) - 1 else (p : Int) - 18446744073709551616)
      ∧ t.d.my_lock_word < 0
      ∧ isLong t.d.my_lock_word
      ∧ IS_LOCKED t.d.my_lock_word = true
      ∧ stm_thread_id t = t.d.my_lock_word
      ∧ t.mem = s.mem ∧ t.orecs = s.orecs ∧ t.global_timestamp = s.global_timestamp := by
  have hts := toSigned_eq p hp
  unfold descriptor_init
  simp only [hs, Option.isSome_none, Bool.false_eq_true, if_false, hp0]
  by_cases hlt : p < 2 ^ 63
  · rw [if_pos hlt] at hts
    have hneg : ¬ (toSigned p < 0) := by rw [hts]; omega
    have hl : IS_LOCKED (toSigned p) = false := by simp [IS_LOCKED, hneg]
    have hnot : ~~~(toSigned p) = -(p : Int) - 1 := by rw [int_not_eq, hts]
    have hl2 : IS_LOCKED (~~~(toSigned p)) = true := by
      rw [hnot]
      simp only [IS_LOCKED, decide_eq_true_eq]
      omega
    simp only [null_tx, hl, Bool.not_false, if_true, hl2]
    refine ⟨_, rfl, rfl, ?_, ?_, ?_, ?_, ?_, rfl, rfl, rfl, rfl⟩
    · simp only [hneg, if_false]
    · simp only [hlt, if_true, hnot]
    · show ~~~(toSigned p) < 0
      rw [hnot]; omega
    · show isLong (~~~(toSigned p))
      rw [hnot]
      unfold isLong
      norm_num at hlt ⊢
      constructor <;> omega
    · exact hl2
  · rw [if_neg hlt] at hts
    have hneg : toSigned p < 0 := by
      rw [hts]
      norm_num at hp
      omega
    have hl : IS_LOCKED (toSigned p) = true := by simp [IS_LOCKED, hneg]
    simp only [null_tx, hl, Bool.not_true, Bool.false_eq_true, if_false, if_true]
    refine ⟨_, rfl, rfl, ?_, ?_, ?_, ?_, ?_, rfl, rfl, rfl, rfl⟩
    · simp only [hneg, if_true]
    · simp only [hlt, if_false, hts]
    · exact hneg
    · show isLong (toSigned p)
      rw [hts]
      unfold isLong
      norm_num at hlt hp ⊢
      constructor <;> omega
    · exact hl


theorem descriptor_init_scenario :
    descriptor_init 1000 scenario_unregistered = .ok 1000 scenario_init := rfl

/-- C13: for every pointer `p` that `malloc` returns for the descriptor (not
`NULL`), `descriptor_init` on a thread without descriptor sets `my_lock_word`
to a negative `long`: the address as a `long` if that is negative, its
complement otherwise; `IS_LOCKED(my_lock_word)` holds and `stm_thread_id`
returns this `my_lock_word`. -/
theorem descriptor_init_my_lock_word (p : Nat) (s : State)
    (hs : s.thread_descriptor = none) (hp0 : p ≠ 0) (hp : p < 2 ^ 64) :
    ∃ t, descriptor_init p s = .ok p t
      ∧ t.thread_descriptor = some p
      ∧ t.d.my_lock_word = (if toSigned p < 0 then toSigned p else ~~~(toSigned p))
      ∧ t.d.my_lock_word < 0
      ∧ isLong t.d.my_lock_word
      ∧ IS_LOCKED t.d.my_lock_word = true
      ∧ stm_thread_id t = t.d.my_lock_word := by
  obtain ⟨t, h1, h2, h3, _, h5, h6, h7, h8, _⟩ := descriptor_init_lock_word p s hs hp0 hp
  exact ⟨t, h1, h2, h3, h5, h6, h7, h8⟩

/-- Witness of C13: the thread of the scenario gets its descriptor at the
address `1000`; its lock word is `-1001`. -/
theorem descriptor_init_my_lock_word_witness :
    scenario_unregistered.thread_descriptor = none
    ∧ ∃ t, descriptor_init 1000 scenario_unregistered = .ok 1000 t
      ∧ t.thread_descriptor = some 1000
      ∧ t.d.my_lock_word = (if toSigned 1000 < 0 then toSigned 1000 else ~~~(toSigned 1000))
      ∧ t.d.my_lock_word < 0
      ∧ isLong t.d.my_lock_word
      ∧ IS_LOCKED t.d.my_lock_word = true
      ∧ stm_thread_id t = t.d.my_lock_word :=
  ⟨rfl, descriptor_init_my_lock_word 1000 scenario_unregistered rfl (by decide) (by decide)⟩

/-- C14: two threads whose descriptors `malloc` has put at two distinct
addresses (not `NULL`, word-aligned as every address that `malloc` returns
is) get distinct lock words from `descriptor_init`, both negative. -/
theorem descriptor_init_unique (p q : Nat) (s u : State)
    (hs : s.thread_descriptor = none) (hu : u.thread_descriptor = none)
    (hp0 : p ≠ 0) (hp : p < 2 ^ 64) (hpa : p % sizeof_void_p = 0)
    (hq0 : q ≠ 0) (hq : q < 2 ^ 64) (hqa : q % sizeof_void_p = 0)
    (hpq : p ≠ q) :
    ∃ t1 t2, descriptor_init p s = .ok p t1 ∧ descriptor_init q u = .ok q t2
      ∧ t1.d.my_lock_word < 0 ∧ t2.d.my_lock_word < 0
      ∧ stm_thread_id t1 ≠ stm_thread_id t2 := by
  obtain ⟨t1, a1, _, _, a4, a5, _, _, _⟩ := descriptor_init_lock_word p s hs hp0 hp
  obtain ⟨t2, b1, _, _, b4, b5, _, _, _⟩ := descriptor_init_lock_word q u hu hq0 hq
  refine ⟨t1, t2, a1, b1, a5, b5, ?_⟩
  unfold stm_thread_id
  rw [a4, b4]
  unfold sizeof_void_p at hpa hqa
  split <;> split <;> omega

/-- Witness of C14: descriptors at the addresses `1000` and `2000`. -/
theorem descriptor_init_unique_witness :
    ∃ t1 t2, descriptor_init 1000 scenario_unregistered = .ok 1000 t1
      ∧ descriptor_init 2000 scenario_unregistered = .ok 2000 t2
      ∧ t1.d.my_lock_word < 0 ∧ t2.d.my_lock_word < 0
      ∧ stm_thread_id t1 ≠ stm_thread_id t2 :=
  descriptor_init_unique 1000 2000 scenario_unregistered scenario_unregistered rfl rfl
    (by decide) (by decide) (by decide) (by decide) (by decide) (by decide) (by decide)


/-- The alignment matters: the address `4096` and the odd number that is its
complement as a 64-bit word would get the same lock word. -/
theorem descriptor_init_complement :
    (18446744073709547519 : Nat) % sizeof_void_p ≠ 0
    ∧ ∃ t1 t2, descriptor_init 4096 scenario_unregistered = .ok 4096 t1
      ∧ descriptor_init 18446744073709547519 scenario_unregistered
          = .ok 18446744073709547519 t2
      ∧ t1.d.my_lock_word = -4097 ∧ t2.d.my_lock_word = -4097 :=
  ⟨by decide, _, _, rfl, rfl, by decide, by decide⟩

/-! ## Begin of a transaction -/

/-- C16, counterexample: the thread of the scenario, whose descriptor is fresh
(`last_known_global_timestamp = 0`), begins a transaction while the clock
shows `2`: `start_time` is `0`. -/
theorem begin_transaction_fresh :
    scenario_init.d.transaction_active = false
    ∧ scenario_init.global_timestamp = 2
    ∧ descriptor_init 1000 scenario_unregistered = .ok 1000 scenario_init
    ∧ ∃ t, begin_transaction 1 scenario_init = .ok () t
        ∧ t.d.start_time = 0
        ∧ t.d.start_time ≠ ((and_not_1 scenario_init.global_timestamp : Nat) : Int) :=
  ⟨rfl, rfl, rfl, _, rfl, rfl, by decide⟩

/-- C16 as amended: `begin_transaction` on an inactive descriptor makes the
transaction active and not inevitable (`setjmp_buf` is the buffer given), and
sets `start_time` to `last_known_global_timestamp & ~1`, an even number: the
value of the clock that the thread has read or written last, with bit 0
cleared (`0` for a descriptor that has never read the clock).  Nothing else
changes. -/
theorem begin_transaction_effect (buf : Nat) (s : State)
    (hact : s.d.transaction_active = false) :
    ∃ t, begin_transaction buf s = .ok () t
      ∧ t.d.transaction_active = true ∧ t.d.setjmp_buf = some buf
      ∧ is_inevitable t = .ok false t
      ∧ t.d.start_time = ((and_not_1 s.d.last_known_global_timestamp : Nat) : Int)
      ∧ t.d.start_time % 2 = 0
      ∧ (s.d.last_known_global_timestamp = s.global_timestamp →
          t.d.start_time = ((and_not_1 s.global_timestamp : Nat) : Int))
      ∧ t = { s with d := { s.d with
          transaction_active := true, setjmp_buf := some buf,
          start_time := ((and_not_1 s.d.last_known_global_timestamp : Nat) : Int) } } := by
  unfold begin_transaction
  simp only [hact, Bool.not_false, if_true]
  refine ⟨_, rfl, rfl, rfl, ?_, rfl, ?_, ?_, rfl⟩
  · simp [is_inevitable, is_inevitable_or_inactive]
  · show ((and_not_1 s.d.last_known_global_timestamp : Nat) : Int) % 2 = 0
    unfold and_not_1
    omega
  · intro h
    show ((and_not_1 s.d.last_known_global_timestamp : Nat) : Int) = _
    rw [h]

/-- Witness of C16 as amended: the thread of the scenario begins its first
transaction. -/
theorem begin_transaction_effect_witness :
    scenario_init.d.transaction_active = false
    ∧ ∃ t, begin_transaction 1 scenario_init = .ok () t
      ∧ t.d.transaction_active = true ∧ t.d.setjmp_buf = some 1
      ∧ t.d.start_time = ((and_not_1 scenario_init.d.last_known_global_timestamp : Nat) : Int) := by
  refine ⟨rfl, ?_⟩
  obtain ⟨t, h1, h2, h3, _, h5, _⟩ := begin_transaction_effect 1 scenario_init rfl
  exact ⟨t, h1, h2, h3, h5⟩

/-! ## `stm_perform_transaction` -/

theorem commit_transaction_read_only (fuel buf : Nat) (s : State)
    (hact : s.d.transaction_active = true) (hbuf : s.d.setjmp_buf = some buf)
    (hlog : s.d.redolog = []) :
    commit_transaction fuel s = .ok s.d.start_time
      { s with d := { s.d with
          num_commits := (s.d.num_commits + 1) % 2 ^ 32,
          reads := [],
          redolog := [],
          transaction_active := false,
          setjmp_buf := none } } := by
  unfold commit_transaction
  simp only [hlog, redolog_any_entry, List.isEmpty_nil, Bool.not_true, Bool.not_false, if_true]
  unfold commit_transaction_no_writes
  simp [is_inevitable, hact, is_inevitable_or_inactive, hbuf, Outcome.andThen, common_cleanup,
    redolog_clear, hlog]

theorem begin_transaction_inactive (buf : Nat) (s : State)
    (hact : s.d.transaction_active = false) :
    begin_transaction buf s = .ok ()
      { s with d := { s.d with
          transaction_active := true,
          setjmp_buf := some buf,
          start_time := ((and_not_1 s.d.last_known_global_timestamp : Nat) : Int) } } := by
  simp [begin_transaction, hact]

theorem stm_perform_transaction_abort_below (arg jmpbuf fuel : Nat) (m : Nat) :
    ∀ (c extra : Nat) (s : State), s.d.transaction_active = false → s.d.redolog = [] →
    ∃ t, stm_perform_transaction_setjmp (body_abort_below (c + m)) arg jmpbuf fuel
          (m + 1 + extra) (c : Int) s = .ok (c + m) t
      ∧ t.d.num_aborts 7 % 2 ^ 32 = (s.d.num_aborts 7 + m) % 2 ^ 32
      ∧ (∀ r, r ≠ 7 → t.d.num_aborts r = s.d.num_aborts r)
      ∧ t.d.num_commits = (s.d.num_commits + 1) % 2 ^ 32
      ∧ t.mem = s.mem ∧ t.d.transaction_active = false := by
  induction m with
  | zero =>
    intro c extra s hact hlog
    have hb := begin_transaction_inactive jmpbuf s hact
    rw [show 0 + 1 + extra = extra + 1 by omega, stm_perform_transaction_setjmp]
    simp only [hb, Outcome.andThen, body_abort_below, Nat.add_zero, lt_irrefl, if_false,
      Int.toNat_ofNat]
    have hc := commit_transaction_read_only fuel jmpbuf (begin_transaction jmpbuf s).state
      (by rw [hb]; rfl) (by rw [hb]; rfl) (by rw [hb]; exact hlog)
    rw [hb] at hc
    simp only [Outcome.state] at hc
    simp only [hc]
    exact ⟨_, rfl, rfl, fun _ _ => rfl, rfl, rfl, rfl⟩
  | succ n ih =>
    intro c extra s hact hlog
    have hb := begin_transaction_inactive jmpbuf s hact
    have hlt : (c : Int) < ((c + (n + 1) : Nat) : Int) := by push_cast; omega
    rw [show n + 1 + 1 + extra = (n + 1 + extra) + 1 by omega, stm_perform_transaction_setjmp]
    simp only [hb, Outcome.andThen, body_abort_below, hlt, if_true, stm_abort_and_retry]
    have ha := tx_abort_eq (α := Unit) 7 jmpbuf (begin_transaction jmpbuf s).state
      (by rw [hb]; rfl) (by rw [hb]; rfl)
    rw [hb] at ha
    simp only [Outcome.state] at ha
    simp only [ha, if_true]
    obtain ⟨t, h1, h2, h3, h4, h5, h6⟩ := ih (c + 1) extra
      (tx_spinloop 0
        { s with
          orecs := s.d.redolog.foldl revert_item s.orecs,
          d := { s.d with
            transaction_active := false,
            setjmp_buf := none,
            start_time := ((and_not_1 s.d.last_known_global_timestamp : Nat) : Int),
            num_aborts := store s.d.num_aborts 7 ((s.d.num_aborts 7 + 1) % 2 ^ 32),
            reads := [],
            redolog := [] } }) rfl rfl
    have hk : c + 1 + n = c + (n + 1) := by omega
    rw [hk] at h1
    refine ⟨t, ?_, ?_, ?_, ?_, ?_, h6⟩
    · push_cast at h1 ⊢
      exact h1
    · rw [h2]
      simp only [tx_spinloop, store, if_true]
      omega
    · intro r hr
      rw [h3 r hr]
      simp [tx_spinloop, store, hr]
    · rw [h4]
      rfl
    · rw [h5]
      rfl


theorem redolog_insert_ne_nil (l : RedoLog) (a : Nat) (v : Int) : redolog_insert l a v ≠ [] := by
  cases l with
  | nil => simp [redolog_insert]
  | cons item rest =>
    unfold redolog_insert
    split <;> simp

theorem stm_write_word_ok_redolog (a : Nat) (v : Int) (s t : State)
    (hact : s.d.transaction_active = true) (h : stm_write_word a v s = .ok () t) :
    t.d.redolog ≠ [] ∧ t.d.transaction_active = true := by
  unfold stm_write_word at h
  split at h
  · simp only [hact, Bool.not_true, Bool.false_eq_true, if_false] at h
    injection h with _ h
    subst h
    exact ⟨redolog_insert_ne_nil _ _ _, rfl⟩
  · simp at h

theorem tx_abort_ne_ok {α : Type} (r : Nat) (s t : State) (v : α) :
    (tx_abort r s : Outcome α) ≠ .ok v t := by
  unfold tx_abort is_inevitable
  by_cases hact : s.d.transaction_active = true
  · simp only [hact, if_true]
    cases hin : is_inevitable_or_inactive s.d
    · simp only [tx_restart, tx_cleanup, common_cleanup, releaseAndRevertLocks]
      simp only [hact, if_true]
      cases s.d.setjmp_buf <;> simp
    · simp
  · simp [hact]

theorem stm_perform_transaction_setjmp_ne_ok (callback : Nat → Int → State → Outcome Nat)
    (arg jmpbuf fuel : Nat)
    (hcb : ∀ (c : Int) (s1 : State) (r : Nat) (s2 : State),
      s1.d.transaction_active = true → callback arg c s1 = .ok r s2 → s2.d.redolog ≠ [])
    (restarts : Nat) :
    ∀ (c : Int) (s : State) (v : Nat) (t : State),
      stm_perform_transaction_setjmp callback arg jmpbuf fuel restarts c s ≠ .ok v t := by
  induction restarts with
  | zero =>
    intro c s v t
    simp [stm_perform_transaction_setjmp]
  | succ n ih =>
    intro c s v t
    rw [stm_perform_transaction_setjmp]
    simp only []
    generalize hatt : ((begin_transaction jmpbuf s).andThen fun _ s1 =>
        (callback arg c s1).andThen fun result s2 =>
          (commit_transaction fuel s2).andThen fun _ s3 => Outcome.ok result s3) = attempt
    cases attempt with
    | ok v1 t1 =>
      exfalso
      obtain ⟨_, s1, hb, h1⟩ := andThen_eq_ok _ _ _ _ hatt
      obtain ⟨r, s2, hc, h2⟩ := andThen_eq_ok _ _ _ _ h1
      obtain ⟨_, s3, hcm, _⟩ := andThen_eq_ok _ _ _ _ h2
      have hact1 : s1.d.transaction_active = true := by
        unfold begin_transaction at hb
        split at hb
        · injection hb with _ hb
          subst hb
          rfl
        · simp at hb
      exact commit_transaction_ne_ok fuel s2 s3 _ (hcb c s1 r s2 hact1 hc) hcm
    | restart env t1 =>
      simp only []
      split
      · exact ih _ _ _ _
      · simp
    | crash w t1 => simp
    | waiting t1 => simp

theorem scenario_6_body_writes (arg : Nat) (c : Int) (s1 : State) (r : Nat) (s2 : State)
    (hact : s1.d.transaction_active = true) (h : scenario_6_body arg c s1 = .ok r s2) :
    s2.d.redolog ≠ [] := by
  unfold scenario_6_body at h
  split at h
  · obtain ⟨_, s3, h3, _⟩ := andThen_eq_ok _ _ _ _ h
    exact absurd h3 (tx_abort_ne_ok 7 s1 s3 _)
  · obtain ⟨_, s3, h3, h4⟩ := andThen_eq_ok _ _ _ _ h
    injection h4 with _ h4
    subst h4
    exact (stm_write_word_ok_redolog _ _ _ _ hact h3).1

theorem scenario_P1_body_writes (fuel arg : Nat) (c : Int) (s1 : State) (r : Nat) (s2 : State)
    (hact : s1.d.transaction_active = true) (h : scenario_P1_body fuel arg c s1 = .ok r s2) :
    s2.d.redolog ≠ [] := by
  unfold scenario_P1_body at h
  obtain ⟨a, t1, h1, h⟩ := andThen_eq_ok _ _ _ _ h
  obtain ⟨b, t2, h2, h⟩ := andThen_eq_ok _ _ _ _ h
  obtain ⟨_, t3, h3, h⟩ := andThen_eq_ok _ _ _ _ h
  obtain ⟨_, t4, h4, h⟩ := andThen_eq_ok _ _ _ _ h
  injection h with _ h
  subst h
  have c1 := stm_read_word_clockStep fuel scenario_X s1
  rw [h1] at c1
  have c2 := stm_read_word_clockStep fuel scenario_B t1
  rw [h2] at c2
  simp only [Outcome.clockStep] at c1 c2
  have hact2 : t2.d.transaction_active = true := by rw [c2.2.2, c1.2.2, hact]
  have w3 := stm_write_word_ok_redolog _ _ _ _ hact2 h3
  exact (stm_write_word_ok_redolog _ _ _ _ w3.2 h4).1


/-- C15, the code on the bodies of the claim.  A body that calls
`stm_abort_and_retry` while its retry count is below `k` and returns its retry
count after that: `stm_perform_transaction` returns `k`, the result of the
attempt that committed, which was called with the retry count `k` after `k`
aborts of reason 7, and one commit is counted (the counters are `unsigned`:
they count modulo `2^32`).  The body of scenario 6 (abort
with the retry count 0, otherwise write `X = 7`): the second attempt ends the
process in the `abort()` of `tx_redo`, with `X` still `10`, no commit and one
abort of reason 7 counted; whatever the state and the fuel, the call does not
return. -/
theorem stm_perform_transaction_retry :
    (∀ (k arg jmpbuf fuel extra : Nat) (s : State),
      s.thread_descriptor.isSome = true → s.d.transaction_active = false →
      s.d.redolog = [] →
      ∃ t, stm_perform_transaction (body_abort_below k) arg jmpbuf fuel (k + 1 + extra) s
            = .ok k t
        ∧ t.d.num_aborts 7 % 2 ^ 32 = (s.d.num_aborts 7 + k) % 2 ^ 32
        ∧ (∀ r, r ≠ 7 → t.d.num_aborts r = s.d.num_aborts r)
        ∧ t.d.num_commits = (s.d.num_commits + 1) % 2 ^ 32)
    ∧ (∃ t, stm_perform_transaction scenario_6_body 0 1 1 2 scenario_init = .crash .abortCall t
        ∧ t.mem scenario_X = 10 ∧ t.d.num_commits = 0 ∧ t.d.num_aborts 7 = 1)
    ∧ (∀ (arg jmpbuf fuel restarts : Nat) (s : State) (v : Nat) (t : State),
        stm_perform_transaction scenario_6_body arg jmpbuf fuel restarts s ≠ .ok v t) := by
  refine ⟨?_, ⟨_, rfl, rfl, rfl, rfl⟩, ?_⟩
  · intro k arg jmpbuf fuel extra s hdesc hact hlog
    unfold stm_perform_transaction
    simp only [hdesc, if_true]
    obtain ⟨t, h1, h2, h3, h4, _⟩ :=
      stm_perform_transaction_abort_below arg jmpbuf fuel k 0 extra s hact hlog
    simp only [Nat.zero_add, Nat.cast_zero] at h1
    exact ⟨t, h1, h2, h3, h4⟩
  · intro arg jmpbuf fuel restarts s v t
    unfold stm_perform_transaction
    split
    · exact stm_perform_transaction_setjmp_ne_ok _ arg jmpbuf fuel
        (scenario_6_body_writes arg) restarts 0 s v t
    · simp

/-- C17, the code for one thread and one transaction: the thread of the
scenario runs the body of P1 (read `A` and `B`, write `A + 1` and `B - 1`)
once; the commit ends the process in the `abort()` of `tx_redo` and `A` and
`B` hold what they held.  Whatever the state and the fuel, the call does not
return. -/
theorem stm_perform_transaction_P1 :
    (∃ t, stm_perform_transaction (scenario_P1_body 1) 0 1 1 1 scenario_init
          = .crash .abortCall t
        ∧ t.mem scenario_X = scenario_init.mem scenario_X
        ∧ t.mem scenario_B = scenario_init.mem scenario_B
        ∧ t.d.num_commits = 0)
    ∧ (∀ (n arg jmpbuf fuel restarts : Nat) (s : State) (v : Nat) (t : State),
        stm_perform_transaction (scenario_P1_body n) arg jmpbuf fuel restarts s ≠ .ok v t) := by
  refine ⟨⟨_, rfl, rfl, rfl, rfl⟩, ?_⟩
  intro n arg jmpbuf fuel restarts s v t
  unfold stm_perform_transaction
  split
  · exact stm_perform_transaction_setjmp_ne_ok _ arg jmpbuf fuel
      (scenario_P1_body_writes n arg) restarts 0 s v t
  · simp

/-! ## Locks are given back -/

theorem getElem?_append_cons_length (pre post : RedoLog) (item : wlog_t) :
    (pre ++ item :: post)[pre.length]? = some item := by
  induction pre with
  | nil => simp
  | cons x rest ih => simpa using ih

theorem set_append_cons_length (pre post : RedoLog) (item x : wlog_t) :
    (pre ++ item :: post).set pre.length x = pre ++ x :: post := by
  induction pre with
  | nil => simp
  | cons y rest ih => simp

theorem foldl_revert_item_skip (pre post : RedoLog) (f : Nat → Int)
    (h : ∀ item ∈ pre, item.p = -1) :
    (pre ++ post).foldl revert_item f = post.foldl revert_item f := by
  induction pre with
  | nil => rfl
  | cons x rest ih =>
    have hx : revert_item f x = f := by
      simp [revert_item, h x (List.mem_cons_self _ _)]
    rw [List.cons_append, List.foldl_cons, hx]
    exact ih (fun item hi => h item (List.mem_cons_of_mem _ hi))

theorem store_self {β : Type} (f : Nat → β) (k : Nat) : store f k (f k) = f := by
  funext j
  unfold store
  split
  · rename_i h; rw [h]
  · rfl

theorem store_store {β : Type} (f : Nat → β) (k : Nat) (v w : β) :
    store (store f k v) k w = store f k w := by
  funext j
  unfold store
  split <;> rfl

theorem IS_LOCKED_OR_NEWER_neg_one (t : Int) (ht0 : 0 ≤ t) (ht : isLong t) :
    IS_LOCKED_OR_NEWER (-1) t = true :=
  (IS_LOCKED_OR_NEWER_true_iff (-1) t (by decide) ht0 ht).2 (Or.inl (by decide))

/-- What the visit of an entry does in a transaction that is not inevitable:
it takes the lock, or finds the lock taken by the thread, or aborts. -/
theorem acquireLocks_item_cases (fuel i buf : Nat) (s : State) (item : wlog_t)
    (hact : s.d.transaction_active = true) (hbuf : s.d.setjmp_buf = some buf)
    (hst0 : 0 ≤ s.d.start_time) (hst : isLong s.d.start_time)
    (hitem : s.d.redolog[i]? = some item) :
    (s.orecs (get_orec item.addr) ≠ -1
      ∧ IS_LOCKED_OR_NEWER (s.orecs (get_orec item.addr)) s.d.start_time = false
      ∧ acquireLocks_item (fuel + 1) i s = .ok ()
          { s with
            orecs := store s.orecs (get_orec item.addr) s.d.my_lock_word,
            d := { s.d with
              redolog := s.d.redolog.set i { item with p := s.orecs (get_orec item.addr) } } })
    ∨ (s.orecs (get_orec item.addr) = s.d.my_lock_word
      ∧ IS_LOCKED_OR_NEWER (s.orecs (get_orec item.addr)) s.d.start_time = true
      ∧ acquireLocks_item (fuel + 1) i s = .ok () s)
    ∨ (IS_LOCKED_OR_NEWER (s.orecs (get_orec item.addr)) s.d.start_time = true
      ∧ (acquireLocks_item (fuel + 1) i s = tx_abort 0 s
        ∨ acquireLocks_item (fuel + 1) i s = tx_abort 6 s)) := by
  rw [acquireLocks_item]
  simp only [hitem]
  cases hnew : IS_LOCKED_OR_NEWER (s.orecs (get_orec item.addr)) s.d.start_time
  · left
    refine ⟨?_, rfl, ?_⟩
    · intro h
      rw [h, IS_LOCKED_OR_NEWER_neg_one _ hst0 hst] at hnew
      exact Bool.noConfusion hnew
    · simp [bool_cas_orec]
  · right
    cases hl : IS_LOCKED (s.orecs (get_orec item.addr))
    · right
      refine ⟨rfl, Or.inl ?_⟩
      simp
    · by_cases hme : s.orecs (get_orec item.addr) = s.d.my_lock_word
      · left
        refine ⟨hme, rfl, ?_⟩
        simp [hme]
      · right
        refine ⟨rfl, Or.inr ?_⟩
        simp [hme, is_inevitable, hact, is_inevitable_or_inactive, hbuf]


theorem tx_abort_orecs (r buf : Nat) (s : State)
    (hact : s.d.transaction_active = true) (hbuf : s.d.setjmp_buf = some buf) :
    ∃ t, (tx_abort r s : Outcome Unit) = .restart buf t
      ∧ t.orecs = s.d.redolog.foldl revert_item s.orecs ∧ t.mem = s.mem
      ∧ t.d.num_aborts = store s.d.num_aborts r ((s.d.num_aborts r + 1) % 2 ^ 32) :=
  ⟨_, tx_abort_eq r buf s hact hbuf, rfl, rfl, rfl⟩

/-- The loop of `acquireLocks` over the entries `pre`, in a state whose redo
log is `pre ++ post`: if no entry of `pre` holds a version and the versions
that the entries of `post` hold, stored back, give the orec table `O`, then
the loop returns in a state of which the same is true for the whole redo log,
or it aborts and the orec table is `O`. -/
theorem acquireLocks_loop_revert (fuel buf : Nat) (O : Nat → Int) (pre : RedoLog) :
    ∀ (post : RedoLog) (s : State),
      s.d.redolog = pre ++ post → (∀ item ∈ pre, item.p = -1) →
      post.foldl revert_item s.orecs = O →
      s.d.transaction_active = true → s.d.setjmp_buf = some buf →
      0 ≤ s.d.start_time → isLong s.d.start_time →
      (∃ t, acquireLocks_loop (fuel + 1) pre.length s = .ok () t
          ∧ t.d.redolog.foldl revert_item t.orecs = O ∧ locksTaken s t)
      ∨ (∃ t, acquireLocks_loop (fuel + 1) pre.length s = .restart buf t
          ∧ t.orecs = O ∧ t.mem = s.mem
          ∧ (t.d.num_aborts = store s.d.num_aborts 0 ((s.d.num_aborts 0 + 1) % 2 ^ 32)
            ∨ t.d.num_aborts = store s.d.num_aborts 6 ((s.d.num_aborts 6 + 1) % 2 ^ 32))) := by
  induction pre using List.reverseRecOn with
  | nil =>
    intro post s hlog _ hfold _ _ _ _
    left
    refine ⟨s, rfl, ?_, locksTaken_refl s⟩
    rw [hlog]
    exact hfold
  | append_singleton pre item ih =>
    intro post s hlog hpre hfold hact hbuf hst0 hst
    have hlog1 : s.d.redolog = pre ++ item :: post := by
      rw [hlog, List.append_assoc]
      rfl
    have hp : item.p = -1 := hpre item (by simp)
    have hpre1 : ∀ x ∈ pre, x.p = -1 := fun x hx => hpre x (by simp [hx])
    have hitem : s.d.redolog[pre.length]? = some item := by
      rw [hlog1]
      exact getElem?_append_cons_length pre post item
    have hlen : (pre ++ [item]).length = pre.length + 1 := by simp
    rw [hlen, acquireLocks_loop]
    rcases acquireLocks_item_cases fuel pre.length buf s item hact hbuf hst0 hst hitem with
      ⟨hne, _, hstep⟩ | ⟨_, _, hstep⟩ | ⟨_, hstep | hstep⟩
    · -- the lock is taken
      rw [hstep]
      have hset : s.d.redolog.set pre.length { item with p := s.orecs (get_orec item.addr) }
          = pre ++ { item with p := s.orecs (get_orec item.addr) } :: post := by
        rw [hlog1]
        exact set_append_cons_length pre post item _
      have hfold1 : ({ item with p := s.orecs (get_orec item.addr) } :: post).foldl revert_item
          (store s.orecs (get_orec item.addr) s.d.my_lock_word) = O := by
        rw [List.foldl_cons]
        have : revert_item (store s.orecs (get_orec item.addr) s.d.my_lock_word)
            { item with p := s.orecs (get_orec item.addr) } = s.orecs := by
          simp only [revert_item, bne_iff_ne, ne_eq, hne, not_false_eq_true, if_true]
          rw [store_store, store_self]
        rw [this]
        exact hfold
      have hframe : locksTaken s
          { s with
            orecs := store s.orecs (get_orec item.addr) s.d.my_lock_word,
            d := { s.d with
              redolog := s.d.redolog.set pre.length
                { item with p := s.orecs (get_orec item.addr) } } } := by
        refine ⟨rfl, rfl, rfl, rfl, rfl, rfl, rfl, rfl, rfl, rfl, rfl, rfl, rfl, ?_, ?_, ?_⟩
        · exact map_set_same_key _ _ _ _ _ hitem rfl
        · exact map_set_same_key _ _ _ _ _ hitem rfl
        · intro o
          by_cases h : o = get_orec item.addr
          · right
            simp [store, h]
          · left
            simp [store, h]
      rcases ih ({ item with p := s.orecs (get_orec item.addr) } :: post)
          { s with
            orecs := store s.orecs (get_orec item.addr) s.d.my_lock_word,
            d := { s.d with
              redolog := s.d.redolog.set pre.length
                { item with p := s.orecs (get_orec item.addr) } } }
          hset hpre1 hfold1 hact hbuf hst0 hst with ⟨t, h1, h2, h3⟩ | ⟨t, h1, h2, h3, h4⟩
      · exact Or.inl ⟨t, h1, h2, locksTaken_trans hframe h3⟩
      · exact Or.inr ⟨t, h1, h2, h3, h4⟩
    · -- the thread holds the lock
      rw [hstep]
      have hfold1 : (item :: post).foldl revert_item s.orecs = O := by
        rw [List.foldl_cons]
        have : revert_item s.orecs item = s.orecs := by simp [revert_item, hp]
        rw [this]
        exact hfold
      exact ih _ s hlog1 hpre1 hfold1 hact hbuf hst0 hst
    · right
      rw [hstep]
      obtain ⟨t, h1, h2, h3, h4⟩ := tx_abort_orecs 0 buf s hact hbuf
      refine ⟨t, by rw [h1], ?_, h3, Or.inl h4⟩
      rw [h2, hlog, foldl_revert_item_skip _ _ _ hpre]
      exact hfold
    · right
      rw [hstep]
      obtain ⟨t, h1, h2, h3, h4⟩ := tx_abort_orecs 6 buf s hact hbuf
      refine ⟨t, by rw [h1], ?_, h3, Or.inr h4⟩
      rw [h2, hlog, foldl_revert_item_skip _ _ _ hpre]
      exact hfold

/-- C19: a transaction that is active and not inevitable, whose redo log holds
no version yet (`p = -1` in every entry), whatever the orec table: either
`acquireLocks` returns, and then `releaseAndRevertLocks` gives back the orec
table as it was before `acquireLocks`, and so does `releaseLocksForRetry`,
which also leaves `p = -1` in every entry and keeps every address and every
value of the redo log; or `acquireLocks` aborts on the way, with the reason 0
or 6, and the orec table after the abort is the one before `acquireLocks`. -/
theorem acquireLocks_reversible (fuel buf : Nat) (s : State)
    (hact : s.d.transaction_active = true) (hbuf : s.d.setjmp_buf = some buf)
    (hst0 : 0 ≤ s.d.start_time) (hst : isLong s.d.start_time)
    (hp : ∀ item ∈ s.d.redolog, item.p = -1) :
    (∃ t, acquireLocks (fuel + 1) s = .ok () t
        ∧ (releaseAndRevertLocks t).orecs = s.orecs
        ∧ (releaseLocksForRetry t).orecs = s.orecs
        ∧ (∀ item ∈ (releaseLocksForRetry t).d.redolog, item.p = -1)
        ∧ (releaseLocksForRetry t).d.redolog.map (fun item => item.val)
            = s.d.redolog.map (fun item => item.val)
        ∧ (releaseLocksForRetry t).d.redolog.map (fun item => item.addr)
            = s.d.redolog.map (fun item => item.addr))
    ∨ (∃ t, acquireLocks (fuel + 1) s = .restart buf t
        ∧ t.orecs = s.orecs
        ∧ (t.d.num_aborts = store s.d.num_aborts 0 ((s.d.num_aborts 0 + 1) % 2 ^ 32)
          ∨ t.d.num_aborts = store s.d.num_aborts 6 ((s.d.num_aborts 6 + 1) % 2 ^ 32))) := by
  unfold acquireLocks
  rcases acquireLocks_loop_revert fuel buf s.orecs s.d.redolog [] s (by simp) hp rfl hact hbuf
    hst0 hst with ⟨t, h1, h2, h3⟩ | ⟨t, h1, h2, _, h4⟩
  · left
    obtain ⟨_, _, _, _, _, _, _, _, _, _, _, _, _, e14, e16, _⟩ := h3
    refine ⟨t, h1, h2, h2, ?_, ?_, ?_⟩
    · intro item hitem
      simp only [releaseLocksForRetry, List.mem_map] at hitem
      obtain ⟨x, _, rfl⟩ := hitem
      by_cases hx : x.p = -1
      · simp [hx]
      · simp [hx]
    · rw [← e16]
      simp only [releaseLocksForRetry, List.map_map]
      apply List.map_congr_left
      intro x _
      simp only [Function.comp]
      split <;> rfl
    · rw [← e14]
      simp only [releaseLocksForRetry, List.map_map]
      apply List.map_congr_left
      intro x _
      simp only [Function.comp]
      split <;> rfl
  · right
    exact ⟨t, h1, h2, h4⟩

/-- Witness of C19: the transaction of the scenario takes the lock of `X` and
gives it back. -/
theorem acquireLocks_reversible_witness :
    scenario_before_commit.d.transaction_active = true
    ∧ scenario_before_commit.d.setjmp_buf = some 1
    ∧ (∀ item ∈ scenario_before_commit.d.redolog, item.p = -1)
    ∧ (∃ t, acquireLocks 1 scenario_before_commit = .ok () t
        ∧ t.orecs (get_orec scenario_X) = -1001
        ∧ (releaseAndRevertLocks t).orecs = scenario_before_commit.orecs
        ∧ (releaseLocksForRetry t).orecs = scenario_before_commit.orecs) := by
  refine ⟨rfl, rfl, by decide, ?_⟩
  rcases acquireLocks_reversible 0 1 scenario_before_commit rfl rfl (by decide) (by decide)
    (by decide) with ⟨t, h1, h2, h3, _⟩ | ⟨t, h1, _⟩
  · refine ⟨t, h1, ?_, h2, h3⟩
    have h : acquireLocks 1 scenario_before_commit = .ok () scenario_locked := rfl
    rw [h] at h1
    injection h1 with _ h1
    rw [← h1]
    rfl
  · have h : acquireLocks 1 scenario_before_commit = .ok () scenario_locked := rfl
    rw [h] at h1
    exact Outcome.noConfusion h1

/-! ## Entries of the redo log that share an orec -/

theorem acquireLocks_item_lock (fuel i : Nat) (s : State) (item : wlog_t)
    (hst : isLong s.d.start_time) (hitem : s.d.redolog[i]? = some item)
    (h0 : 0 ≤ s.orecs (get_orec item.addr))
    (hle : s.orecs (get_orec item.addr) ≤ s.d.start_time) :
    acquireLocks_item (fuel + 1) i s = .ok ()
      { s with
        orecs := store s.orecs (get_orec item.addr) s.d.my_lock_word,
        d := { s.d with
          redolog := s.d.redolog.set i { item with p := s.orecs (get_orec item.addr) } } } := by
  rw [acquireLocks_item]
  simp [hitem, IS_LOCKED_OR_NEWER_of_le _ _ h0 hle hst, bool_cas_orec]

theorem acquireLocks_item_mine (fuel i : Nat) (s : State) (item : wlog_t)
    (hst0 : 0 ≤ s.d.start_time) (hst : isLong s.d.start_time)
    (hlw0 : s.d.my_lock_word < 0) (hlw : isLong s.d.my_lock_word)
    (hitem : s.d.redolog[i]? = some item)
    (hme : s.orecs (get_orec item.addr) = s.d.my_lock_word) :
    acquireLocks_item (fuel + 1) i s = .ok () s := by
  have hnew : IS_LOCKED_OR_NEWER s.d.my_lock_word s.d.start_time = true :=
    (IS_LOCKED_OR_NEWER_true_iff _ _ hlw hst0 hst).2 (Or.inl hlw0)
  have hl : IS_LOCKED s.d.my_lock_word = true := by simp [IS_LOCKED, hlw0]
  rw [acquireLocks_item]
  simp [hitem, hme, hnew, hl]

theorem acquireLocks_loop_discipline (fuel : Nat) (O : Nat → Int) (pre : RedoLog) :
    ∀ (post : RedoLog) (s : State),
      s.d.redolog = pre ++ post → (∀ x ∈ pre, x.p = -1) →
      (∀ x ∈ pre, 0 ≤ O (get_orec x.addr) ∧ O (get_orec x.addr) ≤ s.d.start_time) →
      (∀ o, ((∃ x ∈ post, get_orec x.addr = o) → s.orecs o = s.d.my_lock_word)
        ∧ ((∀ x ∈ post, get_orec x.addr ≠ o) → s.orecs o = O o)) →
      (∀ a x b, post = a ++ x :: b →
        ((∀ y ∈ b, get_orec y.addr ≠ get_orec x.addr) → x.p = O (get_orec x.addr))
        ∧ ((∃ y ∈ b, get_orec y.addr = get_orec x.addr) → x.p = -1)) →
      0 ≤ s.d.start_time → isLong s.d.start_time →
      s.d.my_lock_word < 0 → isLong s.d.my_lock_word →
      ∃ t, acquireLocks_loop (fuel + 1) pre.length s = .ok () t ∧ locksTaken s t
        ∧ (∀ o, ((∃ x ∈ t.d.redolog, get_orec x.addr = o) → t.orecs o = s.d.my_lock_word)
          ∧ ((∀ x ∈ t.d.redolog, get_orec x.addr ≠ o) → t.orecs o = O o))
        ∧ (∀ a x b, t.d.redolog = a ++ x :: b →
          ((∀ y ∈ b, get_orec y.addr ≠ get_orec x.addr) → x.p = O (get_orec x.addr))
          ∧ ((∃ y ∈ b, get_orec y.addr = get_orec x.addr) → x.p = -1)) := by
  induction pre using List.reverseRecOn with
  | nil =>
    intro post s hlog _ _ hI2 hI3 _ _ _ _
    have hlog1 : s.d.redolog = post := by simpa using hlog
    refine ⟨s, rfl, locksTaken_refl s, ?_, ?_⟩
    · rw [hlog1]; exact hI2
    · rw [hlog1]; exact hI3
  | append_singleton pre item ih =>
    intro post s hlog hpre hO hI2 hI3 hst0 hst hlw0 hlw
    have hlog1 : s.d.redolog = pre ++ item :: post := by
      rw [hlog, List.append_assoc]
      rfl
    have hp : item.p = -1 := hpre item (by simp)
    have hpre1 : ∀ x ∈ pre, x.p = -1 := fun x hx => hpre x (by simp [hx])
    have hO1 : ∀ x ∈ pre, 0 ≤ O (get_orec x.addr) ∧ O (get_orec x.addr) ≤ s.d.start_time :=
      fun x hx => hO x (by simp [hx])
    have hOi := hO item (by simp)
    have hitem : s.d.redolog[pre.length]? = some item := by
      rw [hlog1]
      exact getElem?_append_cons_length pre post item
    have hlen : (pre ++ [item]).length = pre.length + 1 := by simp
    rw [hlen, acquireLocks_loop]
    by_cases hcov : ∃ y ∈ post, get_orec y.addr = get_orec item.addr
    · -- the orec is locked already
      have hme : s.orecs (get_orec item.addr) = s.d.my_lock_word := (hI2 _).1 hcov
      rw [acquireLocks_item_mine fuel _ s item hst0 hst hlw0 hlw hitem hme]
      apply ih (item :: post) s hlog1 hpre1 hO1 ?_ ?_ hst0 hst hlw0 hlw
      · intro o
        constructor
        · rintro ⟨x, hx, hxo⟩
          rcases List.mem_cons.1 hx with rfl | hx
          · rw [← hxo]; exact hme
          · exact (hI2 o).1 ⟨x, hx, hxo⟩
        · intro h
          exact (hI2 o).2 (fun x hx => h x (List.mem_cons_of_mem _ hx))
      · intro a x b hab
        cases a with
        | nil =>
          simp only [List.nil_append, List.cons.injEq] at hab
          obtain ⟨rfl, rfl⟩ := hab
          exact ⟨fun h => absurd hcov (by
            rintro ⟨y, hy, hyo⟩
            exact h y hy hyo), fun _ => hp⟩
        | cons a0 a1 =>
          simp only [List.cons_append, List.cons.injEq] at hab
          exact hI3 a1 x b hab.2
    · -- the orec is free
      have hfree : s.orecs (get_orec item.addr) = O (get_orec item.addr) :=
        (hI2 _).2 (fun x hx hxo => hcov ⟨x, hx, hxo⟩)
      rw [acquireLocks_item_lock fuel _ s item hst hitem (by rw [hfree]; exact hOi.1)
        (by rw [hfree]; exact hOi.2)]
      have hset : s.d.redolog.set pre.length { item with p := s.orecs (get_orec item.addr) }
          = pre ++ { item with p := s.orecs (get_orec item.addr) } :: post := by
        rw [hlog1]
        exact set_append_cons_length pre post item _
      have hframe : locksTaken s
          { s with
            orecs := store s.orecs (get_orec item.addr) s.d.my_lock_word,
            d := { s.d with
              redolog := s.d.redolog.set pre.length
                { item with p := s.orecs (get_orec item.addr) } } } := by
        refine ⟨rfl, rfl, rfl, rfl, rfl, rfl, rfl, rfl, rfl, rfl, rfl, rfl, rfl, ?_, ?_, ?_⟩
        · exact map_set_same_key _ _ _ _ _ hitem rfl
        · exact map_set_same_key _ _ _ _ _ hitem rfl
        · intro o
          by_cases h : o = get_orec item.addr
          · right
            simp [store, h]
          · left
            simp [store, h]
      obtain ⟨t, h1, h2, h3, h4⟩ := ih ({ item with p := s.orecs (get_orec item.addr) } :: post)
          { s with
            orecs := store s.orecs (get_orec item.addr) s.d.my_lock_word,
            d := { s.d with
              redolog := s.d.redolog.set pre.length
                { item with p := s.orecs (get_orec item.addr) } } }
          hset hpre1 hO1 (by
            intro o
            constructor
            · rintro ⟨x, hx, hxo⟩
              rcases List.mem_cons.1 hx with rfl | hx
              · simp [store, ← hxo]
              · by_cases h : o = get_orec item.addr
                · simp [store, h]
                · have := (hI2 o).1 ⟨x, hx, hxo⟩
                  simp [store, h, this]
            · intro h
              have hne : o ≠ get_orec item.addr := fun e => h _ (List.mem_cons_self _ _) e.symm
              have := (hI2 o).2 (fun x hx => h x (List.mem_cons_of_mem _ hx))
              simp [store, hne, this])
          (by
            intro a x b hab
            cases a with
            | nil =>
              simp only [List.nil_append, List.cons.injEq] at hab
              obtain ⟨rfl, rfl⟩ := hab
              exact ⟨fun _ => hfree, fun h => absurd h hcov⟩
            | cons a0 a1 =>
              simp only [List.cons_append, List.cons.injEq] at hab
              exact hI3 a1 x b hab.2)
          hst0 hst hlw0 hlw
      exact ⟨t, h1, locksTaken_trans hframe h2, h3, h4⟩


/-- C18: a redo log whose entries all hold `p = -1` and whose covered orecs
are unlocked with a version of at most `start_time`: `acquireLocks` returns;
after it every covered orec holds `my_lock_word` (the other orecs are as
before), the addresses and values of the entries are as before, and an entry
holds the version that its orec had before `acquireLocks`, which is not `-1`,
if no later entry in forward order maps to the same orec, and `p = -1` if a
later entry does. -/
theorem acquireLocks_duplicate_orecs (fuel : Nat) (s : State)
    (hst0 : 0 ≤ s.d.start_time) (hst : isLong s.d.start_time)
    (hlw0 : s.d.my_lock_word < 0) (hlw : isLong s.d.my_lock_word)
    (hp : ∀ x ∈ s.d.redolog, x.p = -1)
    (hcov : ∀ x ∈ s.d.redolog,
      0 ≤ s.orecs (get_orec x.addr) ∧ s.orecs (get_orec x.addr) ≤ s.d.start_time) :
    ∃ t, acquireLocks (fuel + 1) s = .ok () t
      ∧ t.d.redolog.map (fun item => item.addr) = s.d.redolog.map (fun item => item.addr)
      ∧ t.d.redolog.map (fun item => item.val) = s.d.redolog.map (fun item => item.val)
      ∧ (∀ x ∈ s.d.redolog, t.orecs (get_orec x.addr) = s.d.my_lock_word)
      ∧ (∀ o, (∀ x ∈ s.d.redolog, get_orec x.addr ≠ o) → t.orecs o = s.orecs o)
      ∧ (∀ a x b, t.d.redolog = a ++ x :: b →
          ((∀ y ∈ b, get_orec y.addr ≠ get_orec x.addr) →
            x.p = s.orecs (get_orec x.addr) ∧ x.p ≠ -1)
          ∧ ((∃ y ∈ b, get_orec y.addr = get_orec x.addr) → x.p = -1)) := by
  obtain ⟨t, h1, h2, h3, h4⟩ := acquireLocks_loop_discipline fuel s.orecs s.d.redolog [] s
    (by simp) hp hcov (by intro o; simp) (by intro a x b h; simp at h) hst0 hst hlw0 hlw
  have e14 := h2.2.2.2.2.2.2.2.2.2.2.2.2.2.1
  have e16 := h2.2.2.2.2.2.2.2.2.2.2.2.2.2.2.1
  have hmem_ts : ∀ y ∈ t.d.redolog, ∃ x ∈ s.d.redolog, x.addr = y.addr := by
    intro y hy
    have : y.addr ∈ t.d.redolog.map (fun item => item.addr) := List.mem_map.2 ⟨y, hy, rfl⟩
    rw [e14] at this
    exact List.mem_map.1 this
  have hmem_st : ∀ x ∈ s.d.redolog, ∃ y ∈ t.d.redolog, y.addr = x.addr := by
    intro x hx
    have : x.addr ∈ s.d.redolog.map (fun item => item.addr) := List.mem_map.2 ⟨x, hx, rfl⟩
    rw [← e14] at this
    exact List.mem_map.1 this
  refine ⟨t, h1, e14, e16, ?_, ?_, ?_⟩
  · intro x hx
    obtain ⟨y, hy, hyx⟩ := hmem_st x hx
    exact (h3 _).1 ⟨y, hy, by rw [hyx]⟩
  · intro o ho
    apply (h3 o).2
    intro y hy
    obtain ⟨x, hx, hxy⟩ := hmem_ts y hy
    rw [← hxy]
    exact ho x hx
  · intro a x b hab
    refine ⟨fun hlast => ?_, (h4 a x b hab).2⟩
    have hpx := (h4 a x b hab).1 hlast
    refine ⟨hpx, ?_⟩
    obtain ⟨x0, hx0, hx0x⟩ := hmem_ts x (by rw [hab]; simp)
    have := hcov x0 hx0
    rw [hx0x] at this
    rw [hpx]
    omega

/-- Witness of C18: the two entries of the redo log map to the orec of `X`,
which holds the version `0`; after `acquireLocks` the first entry holds `-1`
and the second, the last in forward order, the version `0`. -/
theorem acquireLocks_duplicate_orecs_witness :
    scenario_aliased.d.redolog
        = [{ addr := scenario_X, val := 11, p := -1 }, { addr := scenario_X_alias, val := 12, p := -1 }]
    ∧ get_orec scenario_X_alias = get_orec scenario_X
    ∧ scenario_aliased.orecs (get_orec scenario_X) = 0
    ∧ ∃ t, acquireLocks 1 scenario_aliased = .ok () t
      ∧ t.d.redolog
          = [{ addr := scenario_X, val := 11, p := -1 }, { addr := scenario_X_alias, val := 12, p := 0 }]
      ∧ (∀ x ∈ scenario_aliased.d.redolog,
          t.orecs (get_orec x.addr) = scenario_aliased.d.my_lock_word) := by
  refine ⟨rfl, by decide, rfl, ?_⟩
  obtain ⟨t, h1, _, _, h4, _⟩ := acquireLocks_duplicate_orecs 0 scenario_aliased (by decide)
    (by decide) (by decide) (by decide) (by decide)
    (fun _ _ => (by decide : (0 : Int) ≤ 0 ∧ (0 : Int) ≤ 0))
  refine ⟨t, h1, ?_, h4⟩
  have h : acquireLocks 1 scenario_aliased
      = .ok () (acquireLocks 1 scenario_aliased).state := rfl
  rw [h] at h1
  injection h1 with _ h1
  rw [← h1]
  rfl

/-! ## The read set -/

theorem onlySpins_refl (s : State) : onlySpins s s :=
  ⟨rfl, rfl, rfl, rfl, rfl, rfl, rfl, rfl, rfl, rfl, rfl, rfl, rfl, rfl, rfl⟩

theorem onlySpins_tx_spinloop (num : Nat) (s : State) : onlySpins s (tx_spinloop num s) :=
  ⟨rfl, rfl, rfl, rfl, rfl, rfl, rfl, rfl, rfl, rfl, rfl, rfl, rfl, rfl, rfl⟩

theorem onlySpins_trans {s t u : State} (h1 : onlySpins s t) (h2 : onlySpins t u) :
    onlySpins s u := by
  obtain ⟨a1, a2, a3, a4, a5, a6, a7, a8, a9, a10, a11, a12, a13, a14, a15⟩ := h1
  obtain ⟨b1, b2, b3, b4, b5, b6, b7, b8, b9, b10, b11, b12, b13, b14, b15⟩ := h2
  exact ⟨b1.trans a1, b2.trans a2, b3.trans a3, b4.trans a4, b5.trans a5, b6.trans a6,
    b7.trans a7, b8.trans a8, b9.trans a9, b10.trans a10, b11.trans a11, b12.trans a12,
    b13.trans a13, b14.trans a14, b15.trans a15⟩

theorem validate_fast_item_ok (fuel lognum o : Nat) (s t : State)
    (h : validate_fast_item fuel lognum o s = .ok () t) : onlySpins s t := by
  induction fuel generalizing s with
  | zero => simp [validate_fast_item] at h
  | succ n ih =>
    rw [validate_fast_item] at h
    split at h
    · split at h
      · exact onlySpins_trans (onlySpins_tx_spinloop lognum s) (ih _ h)
      · exact absurd h (tx_abort_ne_ok lognum s t ())
    · injection h with _ h
      rw [← h]
      exact onlySpins_refl s

theorem validate_fast_loop_ok (fuel lognum : Nat) (l : OrecList) (s t : State)
    (h : validate_fast_loop fuel lognum l s = .ok () t) : onlySpins s t := by
  induction l generalizing s with
  | nil =>
    simp only [validate_fast_loop] at h
    injection h with _ h
    rw [← h]
    exact onlySpins_refl s
  | cons o rest ih =>
    rw [validate_fast_loop] at h
    cases hr : validate_fast_item fuel lognum o s with
    | ok v s1 =>
      rw [hr] at h
      exact onlySpins_trans (validate_fast_item_ok fuel lognum o s s1 hr) (ih s1 h)
    | restart b s1 => rw [hr] at h; simp at h
    | crash w s1 => rw [hr] at h; simp at h
    | waiting s1 => rw [hr] at h; simp at h

theorem validate_fast_ok (fuel lognum : Nat) (s t : State)
    (h : validate_fast fuel lognum s = .ok () t) : onlySpins s t := by
  unfold validate_fast is_inevitable at h
  by_cases hact : s.d.transaction_active = true
  · simp only [hact, if_true] at h
    cases hin : is_inevitable_or_inactive s.d
    · rw [hin] at h
      exact validate_fast_loop_ok fuel lognum _ s t h
    · rw [hin] at h
      simp at h
  · simp [hact] at h

theorem stm_try_inevitable_loop_odd (fuel : Nat) (s : State) (t : State)
    (hodd : s.global_timestamp % 2 = 1) :
    stm_try_inevitable_loop fuel s ≠ .ok () t := by
  induction fuel generalizing s with
  | zero => simp [stm_try_inevitable_loop]
  | succ n ih =>
    rw [stm_try_inevitable_loop]
    simp only [get_global_timestamp]
    have hand : and_1 s.global_timestamp = true := by simp [and_1, hodd]
    split
    · rename_i s2 hsc
      have hgt : s2.global_timestamp = s.global_timestamp := by
        split at hsc
        · split at hsc
          · rename_i s2a hv
            injection hsc with _ hsc
            rw [← hsc]
            exact (validate_fast_ok _ _ _ _ hv).2.2.1
          · rename_i hne
            exact absurd hsc (by
              intro h
              exact hne _ _ h)
        · injection hsc with _ hsc
          rw [← hsc]
      cases hm : mutex_lock s2 with
      | ok u s3 =>
        simp only [hand, if_true]
        have h3 : s3.global_timestamp = s2.global_timestamp := by
          unfold mutex_lock at hm
          split at hm
          · injection hm with _ hm
            rw [← hm]
          · simp at hm
          · simp at hm
        exact ih _ (by simp [tx_spinloop, mutex_unlock, h3, hgt, hodd])
      | restart b s3 => simp
      | crash w s3 => simp
      | waiting s3 => simp
    · rename_i hne
      intro h
      exact hne _ _ h


theorem mutex_lock_ok (s t : State) (h : mutex_lock s = .ok () t) :
    t = { s with mutex_inevitable := .heldByMe } := by
  unfold mutex_lock at h
  split at h
  · injection h with _ h
    exact h.symm
  · simp at h
  · simp at h

theorem stm_try_inevitable_loop_even (fuel : Nat) (s t : State)
    (heven : s.global_timestamp % 2 = 0)
    (hst0 : 0 ≤ s.d.start_time) (hst : isLong s.d.start_time)
    (h : stm_try_inevitable_loop fuel s = .ok () t) :
    t.global_timestamp = s.global_timestamp + 1
      ∧ t.d.start_time = (s.global_timestamp : Int)
      ∧ t.d.transaction_active = s.d.transaction_active
      ∧ t.d.setjmp_buf = s.d.setjmp_buf := by
  cases fuel with
  | zero => simp [stm_try_inevitable_loop] at h
  | succ n =>
    rw [stm_try_inevitable_loop] at h
    simp only [get_global_timestamp] at h
    have hand : and_1 s.global_timestamp = false := by simp [and_1, heven]
    have hnot : and_not_1 s.global_timestamp = s.global_timestamp := and_not_1_of_even _ heven
    split at h
    · rename_i s2 hsc
      have h2 : s2.global_timestamp = s.global_timestamp
          ∧ s2.d.start_time = (s.global_timestamp : Int)
          ∧ s2.d.transaction_active = s.d.transaction_active
          ∧ s2.d.setjmp_buf = s.d.setjmp_buf := by
        split at hsc
        · split at hsc
          · rename_i s2a hv
            injection hsc with _ hsc
            rw [← hsc]
            obtain ⟨-, -, f3, -, -, f6, -, -, -, -, -, -, f13, -, -⟩ := validate_fast_ok _ _ _ _ hv
            exact ⟨f3, by simp [hnot], f13, f6⟩
          · rename_i hne
            exact absurd hsc (by
              intro h
              exact hne _ _ h)
        · rename_i hsame
          injection hsc with _ hsc
          rw [← hsc]
          refine ⟨rfl, ?_, rfl, rfl⟩
          simp only [bne_iff_ne, ne_eq, not_not, hnot] at hsame
          rw [← hsame]
          exact (toUnsigned_of_nonneg _ hst0 hst).symm
      cases hm : mutex_lock s2 with
      | ok u s3 =>
        rw [hm] at h
        simp only [hand] at h
        have h3 := mutex_lock_ok s2 s3 hm
        subst h3
        simp only [change_global_timestamp, bool_cas_global_timestamp, h2.1, if_true,
          Bool.false_eq_true, if_false] at h
        injection h with _ h
        rw [← h]
        exact ⟨by simp, h2.2.1, h2.2.2.1, h2.2.2.2⟩
      | restart b s3 => rw [hm] at h; simp at h
      | crash w s3 => rw [hm] at h; simp at h
      | waiting s3 => rw [hm] at h; simp at h
    · rename_i hne
      exact absurd h (by
        intro h
        exact hne _ _ h)

theorem stm_try_inevitable_inevitableClock (fuel buf : Nat) (s t : State)
    (hact : s.d.transaction_active = true) (hbuf : s.d.setjmp_buf = some buf)
    (hst0 : 0 ≤ s.d.start_time) (hst : isLong s.d.start_time)
    (h : stm_try_inevitable fuel s = .ok () t) : inevitableClock t := by
  unfold stm_try_inevitable at h
  simp only [hact, Bool.not_true, Bool.false_eq_true, if_false, is_inevitable_or_inactive, hbuf,
    Option.isNone_some] at h
  cases hl : stm_try_inevitable_loop fuel s with
  | ok u s1 =>
    rw [hl] at h
    simp only [] at h
    injection h with _ h
    rw [← h]
    rcases Nat.mod_two_eq_zero_or_one s.global_timestamp with he | ho
    · obtain ⟨h1, h2, h3, h4⟩ := stm_try_inevitable_loop_even fuel s s1 he hst0 hst hl
      refine ⟨by simp [h3, hact], rfl, ?_, ?_⟩
      · simp only [h1]
        omega
      · simp only [h1, h2]
        push_cast
        rfl
    · exact absurd hl (stm_try_inevitable_loop_odd fuel s s1 ho)
  | restart b s1 => rw [hl] at h; simp at h
  | crash w s1 => rw [hl] at h; simp at h
  | waiting s1 => rw [hl] at h; simp at h


theorem validate_fast_inevitable (fuel lognum : Nat) (s : State)
    (hact : s.d.transaction_active = true) (hbuf : s.d.setjmp_buf = none) :
    validate_fast fuel lognum s = .crash .assertion s := by
  simp [validate_fast, is_inevitable, hact, is_inevitable_or_inactive, hbuf]

theorem inevitableClock_tx_spinloop (num : Nat) (s : State) (h : inevitableClock s) :
    inevitableClock (tx_spinloop num s) := h

theorem stm_read_word_retry_inevitableClock (fuel addr o : Nat) (s t : State) (v : Int)
    (hinv : inevitableClock s)
    (h : stm_read_word_retry fuel addr o s = .ok v t) : inevitableClock t := by
  induction fuel generalizing s with
  | zero => simp [stm_read_word_retry] at h
  | succ n ih =>
    rw [stm_read_word_retry] at h
    simp only [get_global_timestamp] at h
    split at h
    · exact ih _ (inevitableClock_tx_spinloop 7 s hinv) h
    · by_cases hnew : IS_LOCKED_OR_NEWER (s.orecs o) s.d.start_time = true
      · have hv := validate_fast_inevitable (n + 1) 1
          { s with d := { s.d with last_known_global_timestamp := s.global_timestamp } }
          hinv.1 hinv.2.1
        simp only [hnew, if_true, hv] at h
        simp at h
      · simp only [hnew, Bool.false_eq_true, if_false] at h
        split at h
        · exact ih _ hinv h
        · injection h with _ h
          rw [← h]
          exact hinv

theorem stm_read_word_inevitableClock (fuel addr : Nat) (s t : State) (v : Int)
    (hinv : inevitableClock s)
    (h : stm_read_word fuel addr s = .ok v t) : inevitableClock t := by
  unfold stm_read_word at h
  simp only [hinv.1, Bool.not_true, Bool.false_eq_true, if_false] at h
  split at h
  · injection h with _ h
    rw [← h]
    exact hinv
  · exact stm_read_word_retry_inevitableClock fuel addr _ s t v hinv h

theorem stm_write_word_inevitableClock (addr : Nat) (val : Int) (s t : State)
    (hinv : inevitableClock s)
    (h : stm_write_word addr val s = .ok () t) : inevitableClock t := by
  unfold stm_write_word at h
  simp only [hinv.1, Bool.not_true, Bool.false_eq_true, if_false] at h
  split at h
  · injection h with _ h
    rw [← h]
    exact ⟨rfl, hinv.2.1, hinv.2.2.1, hinv.2.2.2⟩
  · simp at h

theorem perform_accesses_inevitableClock (body : List Access) (s t : State)
    (hinv : inevitableClock s)
    (h : perform_accesses body s = .ok () t) : inevitableClock t := by
  induction body generalizing s with
  | nil =>
    simp only [perform_accesses] at h
    injection h with _ h
    rw [← h]
    exact hinv
  | cons a rest ih =>
    cases a with
    | read fuel addr =>
      rw [perform_accesses] at h
      cases hr : stm_read_word fuel addr s with
      | ok v s1 =>
        rw [hr] at h
        exact ih s1 (stm_read_word_inevitableClock fuel addr s s1 v hinv hr) h
      | restart b s1 => rw [hr] at h; simp [Outcome.andThen] at h
      | crash w s1 => rw [hr] at h; simp [Outcome.andThen] at h
      | waiting s1 => rw [hr] at h; simp [Outcome.andThen] at h
    | write addr val =>
      rw [perform_accesses] at h
      cases hr : stm_write_word addr val s with
      | ok v s1 =>
        rw [hr] at h
        exact ih s1 (stm_write_word_inevitableClock addr val s s1 hinv hr) h
      | restart b s1 => rw [hr] at h; simp [Outcome.andThen] at h
      | crash w s1 => rw [hr] at h; simp [Outcome.andThen] at h
      | waiting s1 => rw [hr] at h; simp [Outcome.andThen] at h

theorem acquireLocks_item_inevitableClock (fuel i : Nat) (s t : State)
    (hinv : inevitableClock s)
    (h : acquireLocks_item fuel i s = .ok () t) : inevitableClock t := by
  induction fuel generalizing s with
  | zero => simp [acquireLocks_item] at h
  | succ n ih =>
    rw [acquireLocks_item] at h
    split at h
    · injection h with _ h
      rw [← h]
      exact hinv
    · rename_i item hitem
      simp only [bool_cas_orec, if_true] at h
      split at h
      · injection h with _ h
        rw [← h]
        exact hinv
      · split at h
        · exact absurd h (tx_abort_ne_ok 0 s t ())
        · split at h
          · simp only [is_inevitable, hinv.1, if_true, is_inevitable_or_inactive, hinv.2.1,
              Option.isNone_none] at h
            exact ih _ (inevitableClock_tx_spinloop 8 s hinv) h
          · injection h with _ h
            rw [← h]
            exact hinv

theorem acquireLocks_loop_inevitableClock (fuel i : Nat) (s t : State)
    (hinv : inevitableClock s)
    (h : acquireLocks_loop fuel i s = .ok () t) : inevitableClock t := by
  induction i generalizing s with
  | zero =>
    simp only [acquireLocks_loop] at h
    injection h with _ h
    rw [← h]
    exact hinv
  | succ n ih =>
    rw [acquireLocks_loop] at h
    cases hr : acquireLocks_item fuel n s with
    | ok v s1 =>
      rw [hr] at h
      exact ih s1 (acquireLocks_item_inevitableClock fuel n s s1 hinv hr) h
    | restart b s1 => rw [hr] at h; simp at h
    | crash w s1 => rw [hr] at h; simp at h
    | waiting s1 => rw [hr] at h; simp at h

theorem commitInevitableTransaction_of_inevitableClock (s : State) (hinv : inevitableClock s) :
    commitInevitableTransaction s = tx_redo
      { s with
        global_timestamp := s.global_timestamp + 1,
        d := { s.d with
          last_known_global_timestamp := s.global_timestamp + 1,
          end_time := ((s.global_timestamp + 1 : Nat) : Int) } } := by
  obtain ⟨-, -, hodd, hst⟩ := hinv
  have hand : and_1 s.global_timestamp = true := by simp [and_1, hodd]
  have hend : ((s.global_timestamp + 1 : Nat) : Int) = s.d.start_time + 2 := by
    push_cast
    omega
  simp [commitInevitableTransaction, get_global_timestamp, hand, set_global_timestamp, hend, tx_redo]


/-- C21: a transaction that is active and not inevitable (its `start_time` a
non-negative `long`) becomes inevitable through `stm_try_inevitable`, then
makes any sequence of calls of `stm_read_word` and `stm_write_word` that
return, and calls `commit_transaction` with a redo log that is not empty.  If
`acquireLocks` returns there, `commitInevitableTransaction` is reached, and in
it the clock `ts` that is read has its lowest bit set, `end_time = ts + 1` is
`start_time + 2`, so neither assertion fails: the function goes on to
`tx_redo` with the clock set to `ts + 1`. -/
theorem commitInevitableTransaction_asserts (f1 f2 buf : Nat) (body : List Access)
    (s t u w : State)
    (hact : s.d.transaction_active = true) (hbuf : s.d.setjmp_buf = some buf)
    (hst0 : 0 ≤ s.d.start_time) (hst : isLong s.d.start_time)
    (h1 : stm_try_inevitable f1 s = .ok () t)
    (h2 : perform_accesses body t = .ok () u)
    (hlog : redolog_any_entry u.d.redolog = true)
    (h3 : acquireLocks f2 u = .ok () w) :
    is_inevitable w = .ok true w
    ∧ and_1 (get_global_timestamp w).1 = true
    ∧ (((get_global_timestamp w).1 + 1 : Nat) : Int) = w.d.start_time + 2
    ∧ (∀ x, commitInevitableTransaction w ≠ .crash .assertion x)
    ∧ ∃ s3, commitInevitableTransaction w = tx_redo s3
        ∧ s3.global_timestamp = w.global_timestamp + 1
        ∧ s3.d.end_time = ((w.global_timestamp + 1 : Nat) : Int)
        ∧ s3.d.end_time = s3.d.start_time + 2
        ∧ commit_transaction f2 u = .crash .abortCall s3 := by
  have ht := stm_try_inevitable_inevitableClock f1 buf s t hact hbuf hst0 hst h1
  have hu := perform_accesses_inevitableClock body t u ht h2
  have hw := acquireLocks_loop_inevitableClock f2 _ u w hu h3
  have hc := commitInevitableTransaction_of_inevitableClock w hw
  have hinev : is_inevitable w = .ok true w := by
    simp [is_inevitable, hw.1, is_inevitable_or_inactive, hw.2.1]
  have hend : ((w.global_timestamp + 1 : Nat) : Int) = w.d.start_time + 2 := by
    have := hw.2.2.2
    push_cast
    omega
  refine ⟨hinev, by simp [get_global_timestamp, and_1, hw.2.2.1], hend, ?_, _, hc, rfl, rfl, hend, ?_⟩
  · intro x hx
    rw [hc] at hx
    simp [tx_redo] at hx
  · simp only [commit_transaction, hlog, Bool.not_true, Bool.false_eq_true, if_false,
      commit_transaction_writes, h3, Outcome.andThen, hinev, if_true, hc, tx_redo]

/-- Witness of C21: the transaction of the scenario begins at the time `2`
(clock `2`), becomes inevitable (clock `3`), reads `X`, writes `11` to `X` and
commits: `commitInevitableTransaction` sets the clock and `end_time` to `4`,
which is `start_time + 2`, and goes on to `tx_redo`. -/
theorem commitInevitableTransaction_asserts_witness :
    ∃ s3, commit_transaction 1 scenario_inevitable_written = .crash .abortCall s3
      ∧ s3.global_timestamp = 4 ∧ s3.d.end_time = 4 ∧ s3.d.start_time = 2 := by
  obtain ⟨_, _, _, _, s3, _, h5, h6, h7, h8⟩ :=
    commitInevitableTransaction_asserts 1 1 1 scenario_inevitable_body
      (begin_transaction 1 scenario_init).state scenario_inevitable scenario_inevitable_written
      (acquireLocks 1 scenario_inevitable_written).state rfl rfl (by decide) (by decide)
      rfl rfl rfl rfl
  have hg : (acquireLocks 1 scenario_inevitable_written).state.global_timestamp = 3 := rfl
  have hs : s3.d.start_time = 2 := by
    rw [h6, hg] at h7
    omega
  exact ⟨s3, h8, by rw [h5, hg], by rw [h6, hg]; rfl, hs⟩

/-! ## Partial words -/

theorem toUnsigned_lt (x : Int) : toUnsigned x < 2 ^ 64 := by
  unfold toUnsigned
  norm_num
  omega

theorem toUnsigned_toSigned (x : Nat) : toUnsigned (toSigned x) = x % 2 ^ 64 := by
  unfold toUnsigned toSigned
  norm_num
  split <;> omega

theorem toUnsigned_natCast (x : Nat) : toUnsigned (x : Int) = x % 2 ^ 64 := by
  unfold toUnsigned
  norm_num
  omega

theorem toUnsigned_not (x : Int) : toUnsigned (~~~x) = 2 ^ 64 - (toUnsigned x + 1) := by
  rw [int_not_eq]
  unfold toUnsigned
  norm_num
  omega

theorem isLong_toSigned (x : Nat) : isLong (toSigned x) := by
  unfold isLong toSigned
  norm_num
  split <;> omega


theorem long_shl_one_sub_one (fs : Nat) (hfs : fs = 1 ∨ fs = 2 ∨ fs = 4) :
    long_shl 1 (fs * 8) - 1 = ((2 ^ (fs * 8) - 1 : Nat) : Int) := by
  rcases hfs with h | h | h <;> subst h <;> decide

theorem testBit_toUnsigned_ge (x : Int) (i : Nat) (hi : 64 ≤ i) :
    (toUnsigned x).testBit i = false :=
  Nat.testBit_lt_two_pow (lt_of_lt_of_le (toUnsigned_lt x) (Nat.pow_le_pow_right (by decide) hi))

theorem subword_bits (fs m v : Nat) (word : Int) (hfs : fs = 1 ∨ fs = 2 ∨ fs = 4)
    (hm : m + fs ≤ 8) (i : Nat) :
    (toUnsigned (long_or
        (long_and (long_shl (v : Int) (m * 8)) (long_shl (long_shl 1 (fs * 8) - 1) (m * 8)))
        (long_and word (~~~(long_shl (long_shl 1 (fs * 8) - 1) (m * 8)))))).testBit i
      = if m * 8 ≤ i ∧ i < m * 8 + fs * 8 then v.testBit (i - m * 8)
        else (toUnsigned word).testBit i := by
  rw [long_shl_one_sub_one fs hfs]
  have hlt : ((2 ^ (fs * 8) - 1) % 2 ^ 64) <<< (m * 8) % 2 ^ 64 < 2 ^ 64 :=
    Nat.mod_lt _ (by decide)
  simp only [long_or, long_and, long_shl, toUnsigned_toSigned, toUnsigned_natCast,
    toUnsigned_not, Nat.testBit_mod_two_pow, Nat.testBit_or, Nat.testBit_and,
    Nat.testBit_shiftLeft, Nat.testBit_two_pow_sub_succ hlt, Nat.testBit_two_pow_sub_one]
  by_cases h64 : i < 64
  · by_cases hlo : m * 8 ≤ i
    · by_cases hhi : i < m * 8 + fs * 8
      · have h1 : i - m * 8 < fs * 8 := by omega
        have h2 : i - m * 8 < 64 := by omega
        simp [h64, hlo, hhi, h1, h2]
      · have h1 : ¬ (i - m * 8 < fs * 8) := by omega
        simp [h64, hlo, hhi, h1]
    · simp [h64, hlo]
  · have hw := testBit_toUnsigned_ge word i (by omega)
    have hno : ¬ (m * 8 ≤ i ∧ i < m * 8 + fs * 8) := by omega
    simp [h64, hw, hno]


theorem and_sizeof_void_p (a : Nat) : a &&& (sizeof_void_p - 1) = a % 8 :=
  Nat.and_pow_two_sub_one_eq_mod a 3

/-- The macros `WRITE_PARTIAL_WORD` and `READ_PARTIAL_WORD` for a field of
`fs` bytes at an address that is a multiple of `fs`. -/
theorem subword_macros (fs fuel a v : Nat) (s r : State) (w : Int)
    (hfs : fs = 1 ∨ fs = 2 ∨ fs = 4) (hal : a % fs = 0) (hv : v < 2 ^ (fs * 8))
    (hact : s.d.transaction_active = true)
    (hread : stm_read_word fuel (a - a % 8) s = .ok w r) :
    ∃ w1 s1, WRITE_PARTIAL_WORD fs fuel a v s = .ok () s1
      ∧ s1 = { r with d := { r.d with redolog := redolog_insert r.d.redolog (a - a % 8) w1 } }
      ∧ (∀ n, READ_PARTIAL_WORD fs fs n a s1 = .ok v s1)
      ∧ (∀ n, stm_read_word n (a - a % 8) s1 = .ok w1 s1)
      ∧ isLong w1
      ∧ (∀ i, (toUnsigned w1).testBit i
          = if a % 8 * 8 ≤ i ∧ i < a % 8 * 8 + fs * 8 then v.testBit (i - a % 8 * 8)
            else (toUnsigned w).testBit i) := by
  have hm : a % 8 + fs ≤ 8 := by
    rcases hfs with h | h | h <;> subst h <;> omega
  have hp : (a - a % 8) % sizeof_void_p = 0 := by
    show (a - a % 8) % 8 = 0
    omega
  have hract : r.d.transaction_active = true := by
    have h := stm_read_word_clockStep fuel (a - a % 8) s
    rw [hread] at h
    exact h.2.2.trans hact
  have hbits := subword_bits fs (a % 8) v w hfs hm
  generalize hw1 : long_or
      (long_and (long_shl (v : Int) (a % 8 * 8)) (long_shl (long_shl 1 (fs * 8) - 1) (a % 8 * 8)))
      (long_and w (~~~(long_shl (long_shl 1 (fs * 8) - 1) (a % 8 * 8)))) = w1 at hbits
  have hlong : isLong w1 := by
    rw [← hw1]
    exact isLong_toSigned _
  have hwrite : WRITE_PARTIAL_WORD fs fuel a v s = .ok ()
      { r with d := { r.d with redolog := redolog_insert r.d.redolog (a - a % 8) w1 } } := by
    simp only [WRITE_PARTIAL_WORD, and_sizeof_void_p, hread, Outcome.andThen, hw1]
    exact stm_write_word_active _ _ r hp hract
  have hfind : ∀ n, stm_read_word n (a - a % 8)
      { r with d := { r.d with redolog := redolog_insert r.d.redolog (a - a % 8) w1 } }
      = .ok w1 { r with d := { r.d with redolog := redolog_insert r.d.redolog (a - a % 8) w1 } } :=
    fun n => stm_read_word_hit n _ _ { addr := a - a % 8, val := w1, p := -1 } hract
      (REDOLOG_FIND_redolog_insert _ _ _)
  refine ⟨w1, _, hwrite, rfl, ?_, hfind, hlong, hbits⟩
  intro n
  simp only [READ_PARTIAL_WORD, and_sizeof_void_p, hfind n, Outcome.andThen, beq_self_eq_true,
    if_true]
  congr 1
  apply Nat.eq_of_testBit_eq
  intro i
  rw [Nat.testBit_mod_two_pow, Nat.testBit_shiftRight, hbits]
  by_cases hi : i < fs * 8
  · have h1 : a % 8 * 8 ≤ a % 8 * 8 + i ∧ a % 8 * 8 + i < a % 8 * 8 + fs * 8 := by omega
    simp [hi, h1]
  · have h1 : v.testBit i = false :=
      Nat.testBit_lt_two_pow (lt_of_lt_of_le hv (Nat.pow_le_pow_right (by decide) (by omega)))
    simp [hi, h1]


theorem subword_bytes_kept (w w1 : Int) (m k v : Nat)
    (hbits : ∀ i, (toUnsigned w1).testBit i
      = if m ≤ i ∧ i < m + k then v.testBit (i - m) else (toUnsigned w).testBit i)
    (j : Nat) (hj : 8 * j + 8 ≤ m ∨ m + k ≤ 8 * j) :
    (toUnsigned w1 >>> (8 * j)) % 256 = (toUnsigned w >>> (8 * j)) % 256 := by
  show (toUnsigned w1 >>> (8 * j)) % 2 ^ 8 = (toUnsigned w >>> (8 * j)) % 2 ^ 8
  apply Nat.eq_of_testBit_eq
  intro i
  simp only [Nat.testBit_mod_two_pow, Nat.testBit_shiftRight, hbits]
  by_cases hi : i < 8
  · have h1 : ¬ (m ≤ 8 * j + i ∧ 8 * j + i < m + k) := by omega
    simp [hi, h1]
  · simp [hi]

theorem subword_bytes_written (w w1 : Int) (m k v : Nat)
    (hbits : ∀ i, (toUnsigned w1).testBit i
      = if m * 8 ≤ i ∧ i < m * 8 + k * 8 then v.testBit (i - m * 8) else (toUnsigned w).testBit i)
    (j : Nat) (hj : j < k) :
    (toUnsigned w1 >>> (8 * (m + j))) % 256 = (v >>> (8 * j)) % 256 := by
  show (toUnsigned w1 >>> (8 * (m + j))) % 2 ^ 8 = (v >>> (8 * j)) % 2 ^ 8
  apply Nat.eq_of_testBit_eq
  intro i
  simp only [Nat.testBit_mod_two_pow, Nat.testBit_shiftRight, hbits]
  by_cases hi : i < 8
  · have h1 : m * 8 ≤ 8 * (m + j) + i ∧ 8 * (m + j) + i < m * 8 + k * 8 := by omega
    have h2 : 8 * (m + j) + i - m * 8 = 8 * j + i := by omega
    simp [hi, h1, h2]
  · simp [hi]

/-- C22: on a little-endian machine, for a field of `fs` bytes, `fs` one of
1, 2 and 4, at an address `a` that is a multiple of `fs`, and a value `v` of
`fs` bytes: inside an active transaction in which `stm_read_word` of the word
that contains the field returns `w`, `stm_write_partial_fs(a, v)` returns, after
it `stm_read_partial_fs(a)` returns `v` and changes nothing, and
`stm_read_word` of the containing word returns a `w1` whose bytes outside the
field are those of `w`, and whose bytes in the field are those of `v`. -/
theorem subword_round_trip (fs fuel a v : Nat) (s r : State) (w : Int)
    (wr : Nat → Nat → Nat → State → Outcome Unit) (rd : Nat → Nat → State → Outcome Nat)
    (hfs : (fs = 1 ∧ wr = stm_write_partial_1 ∧ rd = stm_read_partial_1)
      ∨ (fs = 2 ∧ wr = stm_write_partial_2 ∧ rd = stm_read_partial_2)
      ∨ (fs = 4 ∧ wr = stm_write_partial_4 ∧ rd = stm_read_partial_4))
    (hal : a % fs = 0) (hv : v < 2 ^ (fs * 8))
    (hact : s.d.transaction_active = true)
    (hread : stm_read_word fuel (a - a % sizeof_void_p) s = .ok w r) :
    ∃ w1 s1, wr fuel a v s = .ok () s1
      ∧ (∀ n, rd n a s1 = .ok v s1)
      ∧ (∀ n, stm_read_word n (a - a % sizeof_void_p) s1 = .ok w1 s1)
      ∧ (∀ j, j < sizeof_void_p → (j < a % sizeof_void_p ∨ a % sizeof_void_p + fs ≤ j) →
          (toUnsigned w1 >>> (8 * j)) % 256 = (toUnsigned w >>> (8 * j)) % 256)
      ∧ (∀ j, j < fs →
          (toUnsigned w1 >>> (8 * (a % sizeof_void_p + j))) % 256 = (v >>> (8 * j)) % 256) := by
  have hfs1 : fs = 1 ∨ fs = 2 ∨ fs = 4 := by
    rcases hfs with h | h | h
    · exact Or.inl h.1
    · exact Or.inr (Or.inl h.1)
    · exact Or.inr (Or.inr h.1)
  obtain ⟨w1, s1, h1, -, h3, h4, -, h6⟩ :=
    subword_macros fs fuel a v s r w hfs1 hal hv hact hread
  have hw : wr fuel a v s = WRITE_PARTIAL_WORD fs fuel a v s := by
    rcases hfs with h | h | h <;> obtain ⟨hf, hwr, -⟩ := h <;> subst hf <;> rw [hwr]
    · simp only [stm_write_partial_1]
      rw [Nat.mod_eq_of_lt hv]
    · simp only [stm_write_partial_2]
      rw [Nat.mod_eq_of_lt hv]
    · simp only [stm_write_partial_4]
      rw [Nat.mod_eq_of_lt hv]
  have hr : ∀ n, rd n a s1 = READ_PARTIAL_WORD fs fs n a s1 := by
    intro n
    rcases hfs with h | h | h <;> obtain ⟨hf, -, hrd⟩ := h <;> subst hf <;> rw [hrd] <;> rfl
  refine ⟨w1, s1, hw.trans h1, fun n => (hr n).trans (h3 n), h4, ?_, ?_⟩
  · intro j _ hj
    apply subword_bytes_kept w w1 (a % 8 * 8) (fs * 8) v h6 j
    have h8 : sizeof_void_p = 8 := rfl
    rw [h8] at hj
    omega
  · intro j hj
    exact subword_bytes_written w w1 (a % 8) fs v h6 j hj

/-- Witness of C22: inside a transaction, with `X` holding `10`,
`stm_write_partial_2(&X + 2, 0xbeef)` returns, `stm_read_partial_2(&X + 2)`
returns `0xbeef` after it, and `stm_read_word(&X)` returns `0xbeef000a`. -/
theorem subword_round_trip_witness :
    ∃ s1, stm_write_partial_2 1 scenario_X_2 48879 (begin_transaction 1 scenario_init).state
        = .ok () s1
      ∧ stm_read_partial_2 0 scenario_X_2 s1 = .ok 48879 s1
      ∧ stm_read_word 0 scenario_X s1 = .ok 3203334154 s1 := by
  obtain ⟨w1, s1, h1, h2, h3, _, _⟩ :=
    subword_round_trip 2 1 scenario_X_2 48879 (begin_transaction 1 scenario_init).state
      (stm_read_word 1 scenario_X (begin_transaction 1 scenario_init).state).state 10
      stm_write_partial_2 stm_read_partial_2 (Or.inr (Or.inl ⟨rfl, rfl, rfl⟩))
      (by decide) (by decide) rfl rfl
  refine ⟨s1, h1, h2 0, ?_⟩
  have h4 : stm_write_partial_2 1 scenario_X_2 48879 (begin_transaction 1 scenario_init).state
      = .ok () (stm_write_partial_2 1 scenario_X_2 48879
          (begin_transaction 1 scenario_init).state).state := rfl
  rw [h4] at h1
  injection h1 with _ h1
  rw [← h1]
  rfl

/-! ## The statistics counters -/

theorem sum_range_ABORT_REASONS (f : Nat → Nat) :
    ((List.range ABORT_REASONS).map f).sum
      = f 0 + f 1 + f 2 + f 3 + f 4 + f 5 + f 6 + f 7 := by
  simp [ABORT_REASONS, List.range_succ]
  omega

theorem sum_store_succ (f : Nat → Nat) (r : Nat) (hr : r < ABORT_REASONS) :
    ((List.range ABORT_REASONS).map (store f r ((f r + 1) % 2 ^ 32))).sum % 2 ^ 32
      = (((List.range ABORT_REASONS).map f).sum + 1) % 2 ^ 32 := by
  simp only [sum_range_ABORT_REASONS, store]
  unfold ABORT_REASONS at hr
  interval_cases r <;> simp <;> omega

theorem countersAgree_of_eq (s t : State) (h : countersAgree s)
    (h1 : t.d.num_spinloops 0 = s.d.num_spinloops 0) (h2 : t.d.num_aborts = s.d.num_aborts) :
    countersAgree t := by
  unfold countersAgree at *
  rw [h1, h, h2]

theorem tx_spinloop_counters (num : Nat) (s : State) (hnum : num ≠ 0) (h : countersAgree s) :
    countersAgree (tx_spinloop num s) := by
  apply countersAgree_of_eq s _ h
  · simp only [tx_spinloop, store]
    rw [if_neg (Ne.symm hnum)]
  · rfl

theorem tx_abort_counters {α : Type} (r : Nat) (s : State) (hr : r < ABORT_REASONS)
    (h : countersAgree s) : countersAgree (tx_abort r s : Outcome α).state := by
  by_cases hact : s.d.transaction_active = true
  · cases hbuf : s.d.setjmp_buf with
    | none =>
      simp only [tx_abort, is_inevitable, hact, if_true, is_inevitable_or_inactive, hbuf,
        Option.isNone_none, Outcome.state]
      exact h
    | some buf =>
      rw [tx_abort_eq r buf s hact hbuf]
      unfold countersAgree at *
      simp only [Outcome.state, tx_spinloop, store, if_true]
      have h2 := sum_store_succ s.d.num_aborts r hr
      simp only [store] at h2
      rw [h2, h]
      omega
  · simp only [tx_abort, is_inevitable, hact, Bool.false_eq_true, if_false, Outcome.state]
    exact h

theorem andThen_counters {α β : Type} (x : Outcome α) (f : α → State → Outcome β)
    (hx : countersAgree x.state)
    (hf : ∀ v s1, countersAgree s1 → countersAgree (f v s1).state) :
    countersAgree (x.andThen f).state := by
  cases x with
  | ok v s1 => exact hf v s1 hx
  | restart b s1 => exact hx
  | crash w s1 => exact hx
  | waiting s1 => exact hx

theorem is_inevitable_state (s : State) : (is_inevitable s).state = s := by
  unfold is_inevitable
  split <;> rfl

theorem is_inevitable_counters (s : State) (h : countersAgree s) :
    countersAgree (is_inevitable s).state := by
  rw [is_inevitable_state]
  exact h

theorem acquireLocks_item_counters (fuel i : Nat) (s : State) (h : countersAgree s) :
    countersAgree (acquireLocks_item fuel i s).state := by
  induction fuel generalizing s with
  | zero => exact h
  | succ n ih =>
    rw [acquireLocks_item]
    split
    · exact h
    · simp only [bool_cas_orec, if_true]
      split
      · exact h
      · split
        · exact tx_abort_counters 0 s (by decide) h
        · split
          · have hX := is_inevitable_counters s h
            cases hx : is_inevitable s with
            | ok v s1 =>
              rw [hx] at hX
              cases v with
              | true => exact ih _ (tx_spinloop_counters 8 _ (by decide) hX)
              | false => exact tx_abort_counters 6 _ (by decide) hX
            | restart b s1 => rw [hx] at hX; exact hX
            | crash w s1 => rw [hx] at hX; exact hX
            | waiting s1 => rw [hx] at hX; exact hX
          · exact h

theorem acquireLocks_loop_counters (fuel i : Nat) (s : State) (h : countersAgree s) :
    countersAgree (acquireLocks_loop fuel i s).state := by
  induction i generalizing s with
  | zero => exact h
  | succ n ih =>
    rw [acquireLocks_loop]
    have hX := acquireLocks_item_counters fuel n s h
    cases hx : acquireLocks_item fuel n s with
    | ok v s1 => rw [hx] at hX; exact ih _ hX
    | restart b s1 => rw [hx] at hX; exact hX
    | crash w s1 => rw [hx] at hX; exact hX
    | waiting s1 => rw [hx] at hX; exact hX

theorem acquireLocks_counters (fuel : Nat) (s : State) (h : countersAgree s) :
    countersAgree (acquireLocks fuel s).state :=
  acquireLocks_loop_counters fuel _ s h

theorem validate_fast_item_counters (fuel lognum o : Nat) (s : State)
    (h0 : lognum ≠ 0) (h8 : lognum < ABORT_REASONS) (h : countersAgree s) :
    countersAgree (validate_fast_item fuel lognum o s).state := by
  induction fuel generalizing s with
  | zero => exact h
  | succ n ih =>
    rw [validate_fast_item]
    split
    · split
      · exact ih _ (tx_spinloop_counters lognum s h0 h)
      · exact tx_abort_counters lognum s h8 h
    · exact h

theorem validate_fast_loop_counters (fuel lognum : Nat) (l : OrecList) (s : State)
    (h0 : lognum ≠ 0) (h8 : lognum < ABORT_REASONS) (h : countersAgree s) :
    countersAgree (validate_fast_loop fuel lognum l s).state := by
  induction l generalizing s with
  | nil => exact h
  | cons o rest ih =>
    rw [validate_fast_loop]
    have hX := validate_fast_item_counters fuel lognum o s h0 h8 h
    cases hx : validate_fast_item fuel lognum o s with
    | ok v s1 => rw [hx] at hX; exact ih _ hX
    | restart b s1 => rw [hx] at hX; exact hX
    | crash w s1 => rw [hx] at hX; exact hX
    | waiting s1 => rw [hx] at hX; exact hX

theorem validate_fast_counters (fuel lognum : Nat) (s : State)
    (h0 : lognum ≠ 0) (h8 : lognum < ABORT_REASONS) (h : countersAgree s) :
    countersAgree (validate_fast fuel lognum s).state := by
  unfold validate_fast
  have hX := is_inevitable_counters s h
  cases hx : is_inevitable s with
  | ok v s1 =>
    rw [hx] at hX
    cases v with
    | true => exact hX
    | false => exact validate_fast_loop_counters fuel lognum _ s1 h0 h8 hX
  | restart b s1 => rw [hx] at hX; exact hX
  | crash w s1 => rw [hx] at hX; exact hX
  | waiting s1 => rw [hx] at hX; exact hX

theorem validate_loop_counters (l : OrecList) (s : State) (h : countersAgree s) :
    countersAgree (validate_loop l s).state := by
  induction l with
  | nil => exact h
  | cons o rest ih =>
    rw [validate_loop]
    split
    · split
      · exact tx_abort_counters 4 s (by decide) h
      · split
        · exact tx_abort_counters 5 s (by decide) h
        · exact ih
    · exact ih

theorem validate_counters (s : State) (h : countersAgree s) :
    countersAgree (validate s).state := by
  unfold validate
  have hX := is_inevitable_counters s h
  cases hx : is_inevitable s with
  | ok v s1 =>
    rw [hx] at hX
    cases v with
    | true => exact hX
    | false => exact validate_loop_counters _ s1 hX
  | restart b s1 => rw [hx] at hX; exact hX
  | crash w s1 => rw [hx] at hX; exact hX
  | waiting s1 => rw [hx] at hX; exact hX

theorem mutex_lock_counters (s : State) (h : countersAgree s) :
    countersAgree (mutex_lock s).state := by
  unfold mutex_lock
  split <;> exact h


theorem wait_end_inevitability_loop_counters (fuel : Nat) (s : State) (h : countersAgree s) :
    countersAgree (wait_end_inevitability_loop fuel s).state := by
  induction fuel generalizing s with
  | zero => exact h
  | succ n ih =>
    rw [wait_end_inevitability_loop]
    simp only [get_global_timestamp]
    have hs1 : countersAgree
        { s with d := { s.d with last_known_global_timestamp := s.global_timestamp } } := h
    split
    · have hcaught : ∀ r : Outcome Unit,
          r = (if toUnsigned s.d.start_time < s.global_timestamp - 1 then
            match validate_fast (n + 1) 3
              { s with d := { s.d with last_known_global_timestamp := s.global_timestamp } } with
            | .ok _ s2 => .ok ()
                { s2 with d := { s2.d with start_time := ((s.global_timestamp - 1 : Nat) : Int) } }
            | other => other
          else .ok ()
            { s with d := { s.d with last_known_global_timestamp := s.global_timestamp } }) →
          countersAgree r.state := by
        intro r hr
        rw [hr]
        split
        · have hX := validate_fast_counters (n + 1) 3 _ (by decide) (by decide) hs1
          split
          · rename_i s2 heq
            rw [heq] at hX
            exact hX
          · exact hX
        · exact hs1
      generalize hc : (if toUnsigned s.d.start_time < s.global_timestamp - 1 then
            match validate_fast (n + 1) 3
              { s with d := { s.d with last_known_global_timestamp := s.global_timestamp } } with
            | .ok _ s2 => Outcome.ok ()
                { s2 with d := { s2.d with start_time := ((s.global_timestamp - 1 : Nat) : Int) } }
            | other => other
          else Outcome.ok ()
            { s with d := { s.d with last_known_global_timestamp := s.global_timestamp } })
          = caught_up
      have hcu := hcaught caught_up hc.symm
      cases caught_up with
      | ok v s2 =>
        simp only []
        have hm := mutex_lock_counters (tx_spinloop 4 s2)
          (tx_spinloop_counters 4 s2 (by decide) hcu)
        split
        · rename_i s3 heq
          rw [heq] at hm
          exact ih _ hm
        · exact hm
      | restart b s2 => exact hcu
      | crash w s2 => exact hcu
      | waiting s2 => exact hcu
    · exact acquireLocks_counters (n + 1) _ hs1

theorem wait_end_inevitability_counters (fuel : Nat) (s : State) (h : countersAgree s) :
    countersAgree (wait_end_inevitability fuel s).state :=
  wait_end_inevitability_loop_counters fuel _ h

theorem commitInevitableTransaction_counters (s : State) (h : countersAgree s) :
    countersAgree (commitInevitableTransaction s).state := by
  unfold commitInevitableTransaction
  simp only [get_global_timestamp, set_global_timestamp, tx_redo]
  split
  · split
    · exact h
    · exact h
  · exact h

theorem common_cleanup_counters (s : State) (h : countersAgree s) :
    countersAgree (common_cleanup s).state := by
  unfold common_cleanup
  simp only []
  split
  · exact h
  · exact h

theorem commit_transaction_clock_counters (fuel : Nat) (s : State) (h : countersAgree s) :
    countersAgree (commit_transaction_clock fuel s).state := by
  induction fuel generalizing s with
  | zero => exact h
  | succ n ih =>
    rw [commit_transaction_clock]
    simp only [get_global_timestamp]
    have hs1 : countersAgree
        { s with d := { s.d with last_known_global_timestamp := s.global_timestamp } } := h
    split
    · have hX := wait_end_inevitability_counters (n + 1) _ hs1
      split
      · rename_i s2 heq
        rw [heq] at hX
        exact ih _ hX
      · exact hX
    · simp only [change_global_timestamp, bool_cas_global_timestamp, if_true]
      exact h

theorem commit_transaction_no_writes_counters (s : State) (h : countersAgree s) :
    countersAgree (commit_transaction_no_writes s).state := by
  unfold commit_transaction_no_writes
  apply andThen_counters _ _ (is_inevitable_counters s h)
  intro inev s1 h1
  apply andThen_counters
  · split
    · simp only [get_global_timestamp, set_global_timestamp, mutex_unlock]
      split
      · exact h1
      · exact h1
    · exact h1
  · intro _ s3 h3
    apply andThen_counters
    · exact common_cleanup_counters _ h3
    · intro _ s4 h4
      exact h4

theorem commit_transaction_writes_counters (fuel : Nat) (s : State) (h : countersAgree s) :
    countersAgree (commit_transaction_writes fuel s).state := by
  unfold commit_transaction_writes
  apply andThen_counters _ _ (acquireLocks_counters fuel s h)
  intro _ s1 h1
  apply andThen_counters _ _ (is_inevitable_counters s1 h1)
  intro inev s2 h2
  apply andThen_counters
  · split
    · exact commitInevitableTransaction_counters s2 h2
    · apply andThen_counters _ _ (commit_transaction_clock_counters fuel s2 h2)
      intro _ s3 h3
      apply andThen_counters
      · split
        · exact validate_counters s3 h3
        · exact h3
      · intro _ s4 h4
        exact h4
  · intro _ s5 h5
    apply andThen_counters
    · exact common_cleanup_counters _ h5
    · intro _ s6 h6
      exact h6

theorem commit_transaction_counters (fuel : Nat) (s : State) (h : countersAgree s) :
    countersAgree (commit_transaction fuel s).state := by
  unfold commit_transaction
  split
  · exact commit_transaction_no_writes_counters s h
  · exact commit_transaction_writes_counters fuel s h

theorem stm_read_word_retry_counters (fuel addr o : Nat) (s : State) (h : countersAgree s) :
    countersAgree (stm_read_word_retry fuel addr o s).state := by
  induction fuel generalizing s with
  | zero => exact h
  | succ n ih =>
    rw [stm_read_word_retry]
    simp only [get_global_timestamp]
    split
    · exact ih _ (tx_spinloop_counters 7 s (by decide) h)
    · have hs1 : countersAgree
          { s with d := { s.d with last_known_global_timestamp := s.global_timestamp } } := h
      have hscaled : ∀ r : Outcome Unit,
          r = (if IS_LOCKED_OR_NEWER (s.orecs o) s.d.start_time = true then
            match validate_fast (n + 1) 1
              { s with d := { s.d with last_known_global_timestamp := s.global_timestamp } } with
            | .ok _ s2 => .ok ()
                { s2 with d := { s2.d with start_time := ((and_not_1 s.global_timestamp : Nat) : Int) } }
            | other => other
          else .ok () s) → countersAgree r.state := by
        intro r hr
        rw [hr]
        split
        · have hX := validate_fast_counters (n + 1) 1 _ (by decide) (by decide) hs1
          split
          · rename_i s2 heq
            rw [heq] at hX
            exact hX
          · exact hX
        · exact h
      generalize hc : (if IS_LOCKED_OR_NEWER (s.orecs o) s.d.start_time = true then
            match validate_fast (n + 1) 1
              { s with d := { s.d with last_known_global_timestamp := s.global_timestamp } } with
            | .ok _ s2 => Outcome.ok ()
                { s2 with d := { s2.d with start_time := ((and_not_1 s.global_timestamp : Nat) : Int) } }
            | other => other
          else Outcome.ok () s) = scaled
      have hcs := hscaled scaled hc.symm
      cases scaled with
      | ok v s3 =>
        simp only []
        split
        · exact ih s3 hcs
        · exact hcs
      | restart b s2 => exact hcs
      | crash w s2 => exact hcs
      | waiting s2 => exact hcs

theorem stm_read_word_counters (fuel addr : Nat) (s : State) (h : countersAgree s) :
    countersAgree (stm_read_word fuel addr s).state := by
  unfold stm_read_word
  split
  · exact h
  · split
    · exact h
    · exact stm_read_word_retry_counters fuel addr _ s h

theorem stm_write_word_counters (addr : Nat) (val : Int) (s : State) (h : countersAgree s) :
    countersAgree (stm_write_word addr val s).state := by
  unfold stm_write_word
  split
  · split
    · exact h
    · exact h
  · exact h

theorem begin_transaction_counters (buf : Nat) (s : State) (h : countersAgree s) :
    countersAgree (begin_transaction buf s).state := by
  unfold begin_transaction
  split
  · exact h
  · exact h

theorem stm_try_inevitable_loop_counters (fuel : Nat) (s : State) (h : countersAgree s) :
    countersAgree (stm_try_inevitable_loop fuel s).state := by
  induction fuel generalizing s with
  | zero => exact h
  | succ n ih =>
    rw [stm_try_inevitable_loop]
    simp only [get_global_timestamp]
    have hs1 : countersAgree
        { s with d := { s.d with last_known_global_timestamp := s.global_timestamp } } := h
    have hscaled : ∀ r : Outcome Unit,
        r = (if (toUnsigned s.d.start_time != and_not_1 s.global_timestamp) = true then
          match validate_fast (n + 1) 2
            { s with d := { s.d with last_known_global_timestamp := s.global_timestamp } } with
          | .ok _ s2 => .ok ()
              { s2 with d := { s2.d with start_time := ((and_not_1 s.global_timestamp : Nat) : Int) } }
          | other => other
        else .ok ()
          { s with d := { s.d with last_known_global_timestamp := s.global_timestamp } }) →
        countersAgree r.state := by
      intro r hr
      rw [hr]
      split
      · have hX := validate_fast_counters (n + 1) 2 _ (by decide) (by decide) hs1
        split
        · rename_i s2 heq
          rw [heq] at hX
          exact hX
        · exact hX
      · exact hs1
    generalize hc : (if (toUnsigned s.d.start_time != and_not_1 s.global_timestamp) = true then
          match validate_fast (n + 1) 2
            { s with d := { s.d with last_known_global_timestamp := s.global_timestamp } } with
          | .ok _ s2 => Outcome.ok ()
              { s2 with d := { s2.d with start_time := ((and_not_1 s.global_timestamp : Nat) : Int) } }
          | other => other
        else Outcome.ok ()
          { s with d := { s.d with last_known_global_timestamp := s.global_timestamp } }) = scaled
    have hcs := hscaled scaled hc.symm
    cases scaled with
    | ok v s2 =>
      simp only []
      have hm := mutex_lock_counters s2 hcs
      cases hx : mutex_lock s2 with
      | ok v s3 =>
        rw [hx] at hm
        simp only []
        split
        · exact ih _ (tx_spinloop_counters 6 _ (by decide) hm)
        · simp only [change_global_timestamp, bool_cas_global_timestamp]
          by_cases hg : s3.global_timestamp = s.global_timestamp
          · simp only [hg, if_true]
            exact hm
          · simp only [hg, if_false]
            exact ih _ hm
      | restart b s3 => rw [hx] at hm; exact hm
      | crash w s3 => rw [hx] at hm; exact hm
      | waiting s3 => rw [hx] at hm; exact hm
    | restart b s2 => exact hcs
    | crash w s2 => exact hcs
    | waiting s2 => exact hcs

theorem stm_try_inevitable_counters (fuel : Nat) (s : State) (h : countersAgree s) :
    countersAgree (stm_try_inevitable fuel s).state := by
  unfold stm_try_inevitable
  split
  · exact h
  · split
    · exact h
    · have hX := stm_try_inevitable_loop_counters fuel s h
      split
      · rename_i s1 heq
        rw [heq] at hX
        exact hX
      · exact hX

theorem stm_abort_and_retry_counters (s : State) (h : countersAgree s) :
    countersAgree (stm_abort_and_retry s).state :=
  tx_abort_counters 7 s (by decide) h

theorem READ_PARTIAL_WORD_counters (sizeof_T fieldsize fuel addr : Nat) (s : State)
    (h : countersAgree s) :
    countersAgree (READ_PARTIAL_WORD sizeof_T fieldsize fuel addr s).state := by
  unfold READ_PARTIAL_WORD
  apply andThen_counters _ _ (stm_read_word_counters fuel _ s h)
  intro w s1 h1
  simp only []
  split
  · exact h1
  · exact h1

theorem WRITE_PARTIAL_WORD_counters (fieldsize fuel addr nval : Nat) (s : State)
    (h : countersAgree s) :
    countersAgree (WRITE_PARTIAL_WORD fieldsize fuel addr nval s).state := by
  unfold WRITE_PARTIAL_WORD
  apply andThen_counters _ _ (stm_read_word_counters fuel _ s h)
  intro w s1 h1
  exact stm_write_word_counters _ _ s1 h1

theorem stm_debug_get_state_counters (s : State) (h : countersAgree s) :
    countersAgree (stm_debug_get_state s).state := by
  unfold stm_debug_get_state
  split
  · exact h
  · split
    · exact h
    · have hX := is_inevitable_counters s h
      cases hx : is_inevitable s with
      | ok v s1 =>
        rw [hx] at hX
        cases v with
        | true => exact hX
        | false => exact hX
      | restart b s1 => rw [hx] at hX; exact hX
      | crash w s1 => rw [hx] at hX; exact hX
      | waiting s1 => rw [hx] at hX; exact hX

theorem andThen_unit_counters {α : Type} (x : Outcome α) (hx : countersAgree x.state) :
    countersAgree (x.andThen fun _ s1 => (Outcome.ok () s1 : Outcome Unit)).state :=
  andThen_counters x _ hx (fun _ _ h1 => h1)

theorem perform_counters (op : Operation) (s : State) (h : countersAgree s) :
    countersAgree (op.perform s).state := by
  cases op with
  | begin_transaction buf => exact begin_transaction_counters buf s h
  | stm_read_word fuel addr => exact andThen_unit_counters _ (stm_read_word_counters fuel addr s h)
  | stm_write_word addr val => exact stm_write_word_counters addr val s h
  | stm_read_partial_1 fuel addr =>
    exact andThen_unit_counters _ (READ_PARTIAL_WORD_counters 1 1 fuel addr s h)
  | stm_read_partial_2 fuel addr =>
    exact andThen_unit_counters _ (READ_PARTIAL_WORD_counters 2 2 fuel addr s h)
  | stm_read_partial_4 fuel addr =>
    exact andThen_unit_counters _ (READ_PARTIAL_WORD_counters 4 4 fuel addr s h)
  | stm_write_partial_1 fuel addr nval => exact WRITE_PARTIAL_WORD_counters 1 fuel addr _ s h
  | stm_write_partial_2 fuel addr nval => exact WRITE_PARTIAL_WORD_counters 2 fuel addr _ s h
  | stm_write_partial_4 fuel addr nval => exact WRITE_PARTIAL_WORD_counters 4 fuel addr _ s h
  | commit_transaction fuel => exact andThen_unit_counters _ (commit_transaction_counters fuel s h)
  | stm_try_inevitable fuel => exact stm_try_inevitable_counters fuel s h
  | stm_abort_and_retry => exact stm_abort_and_retry_counters s h
  | stm_debug_get_state => exact andThen_unit_counters _ (stm_debug_get_state_counters s h)

theorem run_operations_counters (ops : List Operation) (s : State) (h : countersAgree s) :
    countersAgree (run_operations ops s) := by
  induction ops generalizing s with
  | nil => exact h
  | cons op rest ih =>
    rw [run_operations]
    have hX := perform_counters op s h
    cases hx : op.perform s with
    | ok v s1 => rw [hx] at hX; exact ih s1 hX
    | restart b s1 => rw [hx] at hX; exact ih s1 hX
    | crash w s1 => rw [hx] at hX; exact hX
    | waiting s1 => rw [hx] at hX; exact hX

theorem descriptor_init_counters (p : Nat) (s0 s : State)
    (h : descriptor_init p s0 = .ok p s) : countersAgree s := by
  simp only [descriptor_init] at h
  split_ifs at h
  all_goals
    injection h with _ h
    rw [← h]
    unfold countersAgree
    rw [sum_range_ABORT_REASONS]
    rfl

theorem stm_perform_transaction_setjmp_counters
    (callback : Nat → Int → State → Outcome Nat) (arg jmpbuf fuel restarts : Nat)
    (v_counter : Int) (s : State)
    (hcb : ∀ a c x, countersAgree x → countersAgree (callback a c x).state)
    (h : countersAgree s) :
    countersAgree
      (stm_perform_transaction_setjmp callback arg jmpbuf fuel restarts v_counter s).state := by
  induction restarts generalizing s v_counter with
  | zero => exact h
  | succ n ih =>
    rw [stm_perform_transaction_setjmp]
    have hatt : countersAgree
        ((begin_transaction jmpbuf s).andThen fun _ s1 =>
          (callback arg v_counter s1).andThen fun result s2 =>
            (commit_transaction fuel s2).andThen fun _ s3 => Outcome.ok result s3).state := by
      apply andThen_counters _ _ (begin_transaction_counters jmpbuf s h)
      intro _ s1 h1
      apply andThen_counters _ _ (hcb arg v_counter s1 h1)
      intro result s2 h2
      apply andThen_counters _ _ (commit_transaction_counters fuel s2 h2)
      intro _ s3 h3
      exact h3
    simp only []
    split
    · rename_i env s4 heq
      rw [heq] at hatt
      split
      · exact ih _ _ hatt
      · exact hatt
    · exact hatt

theorem stm_perform_transaction_counters
    (callback : Nat → Int → State → Outcome Nat) (arg jmpbuf fuel restarts : Nat) (s : State)
    (hcb : ∀ a c x, countersAgree x → countersAgree (callback a c x).state)
    (h : countersAgree s) :
    countersAgree (stm_perform_transaction callback arg jmpbuf fuel restarts s).state := by
  unfold stm_perform_transaction
  split
  · exact stm_perform_transaction_setjmp_counters callback arg jmpbuf fuel restarts 0 s hcb h
  · exact h

theorem run_operations_cons_ok (op : Operation) (rest : List Operation) (s t : State)
    (h : op.perform s = .ok () t) :
    run_operations (op :: rest) s = run_operations rest t := by
  rw [run_operations, h]

theorem run_operations_cons_restart (op : Operation) (rest : List Operation) (s t : State)
    (buf : Nat) (h : op.perform s = .restart buf t) :
    run_operations (op :: rest) s = run_operations rest t := by
  rw [run_operations, h]

/-- An attempt that is given up with `stm_abort_and_retry`. -/
theorem run_operations_abort_7 (buf : Nat) (s : State)
    (hact : s.d.transaction_active = false) (hlog : s.d.redolog = []) :
    ∃ t, (∀ rest, run_operations
          (.begin_transaction buf :: .stm_abort_and_retry :: rest) s = run_operations rest t)
      ∧ t.d.transaction_active = false ∧ t.d.redolog = []
      ∧ t.d.last_known_global_timestamp = s.d.last_known_global_timestamp
      ∧ t.orecs = s.orecs ∧ t.d.my_lock_word = s.d.my_lock_word
      ∧ t.d.num_aborts = store s.d.num_aborts 7 ((s.d.num_aborts 7 + 1) % 2 ^ 32)
      ∧ t.d.num_spinloops 0 = (s.d.num_spinloops 0 + 1) % 2 ^ 32 := by
  have hb := begin_transaction_inactive buf s hact
  have ha := tx_abort_eq (α := Unit) 7 buf (begin_transaction buf s).state
    (by rw [hb]; rfl) (by rw [hb]; rfl)
  rw [hb] at ha
  simp only [Outcome.state] at ha
  obtain ⟨t, ht, f1, f2, f3, f4, f5, f6, f7⟩ : ∃ t,
      Operation.stm_abort_and_retry.perform
        { s with d := { s.d with
          transaction_active := true,
          setjmp_buf := some buf,
          start_time := ((and_not_1 s.d.last_known_global_timestamp : Nat) : Int) } }
        = .restart buf t
      ∧ t.d.transaction_active = false ∧ t.d.redolog = []
      ∧ t.d.last_known_global_timestamp = s.d.last_known_global_timestamp
      ∧ t.orecs = s.d.redolog.foldl revert_item s.orecs
      ∧ t.d.my_lock_word = s.d.my_lock_word
      ∧ t.d.num_aborts = store s.d.num_aborts 7 ((s.d.num_aborts 7 + 1) % 2 ^ 32)
      ∧ t.d.num_spinloops 0 = (s.d.num_spinloops 0 + 1) % 2 ^ 32 :=
    ⟨_, ha, rfl, rfl, rfl, rfl, rfl, rfl, by simp [tx_spinloop, store]⟩
  refine ⟨t, fun rest => ?_, f1, f2, f3, ?_, f5, f6, f7⟩
  · rw [run_operations_cons_ok (.begin_transaction buf) _ s _ hb]
    exact run_operations_cons_restart _ _ _ _ buf ht
  · rw [f4, hlog]
    rfl

/-- An attempt that writes a word whose orec is locked by another thread. -/
theorem run_operations_abort_6 (buf fuel addr : Nat) (val : Int) (s : State)
    (hact : s.d.transaction_active = false) (hlog : s.d.redolog = [])
    (hal : addr % sizeof_void_p = 0)
    (hlocked : s.orecs (get_orec addr) < 0) (ho : isLong (s.orecs (get_orec addr)))
    (hother : s.orecs (get_orec addr) ≠ s.d.my_lock_word)
    (hlast : s.d.last_known_global_timestamp < 2 ^ 63) :
    ∃ t, (∀ rest, run_operations
          (.begin_transaction buf :: .stm_write_word addr val
            :: .commit_transaction (fuel + 1) :: rest) s = run_operations rest t)
      ∧ t.d.transaction_active = false ∧ t.d.redolog = []
      ∧ t.d.last_known_global_timestamp = s.d.last_known_global_timestamp
      ∧ t.orecs = s.orecs ∧ t.d.my_lock_word = s.d.my_lock_word
      ∧ t.d.num_aborts = store s.d.num_aborts 6 ((s.d.num_aborts 6 + 1) % 2 ^ 32)
      ∧ t.d.num_spinloops 0 = (s.d.num_spinloops 0 + 1) % 2 ^ 32 := by
  have hb := begin_transaction_inactive buf s hact
  generalize hs1 : ({ s with d := { s.d with
          transaction_active := true,
          setjmp_buf := some buf,
          start_time := ((and_not_1 s.d.last_known_global_timestamp : Nat) : Int) } } : State)
    = s1 at hb
  have hact1 : s1.d.transaction_active = true := by rw [← hs1]
  have hw := stm_write_word_active addr val s1 hal hact1
  generalize hs2 : ({ s1 with d := { s1.d with redolog := redolog_insert s1.d.redolog addr val } }
    : State) = s2 at hw
  have hlog2 : s2.d.redolog = [{ addr := addr, val := val, p := -1 }] := by
    rw [← hs2, ← hs1]
    simp [hlog, redolog_insert]
  have hact2 : s2.d.transaction_active = true := by rw [← hs2]; exact hact1
  have hbuf2 : s2.d.setjmp_buf = some buf := by rw [← hs2, ← hs1]
  have horec2 : s2.orecs = s.orecs := by rw [← hs2, ← hs1]
  have hst2 : s2.d.start_time = ((and_not_1 s.d.last_known_global_timestamp : Nat) : Int) := by
    rw [← hs2, ← hs1]
  have hitem : s2.d.redolog[0]? = some { addr := addr, val := val, p := -1 } := by
    rw [hlog2]
    rfl
  have hst0 : 0 ≤ s2.d.start_time := by rw [hst2]; exact Int.ofNat_nonneg _
  have hstl : isLong s2.d.start_time := by
    rw [hst2]
    unfold isLong and_not_1
    constructor
    · have : (0 : Int) ≤ ((s.d.last_known_global_timestamp - s.d.last_known_global_timestamp % 2 : Nat) : Int) :=
        Int.ofNat_nonneg _
      omega
    · have : s.d.last_known_global_timestamp - s.d.last_known_global_timestamp % 2 < 2 ^ 63 := by omega
      exact_mod_cast this
  have hnew : IS_LOCKED_OR_NEWER (s2.orecs (get_orec addr)) s2.d.start_time = true := by
    rw [horec2]
    exact (IS_LOCKED_OR_NEWER_true_iff _ _ ho hst0 hstl).2 (Or.inl hlocked)
  have hl : IS_LOCKED (s2.orecs (get_orec addr)) = true := by
    rw [horec2]
    simp [IS_LOCKED, hlocked]
  have hmy : s2.d.my_lock_word = s.d.my_lock_word := by rw [← hs2, ← hs1]
  have hit : acquireLocks_item (fuel + 1) 0 s2 = tx_abort 6 s2 := by
    rw [acquireLocks_item_locked hitem hnew hl (by rw [horec2, hmy]; exact hother)]
    simp [is_inevitable, hact2, is_inevitable_or_inactive, hbuf2]
  have hab := tx_abort_eq (α := Unit) 6 buf s2 hact2 hbuf2
  have hacq : acquireLocks (fuel + 1) s2 = .restart buf (tx_spinloop 0
      { s2 with
        orecs := s2.d.redolog.foldl revert_item s2.orecs,
        d := { s2.d with
          num_aborts := store s2.d.num_aborts 6 ((s2.d.num_aborts 6 + 1) % 2 ^ 32),
          reads := [], redolog := [], transaction_active := false, setjmp_buf := none } }) := by
    unfold acquireLocks
    have hlen : s2.d.redolog.length = 0 + 1 := by rw [hlog2]; rfl
    rw [hlen]
    exact acquireLocks_loop_succ_of_restart (hit.trans hab)
  have hc : (Operation.commit_transaction (fuel + 1)).perform s2 = .restart buf (tx_spinloop 0
      { s2 with
        orecs := s2.d.redolog.foldl revert_item s2.orecs,
        d := { s2.d with
          num_aborts := store s2.d.num_aborts 6 ((s2.d.num_aborts 6 + 1) % 2 ^ 32),
          reads := [], redolog := [], transaction_active := false, setjmp_buf := none } }) := by
    simp [Operation.perform, commit_transaction, redolog_any_entry, hlog2,
      commit_transaction_writes, hacq, Outcome.andThen]
  obtain ⟨t, ht, f1, f2, f3, f4, f5, f6, f7⟩ : ∃ t,
      (Operation.commit_transaction (fuel + 1)).perform s2 = .restart buf t
      ∧ t.d.transaction_active = false ∧ t.d.redolog = []
      ∧ t.d.last_known_global_timestamp = s2.d.last_known_global_timestamp
      ∧ t.orecs = s2.d.redolog.foldl revert_item s2.orecs
      ∧ t.d.my_lock_word = s2.d.my_lock_word
      ∧ t.d.num_aborts = store s2.d.num_aborts 6 ((s2.d.num_aborts 6 + 1) % 2 ^ 32)
      ∧ t.d.num_spinloops 0 = (s2.d.num_spinloops 0 + 1) % 2 ^ 32 :=
    ⟨_, hc, rfl, rfl, rfl, rfl, rfl, rfl, by simp [tx_spinloop, store]⟩
  refine ⟨t, fun rest => ?_, f1, f2, ?_, ?_, ?_, ?_, ?_⟩
  · rw [run_operations_cons_ok (.begin_transaction buf) _ s _ hb,
      run_operations_cons_ok (.stm_write_word addr val) _ s1 _ hw]
    exact run_operations_cons_restart _ _ _ _ buf ht
  · rw [f3, ← hs2, ← hs1]
  · rw [f4, hlog2, horec2]
    rfl
  · rw [f5]
    exact hmy
  · rw [f6, ← hs2, ← hs1]
  · rw [f7, ← hs2, ← hs1]


theorem unsigned_of_int_of_unsigned (x : Nat) :
    unsigned_of_int (int_of_unsigned x) = x % 2 ^ 32 := by
  unfold unsigned_of_int int_of_unsigned
  norm_num
  split <;> omega

theorem unsigned_of_int_sum_num_aborts (d : tx_descriptor) :
    unsigned_of_int (sum_num_aborts d)
      = ((List.range ABORT_REASONS).map d.num_aborts).sum % 2 ^ 32 := by
  rw [sum_range_ABORT_REASONS]
  simp only [sum_num_aborts, ABORT_REASONS, List.range_succ, List.range_zero, List.nil_append,
    List.cons_append, List.foldl_cons, List.foldl_nil, unsigned_of_int_of_unsigned]
  have h0 : unsigned_of_int 0 = 0 := rfl
  rw [h0]
  omega

/-- The state after `k` turns of `scenario_two_aborts` from the registration
of the thread of `scenario_contended`. -/
theorem run_operations_two_aborts (n : Nat) :
    ∀ (k : Nat) (s : State),
      s.d.transaction_active = false → s.d.redolog = [] →
      s.d.last_known_global_timestamp = 0 → s.orecs = (fun _ => -2001) →
      s.d.my_lock_word = -1001 →
      s.d.num_aborts 6 = k % 2 ^ 32 → s.d.num_aborts 7 = k % 2 ^ 32 →
      (∀ r, r ≠ 6 → r ≠ 7 → s.d.num_aborts r = 0) →
      s.d.num_spinloops 0 = (2 * k) % 2 ^ 32 →
      (run_operations (List.replicate n scenario_two_aborts).flatten s).d.num_aborts 6
          = (k + n) % 2 ^ 32
        ∧ (run_operations (List.replicate n scenario_two_aborts).flatten s).d.num_aborts 7
          = (k + n) % 2 ^ 32
        ∧ (∀ r, r ≠ 6 → r ≠ 7 →
            (run_operations (List.replicate n scenario_two_aborts).flatten s).d.num_aborts r = 0)
        ∧ (run_operations (List.replicate n scenario_two_aborts).flatten s).d.num_spinloops 0
          = (2 * (k + n)) % 2 ^ 32 := by
  induction n with
  | zero =>
    intro k s _ _ _ _ _ h6 h7 hr h0
    exact ⟨h6, h7, hr, h0⟩
  | succ n ih =>
    intro k s hact hlog hlast horecs hmy h6 h7 hr h0
    obtain ⟨t1, hrun1, a1, a2, a3, a4, a5, a6, a7⟩ := run_operations_abort_7 1 s hact hlog
    obtain ⟨t2, hrun2, b1, b2, b3, b4, b5, b6, b7⟩ :=
      run_operations_abort_6 1 0 scenario_X 11 t1 a1 a2 (by decide)
        (by rw [a4, horecs]; decide) (by rw [a4, horecs]; decide)
        (by rw [a4, horecs, a5, hmy]; decide) (by rw [a3, hlast]; decide)
    have hrun : run_operations (List.replicate (n + 1) scenario_two_aborts).flatten s
        = run_operations (List.replicate n scenario_two_aborts).flatten t2 := by
      rw [List.replicate_succ, List.flatten_cons]
      show run_operations (.begin_transaction 1 :: .stm_abort_and_retry ::
        (.begin_transaction 1 :: .stm_write_word scenario_X 11 :: .commit_transaction (0 + 1) ::
          (List.replicate n scenario_two_aborts).flatten)) s = _
      rw [hrun1, hrun2]
    rw [hrun]
    have hk : k + (n + 1) = (k + 1) + n := by omega
    rw [hk]
    apply ih (k + 1) t2 b1 b2 (by rw [b3, a3, hlast]) (by rw [b4, a4, horecs])
      (by rw [b5, a5, hmy])
    · rw [b6, a6]
      simp only [store]
      simp only [if_true, show ¬ (6 = 7) by decide, if_false, h6]
      omega
    · rw [b6, a6]
      simp only [store]
      simp only [if_true, show ¬ (7 = 6) by decide, if_false, h7]
      omega
    · intro r hr6 hr7
      rw [b6, a6]
      simp only [store, hr6, hr7, if_false]
      exact hr r hr6 hr7
    · rw [b7, a7, h0]
      omega


/-- C23, counterexample: the thread of `scenario_contended` registers and
makes `2^31` times two attempts, one given up with `stm_abort_and_retry`
(reason 7), one aborted by `commit_transaction` on an orec that another thread
holds (reason 6).  After these `2^32` aborts `num_spinloops[0]`, an
`unsigned`, is back to `0`, while `num_aborts[6]` and `num_aborts[7]` hold
`2^31` each: their sum is `2^32`. -/
theorem num_spinloops_0_wraps :
    ∃ s, descriptor_init 1000 scenario_contended = .ok 1000 s
      ∧ (run_operations (List.replicate (2 ^ 31) scenario_two_aborts).flatten s).d.num_spinloops 0
          = 0
      ∧ ((List.range ABORT_REASONS).map
          (run_operations
            (List.replicate (2 ^ 31) scenario_two_aborts).flatten s).d.num_aborts).sum
          = 2 ^ 32 := by
  refine ⟨(descriptor_init 1000 scenario_contended).state, rfl, ?_⟩
  obtain ⟨h6, h7, hr, h0⟩ := run_operations_two_aborts (2 ^ 31) 0
    (descriptor_init 1000 scenario_contended).state rfl rfl rfl rfl rfl rfl rfl
    (fun _ _ _ => rfl) rfl
  refine ⟨h0.trans (by decide), ?_⟩
  rw [sum_range_ABORT_REASONS, h6, h7, hr 0 (by decide) (by decide),
    hr 1 (by decide) (by decide), hr 2 (by decide) (by decide), hr 3 (by decide) (by decide),
    hr 4 (by decide) (by decide), hr 5 (by decide) (by decide)]
  decide

/-- C23, as amended: in the state reached from the return of
`descriptor_init` by any sequence of calls of the engine (`begin_transaction`,
the reads and writes of words and of partial words, `commit_transaction`,
`stm_try_inevitable`, `stm_abort_and_retry`, `stm_debug_get_state`), whether
they return, leave by `longjmp`, end the process or are still waiting,
`num_spinloops[0]` is the sum of `num_aborts[r]` over the reasons `r` below
`ABORT_REASONS` modulo `2^32`, so that it is equal, as an `unsigned`, to the
`int` that the loop of `descriptor_done` computes; a call of
`stm_perform_transaction` from there keeps this when the callback keeps it.
The reason: `tx_abort(r)` of an active transaction that is not inevitable adds
one, modulo `2^32`, to `num_aborts[r]` and to `num_spinloops[0]`, and
`tx_spinloop(num)` with `num` other than 0 leaves `num_spinloops[0]` and
`num_aborts` as they are. -/
theorem num_spinloops_0_eq_num_aborts (p : Nat) (s0 s : State) (ops : List Operation)
    (hinit : descriptor_init p s0 = .ok p s) :
    (run_operations ops s).d.num_spinloops 0
      = ((List.range ABORT_REASONS).map (run_operations ops s).d.num_aborts).sum % 2 ^ 32
    ∧ (run_operations ops s).d.num_spinloops 0
      = unsigned_of_int (sum_num_aborts (run_operations ops s).d)
    ∧ (∀ (callback : Nat → Int → State → Outcome Nat) (arg jmpbuf fuel restarts : Nat),
        (∀ a c x, countersAgree x → countersAgree (callback a c x).state) →
        (stm_perform_transaction callback arg jmpbuf fuel restarts
            (run_operations ops s)).state.d.num_spinloops 0
          = ((List.range ABORT_REASONS).map
              (stm_perform_transaction callback arg jmpbuf fuel restarts
                (run_operations ops s)).state.d.num_aborts).sum % 2 ^ 32)
    ∧ (∀ (r buf : Nat) (u : State), r < ABORT_REASONS →
        u.d.transaction_active = true → u.d.setjmp_buf = some buf →
        ∃ t, (tx_abort r u : Outcome Unit) = .restart buf t
          ∧ t.d.num_spinloops 0 = (u.d.num_spinloops 0 + 1) % 2 ^ 32
          ∧ t.d.num_aborts r = (u.d.num_aborts r + 1) % 2 ^ 32
          ∧ ∀ k, k ≠ r → t.d.num_aborts k = u.d.num_aborts k)
    ∧ (∀ (num : Nat) (u : State), num ≠ 0 →
        (tx_spinloop num u).d.num_spinloops 0 = u.d.num_spinloops 0
          ∧ (tx_spinloop num u).d.num_aborts = u.d.num_aborts) := by
  have hs := descriptor_init_counters p s0 s hinit
  have hr := run_operations_counters ops s hs
  refine ⟨hr, ?_, ?_, ?_, ?_⟩
  · rw [unsigned_of_int_sum_num_aborts]
    exact hr
  · intro callback arg jmpbuf fuel restarts hcb
    exact stm_perform_transaction_counters callback arg jmpbuf fuel restarts _ hcb hr
  · intro r buf u _ hact hbuf
    refine ⟨_, tx_abort_eq r buf u hact hbuf, ?_, ?_, ?_⟩
    · simp [tx_spinloop, store]
    · simp [tx_spinloop, store]
    · intro k hk
      simp [tx_spinloop, store, hk]
  · intro num u hnum
    refine ⟨?_, rfl⟩
    simp only [tx_spinloop, store]
    rw [if_neg (Ne.symm hnum)]

/-- Witness of C23 as amended: the thread of the scenario registers, gives up
its first attempt with `stm_abort_and_retry` and runs a second one: one abort
is counted for the reason 7, and the counters agree. -/
theorem num_spinloops_0_eq_num_aborts_witness :
    (run_operations scenario_retry_operations scenario_init).d.num_spinloops 0
      = ((List.range ABORT_REASONS).map
          (run_operations scenario_retry_operations scenario_init).d.num_aborts).sum % 2 ^ 32
    ∧ (run_operations scenario_retry_operations scenario_init).d.num_aborts 7 = 1 :=
  ⟨(num_spinloops_0_eq_num_aborts 1000 scenario_unregistered scenario_init
      scenario_retry_operations rfl).1, rfl⟩

/-- An attempt that reads and writes nothing and commits. -/
theorem run_operations_commit (buf fuel : Nat) (s : State)
    (hact : s.d.transaction_active = false) (hlog : s.d.redolog = []) :
    ∃ t, (∀ rest, run_operations
          (.begin_transaction buf :: .commit_transaction fuel :: rest) s = run_operations rest t)
      ∧ t.d.transaction_active = false ∧ t.d.redolog = []
      ∧ t.d.num_commits = (s.d.num_commits + 1) % 2 ^ 32 := by
  have hb := begin_transaction_inactive buf s hact
  generalize hs1 : ({ s with d := { s.d with
          transaction_active := true,
          setjmp_buf := some buf,
          start_time := ((and_not_1 s.d.last_known_global_timestamp : Nat) : Int) } } : State)
    = s1 at hb
  have hc := commit_transaction_read_only fuel buf s1 (by rw [← hs1]) (by rw [← hs1])
    (by rw [← hs1]; exact hlog)
  have hp : (Operation.commit_transaction fuel).perform s1 = .ok ()
      { s1 with d := { s1.d with
          num_commits := (s1.d.num_commits + 1) % 2 ^ 32,
          reads := [],
          redolog := [],
          transaction_active := false,
          setjmp_buf := none } } := by
    show (commit_transaction fuel s1).andThen _ = _
    rw [hc]
    rfl
  obtain ⟨t, ht, f1, f2, f3⟩ : ∃ t, (Operation.commit_transaction fuel).perform s1 = .ok () t
      ∧ t.d.transaction_active = false ∧ t.d.redolog = []
      ∧ t.d.num_commits = (s1.d.num_commits + 1) % 2 ^ 32 := ⟨_, hp, rfl, rfl, rfl⟩
  refine ⟨t, fun rest => ?_, f1, f2, ?_⟩
  · rw [run_operations_cons_ok (.begin_transaction buf) _ s _ hb]
    exact run_operations_cons_ok _ _ _ _ ht
  · rw [f3, ← hs1]

theorem run_operations_commit_rounds (n : Nat) :
    ∀ (k : Nat) (s : State),
      s.d.transaction_active = false → s.d.redolog = [] → s.d.num_commits = k % 2 ^ 32 →
      ∃ t, (∀ rest, run_operations
            ((List.replicate n scenario_commit_round).flatten ++ rest) s = run_operations rest t)
        ∧ t.d.transaction_active = false ∧ t.d.redolog = []
        ∧ t.d.num_commits = (k + n) % 2 ^ 32 := by
  induction n with
  | zero =>
    intro k s hact hlog hk
    exact ⟨s, fun rest => rfl, hact, hlog, hk⟩
  | succ n ih =>
    intro k s hact hlog hk
    obtain ⟨t1, hrun1, a1, a2, a3⟩ := run_operations_commit 1 0 s hact hlog
    obtain ⟨t, hrun, b1, b2, b3⟩ := ih (k + 1) t1 a1 a2 (by rw [a3, hk]; omega)
    refine ⟨t, fun rest => ?_, b1, b2, by rw [b3]; congr 1; omega⟩
    rw [List.replicate_succ, List.flatten_cons, List.append_assoc]
    show run_operations (.begin_transaction 1 :: .commit_transaction 0 ::
      ((List.replicate n scenario_commit_round).flatten ++ rest)) s = _
    rw [hrun1, hrun]

theorem run_operations_abort_rounds (n : Nat) :
    ∀ (k : Nat) (s : State),
      s.d.transaction_active = false → s.d.redolog = [] → s.d.num_aborts 7 = k % 2 ^ 32 →
      ∃ t, (∀ rest, run_operations
            ((List.replicate n scenario_abort_round).flatten ++ rest) s = run_operations rest t)
        ∧ t.d.transaction_active = false ∧ t.d.redolog = []
        ∧ t.d.num_aborts 7 = (k + n) % 2 ^ 32 := by
  induction n with
  | zero =>
    intro k s hact hlog hk
    exact ⟨s, fun rest => rfl, hact, hlog, hk⟩
  | succ n ih =>
    intro k s hact hlog hk
    obtain ⟨t1, hrun1, a1, a2, _, _, _, a6, _⟩ := run_operations_abort_7 1 s hact hlog
    obtain ⟨t, hrun, b1, b2, b3⟩ := ih (k + 1) t1 a1 a2 (by
      rw [a6]
      simp only [store, if_true]
      rw [hk]
      omega)
    refine ⟨t, fun rest => ?_, b1, b2, by rw [b3]; congr 1; omega⟩
    rw [List.replicate_succ, List.flatten_cons, List.append_assoc]
    show run_operations (.begin_transaction 1 :: .stm_abort_and_retry ::
      ((List.replicate n scenario_abort_round).flatten ++ rest)) s = _
    rw [hrun1, hrun]

/-- C6, counterexample: the thread of the scenario commits `2^32 - 1`
transactions that read and write nothing, and begins one more: `num_commits`
holds `4294967295`, and the commit of this transaction, whose redo log is
empty, sets it to `0`. -/
theorem commit_transaction_wraps_num_commits :
    ∃ s, s = run_operations ((List.replicate (2 ^ 32 - 1) scenario_commit_round).flatten
          ++ [.begin_transaction 1]) scenario_init
      ∧ s.d.transaction_active = true ∧ s.d.redolog = []
      ∧ s.d.num_commits = 4294967295
      ∧ ∃ s1, commit_transaction 0 s = .ok s.d.start_time s1 ∧ s1.d.num_commits = 0 := by
  obtain ⟨t, hrun, b1, b2, b3⟩ :=
    run_operations_commit_rounds (2 ^ 32 - 1) 0 scenario_init rfl rfl rfl
  have hb := begin_transaction_inactive 1 t b1
  generalize hs1 : ({ t with d := { t.d with
          transaction_active := true,
          setjmp_buf := some 1,
          start_time := ((and_not_1 t.d.last_known_global_timestamp : Nat) : Int) } } : State)
    = s1 at hb
  have hs : run_operations ((List.replicate (2 ^ 32 - 1) scenario_commit_round).flatten
      ++ [.begin_transaction 1]) scenario_init = s1 := by
    rw [hrun, run_operations_cons_ok (.begin_transaction 1) _ t _ hb]
    rfl
  have hnum : s1.d.num_commits = 4294967295 := by
    rw [← hs1]
    exact b3.trans (by decide)
  have hc := commit_transaction_read_only 0 1 s1 (by rw [← hs1]) (by rw [← hs1])
    (by rw [← hs1]; exact b2)
  refine ⟨s1, hs.symm, by rw [← hs1], by rw [← hs1]; exact b2, hnum, _, hc, ?_⟩
  show (s1.d.num_commits + 1) % 2 ^ 32 = 0
  rw [hnum]
  decide

/-- C8, counterexample: the thread of the scenario gives up `2^32 - 1`
attempts with `stm_abort_and_retry` and begins one more: `num_aborts[7]` holds
`4294967295`, and `tx_abort(7)` sets it to `0`. -/
theorem tx_abort_wraps_num_aborts :
    ∃ s, s = run_operations ((List.replicate (2 ^ 32 - 1) scenario_abort_round).flatten
          ++ [.begin_transaction 1]) scenario_init
      ∧ s.d.transaction_active = true ∧ s.d.setjmp_buf = some 1
      ∧ s.d.num_aborts 7 = 4294967295
      ∧ ∃ s1, (tx_abort 7 s : Outcome Unit) = .restart 1 s1 ∧ s1.d.num_aborts 7 = 0 := by
  obtain ⟨t, hrun, b1, _, b3⟩ :=
    run_operations_abort_rounds (2 ^ 32 - 1) 0 scenario_init rfl rfl rfl
  have hb := begin_transaction_inactive 1 t b1
  generalize hs1 : ({ t with d := { t.d with
          transaction_active := true,
          setjmp_buf := some 1,
          start_time := ((and_not_1 t.d.last_known_global_timestamp : Nat) : Int) } } : State)
    = s1 at hb
  have hs : run_operations ((List.replicate (2 ^ 32 - 1) scenario_abort_round).flatten
      ++ [.begin_transaction 1]) scenario_init = s1 := by
    rw [hrun, run_operations_cons_ok (.begin_transaction 1) _ t _ hb]
    rfl
  have hnum : s1.d.num_aborts 7 = 4294967295 := by
    rw [← hs1]
    exact b3.trans (by decide)
  have hact1 : s1.d.transaction_active = true := by rw [← hs1]
  have hbuf1 : s1.d.setjmp_buf = some 1 := by rw [← hs1]
  refine ⟨s1, hs.symm, hact1, hbuf1, hnum, _, tx_abort_eq 7 1 s1 hact1 hbuf1, ?_⟩
  show store s1.d.num_aborts 7 ((s1.d.num_aborts 7 + 1) % 2 ^ 32) 7 = 0
  simp only [store, if_true]
  rw [hnum]
  decide

/-! ## Invariant I1 of the specification -/

theorem foldl_revert_item_bounded (c : Nat) (l : RedoLog) (f : Nat → Int)
    (hf : ∀ o, versionBound c (f o)) (hl : ∀ item ∈ l, versionBound c item.p) :
    ∀ o, versionBound c ((l.foldl revert_item f) o) := by
  induction l generalizing f with
  | nil => exact hf
  | cons item rest ih =>
    rw [List.foldl_cons]
    apply ih
    · intro o
      unfold revert_item
      split
      · unfold store
        split
        · exact hl item (List.mem_cons_self _ _)
        · exact hf o
      · exact hf o
    · intro it hit
      exact hl it (List.mem_cons_of_mem _ hit)

theorem releaseAndRevertLocks_bounded (s : State) (h : orecsBounded s) :
    orecsBounded (releaseAndRevertLocks s) :=
  ⟨foldl_revert_item_bounded _ _ _ h.1 h.2.1, h.2.1, h.2.2⟩

end Stm
